import Mathlib

/-!
Verification of the input-capture / merit-counting core of the `cyber-zen`
desktop application (Rust sources under `src/src-tauri/src`).

The Rust code is shallowly embedded: `u64`/`u32` counters become `Nat` with
explicit saturation at `2^64 - 1` / `2^32 - 1` (mirroring `saturating_add`),
`HashMap`s whose iteration order is immaterial become either association
lists (first-insertion order, when the code iterates them) or total
functions with default 0 (when only pointwise lookup matters), fallible
operations return `Except`/`Option`, and every call to the system clock is
replaced by an explicit `Clock` argument.
-/

/-! ## Saturating u64 / u32 arithmetic (`saturating_add`) -/

def U64MAX : Nat := 2 ^ 64 - 1
def U32MAX : Nat := 2 ^ 32 - 1

/-- `u64::saturating_add` on the `Nat` embedding of `u64`. -/
def satAdd64 (a b : Nat) : Nat := min (a + b) U64MAX

/-- `u32::saturating_add` on the `Nat` embedding of `u32`. -/
def satAdd32 (a b : Nat) : Nat := min (a + b) U32MAX

/-! ## Input classification (`models/merit.rs`) -/

inductive InputOrigin where
  | Global
  | App
deriving DecidableEq, Repr

inductive InputSource where
  | Keyboard
  | MouseSingle
deriving DecidableEq, Repr

/-- `Settings` (`models/settings.rs`): the two per-source counting toggles
the core reads; remaining fields are irrelevant to the claims. -/
structure Settings where
  enable_keyboard : Bool
  enable_mouse_single : Bool
deriving DecidableEq, Repr

def Settings.new : Settings := { enable_keyboard := true, enable_mouse_single := true }

/-- `InputSource::deserialize` (`models/merit.rs:50-63`): the string-level
match performed after serde has produced a `String`. -/
def InputSource.deserializeStr (raw : String) : Except String InputSource :=
  match raw with
  | "keyboard" => .ok .Keyboard
  | "mouse_single" => .ok .MouseSingle
  | "mouse_double" => .ok .MouseSingle
  | _ => .error ("invalid input source: " ++ raw)

/-! ## Clock

Every call the Rust code makes to `Local::now()` / `Utc::now()` is replaced
by an explicit clock value: `date` is the local calendar day (a day index
standing for `NaiveDate`), `hour` the local hour, `nowMs` the Unix
millisecond timestamp. -/

structure Clock where
  date : Nat
  hour : Nat
  nowMs : Nat
deriving DecidableEq, Repr

/-! ## Daily statistics (`models/merit.rs`)

`HashMap<String, u64>` counter maps that the code only ever reads pointwise
are embedded as total functions `String → Nat` with default 0 (a key that is
absent holds count 0); `app_input_counts` is kept as an association list
because `prune_app_input_counts` needs the map's size and entry list. -/

structure HourlyStats where
  total : Nat
  keyboard : Nat
  mouse_single : Nat
deriving DecidableEq, Repr

instance : Inhabited HourlyStats := ⟨⟨0, 0, 0⟩⟩

/-- `HourlyStats::add_merit`. -/
def HourlyStats.addMerit (h : HourlyStats) (source : InputSource) (count : Nat) : HourlyStats :=
  if count = 0 then h
  else
    let h := { h with total := satAdd64 h.total count }
    match source with
    | .Keyboard => { h with keyboard := satAdd64 h.keyboard count }
    | .MouseSingle => { h with mouse_single := satAdd64 h.mouse_single count }

structure AppInputStats where
  name : Option String
  total : Nat
  keyboard : Nat
  mouse_single : Nat
deriving DecidableEq, Repr

instance : Inhabited AppInputStats := ⟨⟨none, 0, 0, 0⟩⟩

/-- `AppInputStats::add`. -/
def AppInputStats.add (s : AppInputStats) (name : Option String) (source : InputSource)
    (count : Nat) : AppInputStats :=
  if count = 0 then s
  else
    let s := if s.name.isNone then { s with name := name } else s
    let s := { s with total := satAdd64 s.total count }
    match source with
    | .Keyboard => { s with keyboard := satAdd64 s.keyboard count }
    | .MouseSingle => { s with mouse_single := satAdd64 s.mouse_single count }

def MAX_APP_ENTRIES_PER_DAY : Nat := 200

structure DailyStats where
  date : Nat
  total : Nat
  keyboard : Nat
  mouse_single : Nat
  first_event_at_ms : Option Nat
  last_event_at_ms : Option Nat
  mouse_move_distance_px : Nat
  hourly : List HourlyStats
  key_counts : String → Nat
  key_counts_unshifted : String → Nat
  key_counts_shifted : String → Nat
  shortcut_counts : String → Nat
  mouse_button_counts : String → Nat
  app_input_counts : List (String × AppInputStats)

def defaultHourlyStats : List HourlyStats := List.replicate 24 default

/-- `DailyStats::new`. -/
def DailyStats.new (date : Nat) : DailyStats where
  date := date
  total := 0
  keyboard := 0
  mouse_single := 0
  first_event_at_ms := none
  last_event_at_ms := none
  mouse_move_distance_px := 0
  hourly := defaultHourlyStats
  key_counts := fun _ => 0
  key_counts_unshifted := fun _ => 0
  key_counts_shifted := fun _ => 0
  shortcut_counts := fun _ => 0
  mouse_button_counts := fun _ => 0
  app_input_counts := []

/-- `DailyStats::normalize_hourly`: pad or truncate the hourly vector to 24
buckets (copying existing entries in place). -/
def DailyStats.normalizeHourly (d : DailyStats) : DailyStats :=
  if d.hourly.length = 24 then d
  else if d.hourly.isEmpty then { d with hourly := defaultHourlyStats }
  else { d with hourly := d.hourly.take 24 ++ List.replicate (24 - (d.hourly.take 24).length) default }

/-- `DailyStats::record_event_at_ms`. -/
def DailyStats.recordEventAtMs (d : DailyStats) (eventAtMs : Nat) : DailyStats :=
  if eventAtMs = 0 then d
  else
    { d with
      first_event_at_ms := some (match d.first_event_at_ms with
        | some existing => min existing eventAtMs
        | none => eventAtMs)
      last_event_at_ms := some (match d.last_event_at_ms with
        | some existing => max existing eventAtMs
        | none => eventAtMs) }

/-- `DailyStats::add_merit`. -/
def DailyStats.addMerit (d : DailyStats) (source : InputSource) (count : Nat)
    (eventAtMs : Nat) : DailyStats :=
  if count = 0 then d
  else
    let d := d.recordEventAtMs eventAtMs
    let d := { d with total := satAdd64 d.total count }
    match source with
    | .Keyboard => { d with keyboard := satAdd64 d.keyboard count }
    | .MouseSingle => { d with mouse_single := satAdd64 d.mouse_single count }

/-- `DailyStats::add_hourly_merit` (an out-of-range bucket index is ignored,
matching the `get_mut` guard; `List.set` past the end is a no-op). -/
def DailyStats.addHourlyMerit (d : DailyStats) (hour : Nat) (source : InputSource)
    (count : Nat) : DailyStats :=
  if count = 0 then d
  else if 24 ≤ hour then d
  else
    let d := d.normalizeHourly
    { d with hourly := d.hourly.set hour ((d.hourly.getD hour default).addMerit source count) }

/-- `HashMap::entry(k).or_default()` followed by an in-place mutation `f`,
on the association-list embedding (insertion appends, preserving the
first-insertion order that stands in for the map's iteration order). -/
def updateAssocApp (l : List (String × AppInputStats)) (k : String)
    (f : AppInputStats → AppInputStats) : List (String × AppInputStats) :=
  match l with
  | [] => [(k, f default)]
  | (k', v) :: rest =>
    if k' = k then (k', f v) :: rest else (k', v) :: updateAssocApp rest k f

/-- `DailyStats::prune_app_input_counts`: keep the 200 entries with the
largest totals (stable sort, mirroring `slice::sort_by`) plus the entry
just written. -/
def pruneAppInputCounts (l : List (String × AppInputStats)) (keepId : String) :
    List (String × AppInputStats) :=
  if l.length ≤ MAX_APP_ENTRIES_PER_DAY then l
  else
    let entries := l.map (fun p => (p.1, p.2.total))
    let sorted := entries.mergeSort (fun a b => decide (b.2 ≤ a.2))
    let keep := (sorted.take MAX_APP_ENTRIES_PER_DAY).map (fun p => p.1)
    l.filter (fun p => keep.contains p.1 || p.1 == keepId)

/-- `DailyStats::add_app_merit`. -/
def DailyStats.addAppMerit (d : DailyStats) (appId : String) (appName : Option String)
    (source : InputSource) (count : Nat) : DailyStats :=
  if count = 0 then d
  else
    let l := updateAssocApp d.app_input_counts appId (fun s => s.add appName source count)
    let l := if MAX_APP_ENTRIES_PER_DAY < l.length then pruneAppInputCounts l appId else l
    { d with app_input_counts := l }

/-- One `entry(k).and_modify(saturating_add).or_insert(count)` step on a
function-embedded counter map (absent ≡ 0; inserted values are `u64`, so
inserting `count` coincides with `satAdd64 0 count`). -/
def bumpCount (m : String → Nat) (k : String) (count : Nat) : String → Nat :=
  fun k' => if k' = k then satAdd64 (m k) count else m k'

/-- The shared loop body of `DailyStats::add_key_counts` /
`add_key_unshifted_counts` / `add_key_shifted_counts` / `add_shortcut_counts`
/ `add_mouse_button_counts`: fold the iterated `counts` map (association
list) into the target map, skipping zero counts. -/
def applyCounts (counts : List (String × Nat)) (m : String → Nat) : String → Nat :=
  counts.foldl (fun m p => if p.2 = 0 then m else bumpCount m p.1 p.2) m

def DailyStats.addKeyCounts (d : DailyStats) (counts : List (String × Nat)) : DailyStats :=
  if counts.isEmpty then d else { d with key_counts := applyCounts counts d.key_counts }

def DailyStats.addKeyUnshiftedCounts (d : DailyStats) (counts : List (String × Nat)) : DailyStats :=
  if counts.isEmpty then d
  else { d with key_counts_unshifted := applyCounts counts d.key_counts_unshifted }

def DailyStats.addKeyShiftedCounts (d : DailyStats) (counts : List (String × Nat)) : DailyStats :=
  if counts.isEmpty then d
  else { d with key_counts_shifted := applyCounts counts d.key_counts_shifted }

def DailyStats.addShortcutCounts (d : DailyStats) (counts : List (String × Nat)) : DailyStats :=
  if counts.isEmpty then d
  else { d with shortcut_counts := applyCounts counts d.shortcut_counts }

def DailyStats.addMouseButtonCounts (d : DailyStats) (counts : List (String × Nat)) : DailyStats :=
  if counts.isEmpty then d
  else { d with mouse_button_counts := applyCounts counts d.mouse_button_counts }

/-! ## Cumulative statistics (`models/merit.rs`, `MeritStats`) -/

structure MeritStats where
  total_merit : Nat
  today : DailyStats
  history : List DailyStats

def MAX_HISTORY_DAYS : Nat := 400

/-- `MeritStats::new` / `Default` (the source dates `today` with
`Local::now()`, embedded as the explicit clock date). -/
def MeritStats.new (date : Nat) : MeritStats :=
  { total_merit := 0, today := DailyStats.new date, history := [] }

/-- The stable descending-by-date sort `history.sort_by(|a, b| b.date.cmp(&a.date))`
(`slice::sort_by` is stable, as is `List.mergeSort`). -/
def sortHistoryByDateDesc (l : List DailyStats) : List DailyStats :=
  l.mergeSort (fun a b => decide (b.date ≤ a.date))

/-- `MeritStats::archive_today`. -/
def MeritStats.archiveToday (st : MeritStats) : MeritStats :=
  if 0 < st.today.total then
    let h := sortHistoryByDateDesc (st.history ++ [st.today])
    let h := if MAX_HISTORY_DAYS < h.length then h.take MAX_HISTORY_DAYS else h
    { st with history := h }
  else st

/-- `MeritStats::normalize_today`. -/
def MeritStats.normalizeToday (st : MeritStats) (c : Clock) : MeritStats :=
  if st.today.date ≠ c.date then
    { st.archiveToday with today := DailyStats.new c.date }
  else st

/-- `MeritStats::add_merit` (rollover check inlined exactly as in the
source, then total, daily and hourly increments). -/
def MeritStats.addMerit (st : MeritStats) (c : Clock) (source : InputSource)
    (count : Nat) : MeritStats :=
  let st :=
    if st.today.date ≠ c.date then
      { st.archiveToday with today := DailyStats.new c.date }
    else st
  let st := { st with total_merit := satAdd64 st.total_merit count }
  let st := { st with today := st.today.addMerit source count c.nowMs }
  { st with today := st.today.addHourlyMerit c.hour source count }

/-- `MeritStats::add_app_merit`. -/
def MeritStats.addAppMerit (st : MeritStats) (c : Clock) (appId : String)
    (appName : Option String) (source : InputSource) (count : Nat) : MeritStats :=
  if count = 0 then st
  else
    let st := st.normalizeToday c
    { st with today := st.today.addAppMerit appId appName source count }

/-- `MeritStats::add_keyboard_key_counts`. -/
def MeritStats.addKeyboardKeyCounts (st : MeritStats) (c : Clock)
    (counts : List (String × Nat)) : MeritStats :=
  if counts.isEmpty then st
  else
    let st := st.normalizeToday c
    { st with today := st.today.addKeyCounts counts }

/-- `MeritStats::add_keyboard_key_unshifted_counts`. -/
def MeritStats.addKeyboardKeyUnshiftedCounts (st : MeritStats) (c : Clock)
    (counts : List (String × Nat)) : MeritStats :=
  if counts.isEmpty then st
  else
    let st := st.normalizeToday c
    { st with today := st.today.addKeyUnshiftedCounts counts }

/-- `MeritStats::add_keyboard_key_shifted_counts`. -/
def MeritStats.addKeyboardKeyShiftedCounts (st : MeritStats) (c : Clock)
    (counts : List (String × Nat)) : MeritStats :=
  if counts.isEmpty then st
  else
    let st := st.normalizeToday c
    { st with today := st.today.addKeyShiftedCounts counts }

/-- `MeritStats::add_shortcut_counts`. -/
def MeritStats.addShortcutCounts (st : MeritStats) (c : Clock)
    (counts : List (String × Nat)) : MeritStats :=
  if counts.isEmpty then st
  else
    let st := st.normalizeToday c
    { st with today := st.today.addShortcutCounts counts }

/-- `MeritStats::add_mouse_button_counts`. -/
def MeritStats.addMouseButtonCounts (st : MeritStats) (c : Clock)
    (counts : List (String × Nat)) : MeritStats :=
  if counts.isEmpty then st
  else
    let st := st.normalizeToday c
    { st with today := st.today.addMouseButtonCounts counts }

/-! ## Click-heatmap state (`models/click_heatmap.rs`) -/

def CLICK_HEATMAP_BASE_COLS : Nat := 256
def CLICK_HEATMAP_BASE_ROWS : Nat := 256
def CLICK_HEATMAP_BASE_LEN : Nat := CLICK_HEATMAP_BASE_COLS * CLICK_HEATMAP_BASE_ROWS

structure DisplayClickHeatmap where
  grid : List Nat
  total_clicks : Nat
deriving DecidableEq, Repr

instance : Inhabited DisplayClickHeatmap :=
  ⟨{ grid := List.replicate CLICK_HEATMAP_BASE_LEN 0, total_clicks := 0 }⟩

structure DailyClickHeatmapState where
  displays : List (String × DisplayClickHeatmap)
deriving DecidableEq, Repr

instance : Inhabited DailyClickHeatmapState := ⟨⟨[]⟩⟩

/-- `ClickHeatmapState`. Date keys (`NaiveDate::to_string`, whose
lexicographic order is chronological order) are embedded as day indices;
`daily` stands for the `BTreeMap` keyed by date. -/
structure ClickHeatmapState where
  version : Nat
  displays : List (String × DisplayClickHeatmap)
  daily : List (Nat × DailyClickHeatmapState)
deriving DecidableEq, Repr

def ClickHeatmapState.default' : ClickHeatmapState :=
  { version := 2, displays := [], daily := [] }

/-! Association-list embedding of the map operations the heatmap code uses.
Insertion appends; the only place iteration order is observed is
`daily.keys().next()` (the minimum key of the `BTreeMap`), which is
computed explicitly below. -/

def assocGet {κ β : Type} [DecidableEq κ] (l : List (κ × β)) (k : κ) : Option β :=
  match l with
  | [] => none
  | (k', v) :: rest => if k' = k then some v else assocGet rest k

/-- `entry(k).or_default()` followed by an in-place mutation `f`. -/
def updateAssoc {κ β : Type} [DecidableEq κ] [Inhabited β] (l : List (κ × β)) (k : κ)
    (f : β → β) : List (κ × β) :=
  match l with
  | [] => [(k, f default)]
  | (k', v) :: rest => if k' = k then (k', f v) :: rest else (k', v) :: updateAssoc rest k f

def btreeMinKey {β : Type} (l : List (Nat × β)) : Option Nat :=
  match l.map (fun p => p.1) with
  | [] => none
  | k :: ks => some (ks.foldl Nat.min k)

/-- Remove the entry with the smallest key (`keys().next()` + `remove`). -/
def btreeRemoveMin {β : Type} (l : List (Nat × β)) : List (Nat × β) :=
  match btreeMinKey l with
  | none => l
  | some m => l.eraseP (fun p => p.1 == m)

def MAX_DAILY_DAYS : Nat := 60

/-- The `while daily.len() > MAX_DAILY_DAYS` eviction loop. Each pass
removes one entry, so the initial size bounds the iteration count; `fuel`
is that bound. -/
def evictOldestDailyFuel : Nat → List (Nat × DailyClickHeatmapState) →
    List (Nat × DailyClickHeatmapState)
  | 0, l => l
  | fuel + 1, l =>
    if MAX_DAILY_DAYS < l.length then evictOldestDailyFuel fuel (btreeRemoveMin l) else l

def evictOldestDaily (l : List (Nat × DailyClickHeatmapState)) :
    List (Nat × DailyClickHeatmapState) :=
  evictOldestDailyFuel l.length l

/-! ## The counting store (`core/merit_storage.rs`) -/

structure KeyboardCounts where
  key_counts : Option (List (String × Nat))
  key_counts_unshifted : Option (List (String × Nat))
  key_counts_shifted : Option (List (String × Nat))
  shortcut_counts : Option (List (String × Nat))

structure MouseCounts where
  mouse_button_counts : Option (List (String × Nat))

/-- `active_app::AppContext`. -/
structure AppContext where
  id : String
  name : Option String
deriving DecidableEq, Repr

structure MeritStorage where
  stats : MeritStats
  settings : Settings
  click_heatmap : ClickHeatmapState

/-- `MeritStorage::new` (achievements / window placements omitted: no claim
touches them). -/
def MeritStorage.new (date : Nat) : MeritStorage :=
  { stats := MeritStats.new date, settings := Settings.new,
    click_heatmap := ClickHeatmapState.default' }

/-- `MeritStorage::should_count`. -/
def MeritStorage.shouldCount (st : MeritStorage) (origin : InputOrigin)
    (source : InputSource) : Bool :=
  match origin with
  | .App => true
  | .Global =>
    match source with
    | .Keyboard => st.settings.enable_keyboard
    | .MouseSingle => st.settings.enable_mouse_single

/-- `MeritStorage::add_merit_silent`. -/
def MeritStorage.addMeritSilent (st : MeritStorage) (c : Clock) (origin : InputOrigin)
    (source : InputSource) (count : Nat) (keyboard : Option KeyboardCounts)
    (mouse : Option MouseCounts) : Bool × MeritStorage :=
  if !st.shouldCount origin source || count == 0 then (false, st)
  else
    let stats := st.stats.addMerit c source count
    let stats :=
      match source with
      | .Keyboard =>
        match keyboard with
        | some k =>
          let stats := match k.key_counts with
            | some counts => stats.addKeyboardKeyCounts c counts
            | none => stats
          let stats := match k.key_counts_unshifted with
            | some counts => stats.addKeyboardKeyUnshiftedCounts c counts
            | none => stats
          let stats := match k.key_counts_shifted with
            | some counts => stats.addKeyboardKeyShiftedCounts c counts
            | none => stats
          match k.shortcut_counts with
            | some counts => stats.addShortcutCounts c counts
            | none => stats
        | none => stats
      | .MouseSingle =>
        match mouse with
        | some m =>
          match m.mouse_button_counts with
          | some counts => stats.addMouseButtonCounts c counts
          | none => stats
        | none => stats
    (true, { st with stats := stats })

/-- `MeritStorage::add_app_merit_silent`. -/
def MeritStorage.addAppMeritSilent (st : MeritStorage) (c : Clock) (origin : InputOrigin)
    (source : InputSource) (count : Nat) (app : Option AppContext) : Bool × MeritStorage :=
  if !st.shouldCount origin source || count == 0 then (false, st)
  else
    match app with
    | none => (false, st)
    | some app =>
      (true, { st with stats := st.stats.addAppMerit c app.id app.name source count })

/-- The cell/total increment applied to one `DisplayClickHeatmap` inside
`record_click_heatmap_cell` (all-time and daily take the same steps). -/
def bumpHeatmapCell (idx : Nat) (e : DisplayClickHeatmap) : DisplayClickHeatmap :=
  let e :=
    if idx < e.grid.length then
      { e with grid := e.grid.set idx (satAdd32 (e.grid.getD idx 0) 1) }
    else e
  { e with total_clicks := satAdd64 e.total_clicks 1 }

/-- `MeritStorage::record_click_heatmap_cell` (the date key is the clock's
day). -/
def MeritStorage.recordClickHeatmapCell (st : MeritStorage) (c : Clock)
    (displayId : String) (idx : Nat) : MeritStorage :=
  if CLICK_HEATMAP_BASE_LEN ≤ idx then st
  else
    let displays := updateAssoc st.click_heatmap.displays displayId (bumpHeatmapCell idx)
    let daily := updateAssoc st.click_heatmap.daily c.date (fun day =>
      { day with displays := updateAssoc day.displays displayId (bumpHeatmapCell idx) })
    let daily := evictOldestDaily daily
    { st with click_heatmap := { st.click_heatmap with displays := displays, daily := daily } }

/-! ## The merit batcher (`core/merit_batcher.rs`)

`process_triggers` builds several aggregation `HashMap`s in one pass over
the drained triggers and then applies one storage update per group. Each
map's per-trigger update only touches that map, so the single pass is
embedded as one fold per map over the same trigger list. `HashMap`
iteration order is unspecified in the source; the association-list
embedding fixes it to first-insertion order. Only the storage effect is
modelled: the animation accumulators and event emission never touch
`MeritStorage`. -/

structure Trigger where
  origin : InputOrigin
  source : InputSource
  count : Nat
  key_code : Option String
  is_shifted : Option Bool
  shortcut : Option String
  app : Option AppContext
deriving DecidableEq, Repr

/-- `entry(k).and_modify(|v| v = v.saturating_add(c)).or_insert(c)` on a
counter-valued association list. -/
def bumpSat {κ : Type} [DecidableEq κ] (l : List (κ × Nat)) (k : κ) (c : Nat) :
    List (κ × Nat) :=
  match l with
  | [] => [(k, c)]
  | (k', v) :: rest => if k' = k then (k', satAdd64 v c) :: rest else (k', v) :: bumpSat rest k c

/-- The `by_key` aggregation: per-(origin, source) summed counts (the
`AppHandle` stored alongside is irrelevant to storage). -/
def aggByKey (ts : List Trigger) : List ((InputOrigin × InputSource) × Nat) :=
  ts.foldl (fun acc t => if t.count = 0 then acc else bumpSat acc (t.origin, t.source) t.count) []

/-- One per-origin `HashMap<InputOrigin, HashMap<Arc<str>, u64>>`
aggregation; `ex` extracts the inner key and count from a trigger exactly
when the source's match arm inserts (it returns `none` for the `count == 0`
`continue`). An origin the fold never touches keeps the empty list,
matching an absent outer entry. -/
def aggPerOrigin (ex : Trigger → Option (String × Nat)) (ts : List Trigger) :
    InputOrigin → List (String × Nat) :=
  ts.foldl (fun m t =>
    match ex t with
    | none => m
    | some (code, c) => fun o => if o = t.origin then bumpSat (m t.origin) code c else m o)
    (fun _ => [])

def exKeyboardKey (t : Trigger) : Option (String × Nat) :=
  if t.count = 0 then none
  else
    match t.key_code, t.source with
    | some code, .Keyboard => some (code, t.count)
    | _, _ => none

def exKeyboardUnshifted (t : Trigger) : Option (String × Nat) :=
  if t.count = 0 then none
  else
    match t.key_code, t.source, t.is_shifted with
    | some code, .Keyboard, some false => some (code, t.count)
    | _, _, _ => none

def exKeyboardShifted (t : Trigger) : Option (String × Nat) :=
  if t.count = 0 then none
  else
    match t.key_code, t.source, t.is_shifted with
    | some code, .Keyboard, some true => some (code, t.count)
    | _, _, _ => none

def exShortcut (t : Trigger) : Option (String × Nat) :=
  if t.count = 0 then none
  else
    match t.shortcut with
    | some s => some (s, t.count)
    | none => none

def exMouseButton (t : Trigger) : Option (String × Nat) :=
  if t.count = 0 then none
  else
    match t.key_code, t.source with
    | some code, .MouseSingle => some (code, t.count)
    | _, _ => none

/-- One `by_app` update: `and_modify` saturates the count and fills a
missing name; `or_insert` stores the first count and name. -/
def bumpApp (l : List ((InputOrigin × InputSource × String) × (Nat × Option String)))
    (k : InputOrigin × InputSource × String) (c : Nat) (name : Option String) :
    List ((InputOrigin × InputSource × String) × (Nat × Option String)) :=
  match l with
  | [] => [(k, (c, name))]
  | (k', (c', n')) :: rest =>
    if k' = k then (k', (satAdd64 c' c, if n'.isNone then name else n')) :: rest
    else (k', (c', n')) :: bumpApp rest k c name

def aggByApp (ts : List Trigger) :
    List ((InputOrigin × InputSource × String) × (Nat × Option String)) :=
  ts.foldl (fun acc t =>
    if t.count = 0 then acc
    else
      match t.app with
      | some app => bumpApp acc (t.origin, t.source, app.id) t.count app.name
      | none => acc) []

/-- `HashMap::get(&origin)` on the per-origin aggregation: the entry is
absent exactly when nothing was ever inserted for that origin. -/
def listToOpt (l : List (String × Nat)) : Option (List (String × Nat)) :=
  if l.isEmpty then none else some l

/-- `process_triggers` (`core/merit_batcher.rs:159-334`), restricted to its
effect on `MeritStorage`: aggregate the micro-batch, then one
`add_merit_silent` per (origin, source) group and one
`add_app_merit_silent` per (origin, source, app) group. -/
def processTriggers (c : Clock) (ts : List Trigger) (st : MeritStorage) : MeritStorage :=
  let byKey := aggByKey ts
  let byApp := aggByApp ts
  let kbKey := aggPerOrigin exKeyboardKey ts
  let kbUnshifted := aggPerOrigin exKeyboardUnshifted ts
  let kbShifted := aggPerOrigin exKeyboardShifted ts
  let shortcuts := aggPerOrigin exShortcut ts
  let mouseBtn := aggPerOrigin exMouseButton ts
  if byKey.isEmpty then st
  else
    let st := byKey.foldl (fun st e =>
      let origin := e.1.1
      let source := e.1.2
      let keyboard := match source with
        | .Keyboard => some
            { key_counts := listToOpt (kbKey origin)
              key_counts_unshifted := listToOpt (kbUnshifted origin)
              key_counts_shifted := listToOpt (kbShifted origin)
              shortcut_counts := listToOpt (shortcuts origin) }
        | .MouseSingle => none
      let mouse := match source with
        | .Keyboard => none
        | .MouseSingle => some { mouse_button_counts := listToOpt (mouseBtn origin) }
      (st.addMeritSilent c origin source e.2 keyboard mouse).2) st
    byApp.foldl (fun st e =>
      (st.addAppMeritSilent c e.1.1 e.1.2.1 e.2.1
        (some { id := e.1.2.2, name := e.2.2 })).2) st

/-- A sequence of micro-batches processed in order (the consumer thread is
single and FIFO). -/
def processBatches (c : Clock) (bs : List (List Trigger)) (st : MeritStorage) : MeritStorage :=
  bs.foldl (fun st b => processTriggers c b st) st

/-! ## Sparse heatmap serialization (`models/click_heatmap.rs`, `mod sparse_grid`) -/

structure SparseCell where
  idx : Nat
  count : Nat
deriving DecidableEq, Repr

/-- `sparse_grid::serialize`: emit `(idx, count)` for every non-zero cell
(indices of the 65536-cell grid always fit in the `u32` field). -/
def sparseGridSerialize (grid : List Nat) : List SparseCell :=
  grid.enum.filterMap (fun p => if p.2 = 0 then none else some ⟨p.1, p.2⟩)

/-- `sparse_grid::deserialize`: write each sparse cell into a zeroed base
grid, failing on any out-of-range index. -/
def sparseGridWrite : List SparseCell → List Nat → Except String (List Nat)
  | [], grid => .ok grid
  | cell :: rest, grid =>
    if grid.length ≤ cell.idx then .error "click heatmap cell index out of bounds"
    else sparseGridWrite rest (grid.set cell.idx cell.count)

def sparseGridDeserialize (cells : List SparseCell) : Except String (List Nat) :=
  sparseGridWrite cells (List.replicate CLICK_HEATMAP_BASE_LEN 0)

/-- Serde of `DisplayClickHeatmap`: the grid through `sparse_grid`, the
`total_clicks` field verbatim. -/
def DisplayClickHeatmap.serialize (e : DisplayClickHeatmap) : List SparseCell × Nat :=
  (sparseGridSerialize e.grid, e.total_clicks)

def DisplayClickHeatmap.deserialize (p : List SparseCell × Nat) :
    Except String DisplayClickHeatmap :=
  match sparseGridDeserialize p.1 with
  | .ok g => .ok { grid := g, total_clicks := p.2 }
  | .error e => .error e

/-! ## Heatmap grid resampling (`commands/click_heatmap.rs`) -/

/-- `clamp_grid_dim`. -/
def clampGridDim (v lo hi fallback : Nat) : Nat :=
  if v = 0 then fallback else max lo (min v hi)

/-- The loop body of the `get_click_heatmap_grid` resampling: bucket one
base cell `(x, y)` into the output vector (a zero count is skipped; the
`if let Some(slot)` guard is `List.set`/`getD` out-of-range behavior). -/
def resampleCell (grid : List Nat) (cols rows y : Nat) (out : List Nat) (x : Nat) : List Nat :=
  let idx := y * CLICK_HEATMAP_BASE_COLS + x
  let count := grid.getD idx 0
  if count = 0 then out
  else
    let tx := x * cols / CLICK_HEATMAP_BASE_COLS
    let ty := y * rows / CLICK_HEATMAP_BASE_ROWS
    let tIdx := ty * cols + tx
    out.set tIdx (satAdd64 (out.getD tIdx 0) count)

def resampleRow (grid : List Nat) (cols rows : Nat) (out : List Nat) (y : Nat) : List Nat :=
  (List.range CLICK_HEATMAP_BASE_COLS).foldl (resampleCell grid cols rows y) out

/-- The resampling double loop of `get_click_heatmap_grid`: fold the
256×256 base grid into a `cols × rows` output vector (the derived `max`
accumulator and the passthrough `total_clicks` are omitted). -/
def resampleHeatmapGrid (grid : List Nat) (cols rows : Nat) : List Nat :=
  (List.range CLICK_HEATMAP_BASE_ROWS).foldl (resampleRow grid cols rows)
    (List.replicate (cols * rows) 0)

/-! ## Monitor geometry (`core/click_heatmap.rs`)

`f64` coordinates are embedded as `ℚ`: every quantity the modelled paths
compute (integer positions and sizes, scale factors 1.0 / 2.0, differences,
products and exact halving) is a dyadic rational that `f64` represents
exactly, and `is_finite` holds for every rational. -/

inductive CoordinateSpace where
  | Physical
  | Logical
deriving DecidableEq, Repr

structure MonitorSnapshot where
  id : String
  pos_x : ℚ
  pos_y : ℚ
  width : ℚ
  height : ℚ
  scale_factor : ℚ
  logical_left : ℚ
  logical_top : ℚ
  logical_right : ℚ
  logical_bottom : ℚ
deriving DecidableEq, Repr

/-- `MonitorSnapshot::contains`. -/
def MonitorSnapshot.contains (m : MonitorSnapshot) (space : CoordinateSpace)
    (x y : ℚ) : Bool :=
  match space with
  | .Physical =>
    decide (m.pos_x ≤ x) && decide (m.pos_y ≤ y) &&
    decide (x < m.pos_x + m.width) && decide (y < m.pos_y + m.height)
  | .Logical =>
    decide (m.logical_left ≤ x) && decide (m.logical_top ≤ y) &&
    decide (x < m.logical_right) && decide (y < m.logical_bottom)

/-- `MonitorSnapshot::rel_physical_from_point`. -/
def MonitorSnapshot.relPhysicalFromPoint (m : MonitorSnapshot)
    (space : CoordinateSpace) (x y : ℚ) : Option (ℚ × ℚ) :=
  if m.width ≤ 0 ∨ m.height ≤ 0 then none
  else
    match space with
    | .Physical => some (x - m.pos_x, y - m.pos_y)
    | .Logical =>
      if m.scale_factor ≤ 0 then none
      else some ((x - m.logical_left) * m.scale_factor, (y - m.logical_top) * m.scale_factor)

/-- The per-monitor snapshot construction inside `refresh_monitors`
(position and size are the physical values tauri reports; the logical
bounds are derived by dividing by the scale factor; zero-sized or
non-positive-scale monitors are skipped). -/
def mkMonitorSnapshot (id : String) (posX posY : Int) (width height : Nat) (sf : ℚ) :
    Option MonitorSnapshot :=
  if width = 0 ∨ height = 0 then none
  else if sf ≤ 0 then none
  else
    some
      { id := id
        pos_x := (posX : ℚ)
        pos_y := (posY : ℚ)
        width := (width : ℚ)
        height := (height : ℚ)
        scale_factor := sf
        logical_left := (posX : ℚ) / sf
        logical_top := (posY : ℚ) / sf
        logical_right := (posX : ℚ) / sf + (width : ℚ) / sf
        logical_bottom := (posY : ℚ) / sf + (height : ℚ) / sf }

/-- `monitor_containing_point`: first monitor containing the point. -/
def monitorContainingPoint (monitors : List MonitorSnapshot) (space : CoordinateSpace)
    (x y : ℚ) : Option MonitorSnapshot :=
  monitors.find? (fun m => m.contains space x y)

def oppositeSpace : CoordinateSpace → CoordinateSpace
  | .Physical => .Logical
  | .Logical => .Physical

/-- The monitor-resolution and relative-point portion of
`record_global_click` (`core/click_heatmap.rs:228-333`): preferred space
first, then the opposite space, for both the containment scan and the
relative-point conversion; negative relatives are dropped. The single-entry
monitor cache is omitted: a cache hit must itself contain the point, so it
can only return a monitor the full scan could also return, and the claims'
monitor layouts make that monitor unique. Cell bucketing and persistence
are modelled separately. -/
def resolveClick (monitors : List MonitorSnapshot) (preferred : CoordinateSpace)
    (x y : ℚ) : Option (String × ℚ × ℚ) :=
  let monitor :=
    match monitorContainingPoint monitors preferred x y with
    | some m => some m
    | none => monitorContainingPoint monitors (oppositeSpace preferred) x y
  match monitor with
  | none => none
  | some m =>
    if m.width ≤ 0 ∨ m.height ≤ 0 then none
    else
      let rel :=
        match m.relPhysicalFromPoint preferred x y with
        | some r => some r
        | none => m.relPhysicalFromPoint (oppositeSpace preferred) x y
      match rel with
      | none => none
      | some (relX, relY) =>
        if relX < 0 ∨ relY < 0 then none
        else some (m.id, relX, relY)

/-! ## Modifier-key state machine (`core/macos_event_tap.rs`) -/

def FLAG_MASK_ALPHA_SHIFT : Nat := 2 ^ 16
def FLAG_MASK_SHIFT : Nat := 2 ^ 17
def FLAG_MASK_CONTROL : Nat := 2 ^ 18
def FLAG_MASK_ALTERNATE : Nat := 2 ^ 19
def FLAG_MASK_COMMAND : Nat := 2 ^ 20

inductive ModifierGroup where
  | Shift
  | Control
  | Alt
  | Command
  | CapsLock
deriving DecidableEq, Repr

inductive ModifierSide where
  | Left
  | Right
deriving DecidableEq, Repr

def flagMaskForGroup : ModifierGroup → Nat
  | .Shift => FLAG_MASK_SHIFT
  | .Control => FLAG_MASK_CONTROL
  | .Alt => FLAG_MASK_ALTERNATE
  | .Command => FLAG_MASK_COMMAND
  | .CapsLock => FLAG_MASK_ALPHA_SHIFT

def expectedGroupForPhysicalKeycode (keycode : Nat) : Option ModifierGroup :=
  if keycode = 56 ∨ keycode = 60 then some .Shift
  else if keycode = 59 ∨ keycode = 62 then some .Control
  else if keycode = 58 ∨ keycode = 61 then some .Alt
  else if keycode = 54 ∨ keycode = 55 then some .Command
  else if keycode = 57 then some .CapsLock
  else none

def sideFromPhysicalKeycode (keycode : Nat) : ModifierSide :=
  if keycode = 60 ∨ keycode = 61 ∨ keycode = 62 ∨ keycode = 54 then .Right else .Left

def logicalKeycodeForGroup (group : ModifierGroup) (side : ModifierSide) : Nat :=
  match group, side with
  | .Shift, .Left => 56
  | .Shift, .Right => 60
  | .Control, .Left => 59
  | .Control, .Right => 62
  | .Alt, .Left => 58
  | .Alt, .Right => 61
  | .Command, .Left => 55
  | .Command, .Right => 54
  | .CapsLock, _ => 57

/-- `infer_effective_modifier_group`. The `changed_groups` array is built in
the fixed iteration order CapsLock, Shift, Control, Alt, Command. -/
def inferEffectiveModifierGroup (prevFlags flags : Nat) (physicalKeycode : Nat) :
    Option ModifierGroup :=
  match expectedGroupForPhysicalKeycode physicalKeycode with
  | none => none
  | some expected =>
    let changed := prevFlags ^^^ flags
    let changedGroups := [ModifierGroup.CapsLock, .Shift, .Control, .Alt, .Command].filter
      (fun g => changed &&& flagMaskForGroup g != 0)
    match changedGroups with
    | [g] => some g
    | [] =>
      if flags &&& flagMaskForGroup expected != 0 then some expected
      else
        match [ModifierGroup.Control, .Shift, .Alt, .Command, .CapsLock].find?
            (fun g => flags &&& flagMaskForGroup g != 0) with
        | some g => some g
        | none => some expected
    | g :: _ => if expected ∈ changedGroups then some expected else some g

/-- `FlagsChangedState` (the 256-slot `down` array as a function). -/
structure FlagsChangedState where
  down : Nat → Bool
  last_flags : Nat

def FlagsChangedState.default' : FlagsChangedState :=
  { down := fun _ => false, last_flags := 0 }

/-- `process_flags_changed`: returns the emitted logical keycode (if any)
and the updated state. -/
def processFlagsChanged (st : FlagsChangedState) (physicalKeycode : Nat) (flags : Nat) :
    Option Nat × FlagsChangedState :=
  if 256 ≤ physicalKeycode then (none, st)
  else
    let prevFlags := st.last_flags
    let st := { st with last_flags := flags }
    let effectiveGroup := inferEffectiveModifierGroup prevFlags flags physicalKeycode
    let logicalKeycode :=
      match effectiveGroup with
      | some g => logicalKeycodeForGroup g (sideFromPhysicalKeycode physicalKeycode)
      | none => physicalKeycode
    let changed := prevFlags ^^^ flags
    match effectiveGroup with
    | none =>
      let wasDown := st.down physicalKeycode
      let st := { st with down := fun i => if i = physicalKeycode then !wasDown else st.down i }
      (if wasDown then none else some logicalKeycode, st)
    | some g =>
      if g = .CapsLock then
        let st := { st with down := fun i => if i = physicalKeycode then false else st.down i }
        (if changed &&& FLAG_MASK_ALPHA_SHIFT != 0 then some logicalKeycode else none, st)
      else
        let mask := flagMaskForGroup g
        let isDownNow := flags &&& mask != 0
        let wasDown := st.down physicalKeycode
        let st := { st with down := fun i => if i = physicalKeycode then isDownNow else st.down i }
        (if isDownNow && !wasDown then some logicalKeycode else none, st)

/-! ## Views, contributions and invariants used to state the claims -/

/-- The counters C1 compares between batchings: the grand total plus
today's totals, per-key / per-shortcut / per-mouse-button maps (read
pointwise) and per-app counts (read pointwise through the association
list; a missing app entry counts 0). -/
structure CountsView where
  total_merit : Nat
  today_total : Nat
  today_keyboard : Nat
  today_mouse_single : Nat
  key_counts : String → Nat
  key_counts_unshifted : String → Nat
  key_counts_shifted : String → Nat
  shortcut_counts : String → Nat
  mouse_button_counts : String → Nat
  app_total : String → Nat
  app_keyboard : String → Nat
  app_mouse_single : String → Nat

def appStatsOf (st : MeritStorage) (a : String) : AppInputStats :=
  (assocGet st.stats.today.app_input_counts a).getD default

def MeritStorage.countsView (st : MeritStorage) : CountsView where
  total_merit := st.stats.total_merit
  today_total := st.stats.today.total
  today_keyboard := st.stats.today.keyboard
  today_mouse_single := st.stats.today.mouse_single
  key_counts := st.stats.today.key_counts
  key_counts_unshifted := st.stats.today.key_counts_unshifted
  key_counts_shifted := st.stats.today.key_counts_shifted
  shortcut_counts := st.stats.today.shortcut_counts
  mouse_button_counts := st.stats.today.mouse_button_counts
  app_total := fun a => (appStatsOf st a).total
  app_keyboard := fun a => (appStatsOf st a).keyboard
  app_mouse_single := fun a => (appStatsOf st a).mouse_single

/-- Total count carried by a trigger sequence (the `N` of the claim). -/
def sumCounts (ts : List Trigger) : Nat := (ts.map (fun t => t.count)).sum

/-- The per-trigger hypotheses of C1: positive `u64` counts, an enabled
(origin, source) combination, and shortcut details only on keyboard
triggers (the only kind the listeners produce). -/
def TriggerOK (st : MeritStorage) (t : Trigger) : Prop :=
  0 < t.count ∧ t.count ≤ U64MAX ∧ st.shouldCount t.origin t.source = true ∧
    (t.shortcut.isSome = true → t.source = InputSource.Keyboard)

def appKeys (st : MeritStorage) : List String :=
  st.stats.today.app_input_counts.map (fun p => p.1)

def appIdsOf (ts : List Trigger) : List String :=
  ts.filterMap (fun t => t.app.map (fun a => a.id))

/-- Every counter a `u64` can hold, and per-app entries with distinct keys:
the invariant every reachable `MeritStorage` satisfies. -/
def StorageWF (st : MeritStorage) : Prop :=
  st.stats.total_merit ≤ U64MAX ∧
  st.stats.today.total ≤ U64MAX ∧
  st.stats.today.keyboard ≤ U64MAX ∧
  st.stats.today.mouse_single ≤ U64MAX ∧
  (∀ k, st.stats.today.key_counts k ≤ U64MAX) ∧
  (∀ k, st.stats.today.key_counts_unshifted k ≤ U64MAX) ∧
  (∀ k, st.stats.today.key_counts_shifted k ≤ U64MAX) ∧
  (∀ k, st.stats.today.shortcut_counts k ≤ U64MAX) ∧
  (∀ k, st.stats.today.mouse_button_counts k ≤ U64MAX) ∧
  (appKeys st).Nodup ∧
  (∀ p ∈ st.stats.today.app_input_counts,
    p.2.total ≤ U64MAX ∧ p.2.keyboard ≤ U64MAX ∧ p.2.mouse_single ≤ U64MAX)

/-- The partition of a sequence into singleton micro-batches
("processing the triggers one at a time"). -/
def singletonBatches (ts : List Trigger) : List (List Trigger) :=
  ts.map (fun t => [t])

/-! Helper forms used by the aggregation proofs. -/

/-- The canonical shape of every aggregation pass: fold `bumpSat` over the
triggers using an extraction function (`none` encodes the arms that skip a
trigger). -/
def aggFlat {κ : Type} [DecidableEq κ] (ex : Trigger → Option (κ × Nat)) (ts : List Trigger)
    (acc : List (κ × Nat)) : List (κ × Nat) :=
  ts.foldl (fun acc t =>
    match ex t with
    | none => acc
    | some (k, c) => bumpSat acc k c) acc

/-- Total contribution of a trigger list to key `k` under extraction `ex`. -/
def contribEx {κ : Type} [DecidableEq κ] (ex : Trigger → Option (κ × Nat)) (ts : List Trigger)
    (k : κ) : Nat :=
  (ts.map (fun t =>
    match ex t with
    | none => 0
    | some (k', c) => if k' = k then c else 0)).sum

def exByKey (t : Trigger) : Option ((InputOrigin × InputSource) × Nat) :=
  if t.count = 0 then none else some ((t.origin, t.source), t.count)

/-- `ex` restricted to one origin (the inner map of the per-origin
aggregation). -/
def exAtOrigin (ex : Trigger → Option (String × Nat)) (o : InputOrigin)
    (t : Trigger) : Option (String × Nat) :=
  match ex t with
  | none => none
  | some kc => if t.origin = o then some kc else none

/-- Count stored in an association list, defaulting to 0. -/
def getCount {κ : Type} [DecidableEq κ] (l : List (κ × Nat)) (k : κ) : Nat :=
  (assocGet l k).getD 0

/-- Sum of the values at key `k` (equal to `getCount` once keys are
distinct). -/
def sumValsAt {κ : Type} [DecidableEq κ] (l : List (κ × Nat)) (k : κ) : Nat :=
  (l.map (fun p => if p.1 = k then p.2 else 0)).sum

/-- Count component stored in the `by_app` aggregation. -/
def appAggCount (l : List ((InputOrigin × InputSource × String) × (Nat × Option String)))
    (k : InputOrigin × InputSource × String) : Nat :=
  ((assocGet l k).map (fun v => v.1)).getD 0

/-- Contribution of a trigger list to one `by_app` key. -/
def contribApp (ts : List Trigger) (k : InputOrigin × InputSource × String) : Nat :=
  (ts.map (fun t =>
    match t.app with
    | none => 0
    | some a => if (t.origin, t.source, a.id) = k then t.count else 0)).sum

/-- The four possible (origin, source) group keys. -/
def allGroupKeys : List (InputOrigin × InputSource) :=
  [(.Global, .Keyboard), (.Global, .MouseSingle), (.App, .Keyboard), (.App, .MouseSingle)]

/-- The monitor list of the C7 scenario, built exactly as
`refresh_monitors` builds snapshots (monitors that fail the size/scale
guards are skipped): one display at reported position (0,0), size
1920×1080, scale 1.0, and one at reported position (1920,0), physical size
3840×2160, scale 2.0. -/
def scenarioMonitors : List MonitorSnapshot :=
  (mkMonitorSnapshot "monitor-1" 0 0 1920 1080 1).toList ++
    (mkMonitorSnapshot "monitor-2" 1920 0 3840 2160 2).toList

/-! Helper views and invariants for C4. -/

/-- A sequence of `record_click_heatmap_cell` calls applied in order. -/
def applyHeatmapClicks (calls : List (Clock × String × Nat)) (st : MeritStorage) :
    MeritStorage :=
  calls.foldl (fun st call => st.recordClickHeatmapCell call.1 call.2.1 call.2.2) st

/-- All-time cell count of one display (0 when the display is absent). -/
def heatCount (st : MeritStorage) (displayId : String) (idx : Nat) : Nat :=
  ((assocGet st.click_heatmap.displays displayId).getD default).grid.getD idx 0

def heatTotal (st : MeritStorage) (displayId : String) : Nat :=
  ((assocGet st.click_heatmap.displays displayId).getD default).total_clicks

/-- Per-day cell count of one display. -/
def dailyHeatCount (st : MeritStorage) (day : Nat) (displayId : String) (idx : Nat) : Nat :=
  ((assocGet ((assocGet st.click_heatmap.daily day).getD default).displays displayId).getD
    default).grid.getD idx 0

def dailyHeatTotal (st : MeritStorage) (day : Nat) (displayId : String) : Nat :=
  ((assocGet ((assocGet st.click_heatmap.daily day).getD default).displays displayId).getD
    default).total_clicks

/-- The per-display invariant C4 asserts, strengthened with what makes it
inductive: the grid stays at its base length, cells are `u32` values, and
the total is a `u64` value. -/
def HeatmapWF (e : DisplayClickHeatmap) : Prop :=
  e.grid.sum ≤ e.total_clicks ∧ e.grid.length = CLICK_HEATMAP_BASE_LEN ∧
    (∀ v ∈ e.grid, v ≤ U32MAX) ∧ e.total_clicks ≤ U64MAX

def ClickHeatmapStateWF (s : ClickHeatmapState) : Prop :=
  (∀ p ∈ s.displays, HeatmapWF p.2) ∧
  (∀ q ∈ s.daily, ∀ p ∈ q.2.displays, HeatmapWF p.2)

/-- Total count carried by the keyboard triggers of a sequence. -/
def sumCountsKeyboard (ts : List Trigger) : Nat :=
  (ts.map (fun t => match t.source with
    | InputSource.Keyboard => t.count
    | InputSource.MouseSingle => 0)).sum

/-- Total count carried by the mouse triggers of a sequence. -/
def sumCountsMouse (ts : List Trigger) : Nat :=
  (ts.map (fun t => match t.source with
    | InputSource.Keyboard => 0
    | InputSource.MouseSingle => t.count)).sum

/-- Total count a trigger sequence reports for app id `a`. -/
def appContribTotal (ts : List Trigger) (a : String) : Nat :=
  (ts.map (fun t => match t.app with
    | none => 0
    | some ap => if ap.id = a then t.count else 0)).sum

/-- Keyboard count a trigger sequence reports for app id `a`. -/
def appContribKeyboard (ts : List Trigger) (a : String) : Nat :=
  (ts.map (fun t => match t.app, t.source with
    | some ap, InputSource.Keyboard => if ap.id = a then t.count else 0
    | _, _ => 0)).sum

/-- Mouse count a trigger sequence reports for app id `a`. -/
def appContribMouse (ts : List Trigger) (a : String) : Nat :=
  (ts.map (fun t => match t.app, t.source with
    | some ap, InputSource.MouseSingle => if ap.id = a then t.count else 0
    | _, _ => 0)).sum

/-! # Theorems -/

/-! ## Saturating arithmetic -/

theorem satAdd64_le (a b : Nat) : satAdd64 a b ≤ U64MAX := by
  unfold satAdd64; omega

theorem satAdd64_zero (a : Nat) (h : a ≤ U64MAX) : satAdd64 a 0 = a := by
  unfold satAdd64; omega

theorem satAdd64_satAdd64 (a b c : Nat) :
    satAdd64 (satAdd64 a b) c = satAdd64 a (b + c) := by
  unfold satAdd64; omega

theorem satAdd64_min (a b : Nat) : satAdd64 a (min b U64MAX) = satAdd64 a b := by
  unfold satAdd64; omega

theorem satAdd64_min_add (a b r : Nat) :
    satAdd64 a (min b U64MAX + r) = satAdd64 a (b + r) := by
  unfold satAdd64; omega

theorem satAdd64_pos (a b : Nat) (hb : 0 < b) : 0 < satAdd64 a b := by
  unfold satAdd64 U64MAX; omega

/-- Folding saturating additions of a list of increments equals one
saturating addition of the plain sum. -/
theorem foldl_satAdd64 {α : Type} (g : α → Nat) (l : List α) (x : Nat) (hx : x ≤ U64MAX) :
    l.foldl (fun x a => satAdd64 x (g a)) x = satAdd64 x ((l.map g).sum) := by
  induction l generalizing x with
  | nil => simpa using (satAdd64_zero x hx).symm
  | cons a l ih =>
    simp only [List.foldl_cons, List.map_cons, List.sum_cons]
    rw [ih (satAdd64 x (g a)) (satAdd64_le _ _), satAdd64_satAdd64]

/-- Clipping each increment of a sum at the cap is invisible under a
saturating addition. -/
theorem satAdd64_sum_map_min {α : Type} (l : List α) (f : α → Nat) (x : Nat) :
    satAdd64 x ((l.map (fun a => min (f a) U64MAX)).sum) = satAdd64 x ((l.map f).sum) := by
  induction l generalizing x with
  | nil => rfl
  | cons a l ih =>
    simp only [List.map_cons, List.sum_cons]
    rw [satAdd64_min_add, ← satAdd64_satAdd64, ih, satAdd64_satAdd64]

/-! ## C9: legacy `InputSource` strings -/

/-- C9: deserializing an `InputSource` maps the legacy string
`"mouse_double"` to `MouseSingle`, accepts `"keyboard"` and
`"mouse_single"` as themselves, and fails on every other string. -/
theorem c9_input_source_legacy_strings :
    InputSource.deserializeStr "mouse_double" = .ok InputSource.MouseSingle ∧
    InputSource.deserializeStr "keyboard" = .ok InputSource.Keyboard ∧
    InputSource.deserializeStr "mouse_single" = .ok InputSource.MouseSingle ∧
    ∀ s : String, s ≠ "keyboard" → s ≠ "mouse_single" → s ≠ "mouse_double" →
      InputSource.deserializeStr s = .error ("invalid input source: " ++ s) := by
  refine ⟨rfl, rfl, rfl, ?_⟩
  intro s h1 h2 h3
  unfold InputSource.deserializeStr
  split
  · exact absurd rfl h1
  · exact absurd rfl h2
  · exact absurd rfl h3
  · rfl

/-- Witness for C9 at the concrete string `"mouse_wheel"`. -/
theorem c9_witness :
    InputSource.deserializeStr "mouse_wheel" = .error "invalid input source: mouse_wheel" :=
  c9_input_source_legacy_strings.2.2.2 "mouse_wheel"
    (by decide) (by decide) (by decide)

/-! ## C8: `process_flags_changed` -/

/-- C8: for every flags-changed state, physical keycode < 256 and flag
bitmask — when the effective group is CapsLock a press is emitted exactly
when the alpha-shift bit (1<<16) differs between previous and current
flags (either direction); when the effective group is a non-toggle
modifier a press is emitted exactly when that group's flag bit is set now
and the tracked per-keycode down state was previously false, and the
per-keycode state is updated to the current bit on every call. -/
theorem c8_flags_changed (st : FlagsChangedState) (keycode flags : Nat)
    (hk : keycode < 256) :
    (inferEffectiveModifierGroup st.last_flags flags keycode = some .CapsLock →
      ((processFlagsChanged st keycode flags).1.isSome = true ↔
        (st.last_flags ^^^ flags) &&& FLAG_MASK_ALPHA_SHIFT ≠ 0)) ∧
    (∀ g, inferEffectiveModifierGroup st.last_flags flags keycode = some g →
      g ≠ .CapsLock →
      (((processFlagsChanged st keycode flags).1.isSome = true ↔
          (flags &&& flagMaskForGroup g ≠ 0 ∧ st.down keycode = false)) ∧
        (processFlagsChanged st keycode flags).2.down keycode =
          (flags &&& flagMaskForGroup g != 0))) := by
  have hlt : ¬ 256 ≤ keycode := by omega
  constructor
  · intro hcaps
    simp only [processFlagsChanged, if_neg hlt, hcaps]
    split <;> simp_all [bne_iff_ne]
  · intro g hg hne
    have : (g = ModifierGroup.CapsLock) = False := by simp [hne]
    constructor
    · simp only [processFlagsChanged, if_neg hlt, hg, this, if_false]
      constructor
      · intro h
        by_cases hd : flags &&& flagMaskForGroup g = 0 <;>
          by_cases hw : st.down keycode = true <;>
          simp_all [bne_iff_ne]
      · rintro ⟨h1, h2⟩
        simp_all [bne_iff_ne]
    · simp only [processFlagsChanged, if_neg hlt, hg, this, if_false]
      split <;> simp_all

/-- Witness for C8: physical CapsLock (57) remapped to Control — the
Control bit turning on emits one press and records the key as down. -/
theorem c8_witness :
    ((processFlagsChanged FlagsChangedState.default' 57 FLAG_MASK_CONTROL).1.isSome = true) ∧
    (processFlagsChanged FlagsChangedState.default' 57 FLAG_MASK_CONTROL).2.down 57 = true := by
  have h := (c8_flags_changed FlagsChangedState.default' 57 FLAG_MASK_CONTROL
    (by decide)).2 ModifierGroup.Control (by decide) (by decide)
  exact ⟨h.1.mpr ⟨by decide, rfl⟩, by rw [h.2]; decide⟩

/-! ## C2: `add_merit_silent` -/

theorem normalizeToday_total_merit (st : MeritStats) (c : Clock) :
    (st.normalizeToday c).total_merit = st.total_merit := by
  unfold MeritStats.normalizeToday MeritStats.archiveToday
  split
  · split <;> rfl
  · rfl

theorem addKeyboardKeyCounts_total_merit (st : MeritStats) (c : Clock)
    (l : List (String × Nat)) :
    (st.addKeyboardKeyCounts c l).total_merit = st.total_merit := by
  unfold MeritStats.addKeyboardKeyCounts
  split
  · rfl
  · simp [normalizeToday_total_merit]

theorem addKeyboardKeyUnshiftedCounts_total_merit (st : MeritStats) (c : Clock)
    (l : List (String × Nat)) :
    (st.addKeyboardKeyUnshiftedCounts c l).total_merit = st.total_merit := by
  unfold MeritStats.addKeyboardKeyUnshiftedCounts
  split
  · rfl
  · simp [normalizeToday_total_merit]

theorem addKeyboardKeyShiftedCounts_total_merit (st : MeritStats) (c : Clock)
    (l : List (String × Nat)) :
    (st.addKeyboardKeyShiftedCounts c l).total_merit = st.total_merit := by
  unfold MeritStats.addKeyboardKeyShiftedCounts
  split
  · rfl
  · simp [normalizeToday_total_merit]

theorem addShortcutCounts_total_merit (st : MeritStats) (c : Clock)
    (l : List (String × Nat)) :
    (st.addShortcutCounts c l).total_merit = st.total_merit := by
  unfold MeritStats.addShortcutCounts
  split
  · rfl
  · simp [normalizeToday_total_merit]

theorem addMouseButtonCounts_total_merit (st : MeritStats) (c : Clock)
    (l : List (String × Nat)) :
    (st.addMouseButtonCounts c l).total_merit = st.total_merit := by
  unfold MeritStats.addMouseButtonCounts
  split
  · rfl
  · simp [normalizeToday_total_merit]

theorem addMerit_total_merit (st : MeritStats) (c : Clock) (source : InputSource)
    (count : Nat) :
    (st.addMerit c source count).total_merit = satAdd64 st.total_merit count := by
  unfold MeritStats.addMerit MeritStats.archiveToday
  cases source <;> split <;> (try split) <;> rfl


theorem shouldCount_iff (st : MeritStorage) (origin : InputOrigin) (source : InputSource) :
    st.shouldCount origin source = true ↔
      (origin = InputOrigin.App ∨
        (origin = InputOrigin.Global ∧
          ((source = InputSource.Keyboard ∧ st.settings.enable_keyboard = true) ∨
           (source = InputSource.MouseSingle ∧ st.settings.enable_mouse_single = true)))) := by
  cases origin <;> cases source <;> simp [MeritStorage.shouldCount]

theorem addMeritSilent_false (st : MeritStorage) (c : Clock) (origin : InputOrigin)
    (source : InputSource) (count : Nat) (kb : Option KeyboardCounts)
    (mouse : Option MouseCounts)
    (h : st.shouldCount origin source = false ∨ count = 0) :
    st.addMeritSilent c origin source count kb mouse = (false, st) := by
  unfold MeritStorage.addMeritSilent
  have hc : (!st.shouldCount origin source || count == 0) = true := by
    rcases h with h | h <;> simp [h]
  rw [if_pos hc]

theorem addMeritSilent_fst_true (st : MeritStorage) (c : Clock) (origin : InputOrigin)
    (source : InputSource) (count : Nat) (kb : Option KeyboardCounts)
    (mouse : Option MouseCounts)
    (h1 : st.shouldCount origin source = true) (h2 : count ≠ 0) :
    (st.addMeritSilent c origin source count kb mouse).1 = true := by
  unfold MeritStorage.addMeritSilent
  have hc : ¬((!st.shouldCount origin source || count == 0) = true) := by simp [h1, h2]
  rw [if_neg hc]

theorem addMeritSilent_snd_total (st : MeritStorage) (c : Clock) (origin : InputOrigin)
    (source : InputSource) (count : Nat) (kb : Option KeyboardCounts)
    (mouse : Option MouseCounts)
    (h1 : st.shouldCount origin source = true) (h2 : count ≠ 0) :
    (st.addMeritSilent c origin source count kb mouse).2.stats.total_merit =
      satAdd64 st.stats.total_merit count := by
  unfold MeritStorage.addMeritSilent
  have hc : ¬((!st.shouldCount origin source || count == 0) = true) := by simp [h1, h2]
  rw [if_neg hc]
  cases source
  · cases kb with
    | none => simp [addMerit_total_merit]
    | some k =>
      rcases k with ⟨kc, ku, ks, sc⟩
      cases kc <;> cases ku <;> cases ks <;> cases sc <;>
        simp [addKeyboardKeyCounts_total_merit, addKeyboardKeyUnshiftedCounts_total_merit,
          addKeyboardKeyShiftedCounts_total_merit, addShortcutCounts_total_merit,
          addMerit_total_merit]
  · cases mouse with
    | none => simp [addMerit_total_merit]
    | some m =>
      rcases m with ⟨mb⟩
      cases mb <;> simp [addMouseButtonCounts_total_merit, addMerit_total_merit]

/-- C2: `add_merit_silent` returns `true` (and takes the update path) iff
the count is positive and either the origin is App, or the origin is
Global and the matching per-source toggle is enabled; when it returns
`false` the storage is unchanged; when it returns `true` the grand total
is bumped with saturating arithmetic. (The embedding is a total function:
every update saturates instead of overflowing and no input can make it
panic.) -/
theorem c2_add_merit_silent (st : MeritStorage) (c : Clock) (origin : InputOrigin)
    (source : InputSource) (count : Nat) (kb : Option KeyboardCounts)
    (mouse : Option MouseCounts) :
    ((st.addMeritSilent c origin source count kb mouse).1 = true ↔
      (0 < count ∧
        (origin = InputOrigin.App ∨
          (origin = InputOrigin.Global ∧
            ((source = InputSource.Keyboard ∧ st.settings.enable_keyboard = true) ∨
             (source = InputSource.MouseSingle ∧ st.settings.enable_mouse_single = true)))))) ∧
    ((st.addMeritSilent c origin source count kb mouse).1 = false →
      (st.addMeritSilent c origin source count kb mouse).2 = st) ∧
    ((st.addMeritSilent c origin source count kb mouse).1 = true →
      (st.addMeritSilent c origin source count kb mouse).2.stats.total_merit =
        satAdd64 st.stats.total_merit count) := by
  by_cases h1 : st.shouldCount origin source = true
  · by_cases h2 : count = 0
    · have heq := addMeritSilent_false st c origin source count kb mouse (Or.inr h2)
      rw [heq]
      refine ⟨?_, fun _ => rfl, ?_⟩
      · simp [h2]
      · intro h; cases h
    · refine ⟨?_, ?_, fun _ => addMeritSilent_snd_total st c origin source count kb mouse h1 h2⟩
      · rw [addMeritSilent_fst_true st c origin source count kb mouse h1 h2]
        simp only [true_iff]
        exact ⟨Nat.pos_of_ne_zero h2, (shouldCount_iff st origin source).mp h1⟩
      · intro h
        rw [addMeritSilent_fst_true st c origin source count kb mouse h1 h2] at h
        cases h
  · have hfalse : st.shouldCount origin source = false := by
      cases hb : st.shouldCount origin source
      · rfl
      · exact absurd hb h1
    have heq := addMeritSilent_false st c origin source count kb mouse (Or.inl hfalse)
    rw [heq]
    refine ⟨?_, fun _ => rfl, ?_⟩
    · constructor
      · intro hff; cases hff
      · rintro ⟨-, hcond⟩
        exact absurd ((shouldCount_iff st origin source).mpr hcond) h1
    · intro h; cases h

/-- Witness for C2: a Global keyboard increment of 5 with default settings
is applied and saturating-adds 5 to the grand total. -/
theorem c2_witness :
    ((MeritStorage.new 0).addMeritSilent ⟨0, 0, 1⟩ InputOrigin.Global InputSource.Keyboard 5
        none none).1 = true ∧
    ((MeritStorage.new 0).addMeritSilent ⟨0, 0, 1⟩ InputOrigin.Global InputSource.Keyboard 5
        none none).2.stats.total_merit = satAdd64 0 5 := by
  have h := c2_add_merit_silent (MeritStorage.new 0) ⟨0, 0, 1⟩ InputOrigin.Global
    InputSource.Keyboard 5 none none
  have h1 : ((MeritStorage.new 0).addMeritSilent ⟨0, 0, 1⟩ InputOrigin.Global
      InputSource.Keyboard 5 none none).1 = true :=
    h.1.mpr ⟨by decide, Or.inr ⟨rfl, Or.inl ⟨rfl, rfl⟩⟩⟩
  exact ⟨h1, h.2.2 h1⟩

/-! ## C7: the two-monitor click scenario -/

/-- C7 amended: the click is attributed to the second monitor, at relative
physical point (2080, 200). The code interprets a monitor's reported
position as physical pixels, so the second monitor's logical origin is
1920/2 = 960, the click lands 1040 logical points into it, and scaling by
2 gives 2080. -/
theorem c7_click_resolution :
    resolveClick scenarioMonitors CoordinateSpace.Logical 2000 100 =
      some ("monitor-2", 2080, 200) := by
  unfold resolveClick scenarioMonitors mkMonitorSnapshot monitorContainingPoint oppositeSpace
  norm_num [MonitorSnapshot.contains, MonitorSnapshot.relPhysicalFromPoint, List.find?]

/-- C7 counterexample: with the scenario's monitors, the logical click at
(2000, 100) is NOT resolved to relative physical point (160, 200). -/
theorem c7_counterexample :
    resolveClick scenarioMonitors CoordinateSpace.Logical 2000 100 ≠
      some ("monitor-2", 160, 200) := by
  unfold resolveClick scenarioMonitors mkMonitorSnapshot monitorContainingPoint oppositeSpace
  norm_num [MonitorSnapshot.contains, MonitorSnapshot.relPhysicalFromPoint, List.find?]

/-! ## C10 and C3: archiving and day rollover -/

theorem dateDesc_trans (a b c : DailyStats) :
    decide (b.date ≤ a.date) → decide (c.date ≤ b.date) → decide (c.date ≤ a.date) := by
  simp only [decide_eq_true_eq]
  omega

theorem dateDesc_total (a b : DailyStats) :
    decide (b.date ≤ a.date) || decide (a.date ≤ b.date) := by
  rcases Nat.le_total b.date a.date with h | h <;> simp [h]

theorem sortHistoryByDateDesc_sorted (l : List DailyStats) :
    (sortHistoryByDateDesc l).Pairwise (fun a b => b.date ≤ a.date) := by
  have h := @List.sorted_mergeSort DailyStats (fun a b => decide (b.date ≤ a.date))
    dateDesc_trans dateDesc_total l
  exact h.imp (by simp only [decide_eq_true_eq]; exact fun h => h)

/-- C10: `archive_today` silently discards a zero-total day; a positive
day is pushed, the history re-sorted by date descending (stable) and
truncated to the newest 400 entries. -/
theorem c10_archive_today (st : MeritStats) :
    (st.today.total = 0 → (st.archiveToday).history = st.history) ∧
    (0 < st.today.total →
      (st.archiveToday).history =
        (if MAX_HISTORY_DAYS < (sortHistoryByDateDesc (st.history ++ [st.today])).length
         then (sortHistoryByDateDesc (st.history ++ [st.today])).take MAX_HISTORY_DAYS
         else sortHistoryByDateDesc (st.history ++ [st.today])) ∧
      (st.archiveToday).history.Pairwise (fun a b => b.date ≤ a.date) ∧
      (st.archiveToday).history.length ≤ MAX_HISTORY_DAYS) := by
  constructor
  · intro h0
    unfold MeritStats.archiveToday
    rw [if_neg (by omega)]
  · intro hpos
    unfold MeritStats.archiveToday
    rw [if_pos hpos]
    refine ⟨rfl, ?_, ?_⟩
    · simp only
      split
      · exact (sortHistoryByDateDesc_sorted _).sublist (List.take_sublist _ _)
      · exact sortHistoryByDateDesc_sorted _
    · simp only
      split
      · simp
      · rename_i hle
        have : (sortHistoryByDateDesc (st.history ++ [st.today])).length =
            st.history.length + 1 := by
          simp [sortHistoryByDateDesc]
        omega

/-- Witness for C10: a fresh stats value (zero total) archives to an
unchanged history; a 3-merit day archives into a bounded history. -/
theorem c10_witness :
    ((MeritStats.new 7).archiveToday).history = (MeritStats.new 7).history ∧
    (({ MeritStats.new 5 with
        today := { DailyStats.new 5 with total := 3 } } : MeritStats).archiveToday).history.length ≤
      MAX_HISTORY_DAYS := by
  refine ⟨(c10_archive_today (MeritStats.new 7)).1 rfl, ?_⟩
  exact ((c10_archive_today _).2 (by norm_num)).2.2

/-- C3: the first `add_merit` after the date has advanced to D+1 archives
day D unchanged into the sorted, 400-capped history (oldest evicted past
the cap), starts a fresh zero day dated D+1, and only then applies the new
increment; the grand total still gains the increment. -/
theorem c3_day_rollover (st : MeritStats) (c : Clock) (source : InputSource) (count : Nat)
    (hD : c.date = st.today.date + 1) (hT : 0 < st.today.total) :
    (st.addMerit c source count).history =
      (if MAX_HISTORY_DAYS < (sortHistoryByDateDesc (st.history ++ [st.today])).length
       then (sortHistoryByDateDesc (st.history ++ [st.today])).take MAX_HISTORY_DAYS
       else sortHistoryByDateDesc (st.history ++ [st.today])) ∧
    (st.addMerit c source count).today =
      ((DailyStats.new c.date).addMerit source count c.nowMs).addHourlyMerit c.hour source count ∧
    (st.addMerit c source count).total_merit = satAdd64 st.total_merit count ∧
    (st.history.length < MAX_HISTORY_DAYS → st.today ∈ (st.addMerit c source count).history) := by
  have hne : st.today.date ≠ c.date := by omega
  have harch : st.archiveToday.history =
      (if MAX_HISTORY_DAYS < (sortHistoryByDateDesc (st.history ++ [st.today])).length
       then (sortHistoryByDateDesc (st.history ++ [st.today])).take MAX_HISTORY_DAYS
       else sortHistoryByDateDesc (st.history ++ [st.today])) := by
    unfold MeritStats.archiveToday
    rw [if_pos hT]
  have hhist : (st.addMerit c source count).history = st.archiveToday.history := by
    unfold MeritStats.addMerit
    rw [if_pos hne]
  have htoday : (st.addMerit c source count).today =
      ((DailyStats.new c.date).addMerit source count c.nowMs).addHourlyMerit c.hour source count := by
    unfold MeritStats.addMerit
    rw [if_pos hne]
  refine ⟨hhist.trans harch, htoday, addMerit_total_merit st c source count, ?_⟩
  intro hlen
  rw [hhist, harch]
  have hsortlen : (sortHistoryByDateDesc (st.history ++ [st.today])).length =
      st.history.length + 1 := by
    simp [sortHistoryByDateDesc]
  rw [if_neg (by omega)]
  have : st.today ∈ st.history ++ [st.today] := by simp
  exact (List.mergeSort_perm (st.history ++ [st.today]) _).mem_iff.mpr this

/-- Witness for C3 on a concrete one-day-old stats value. -/
theorem c3_witness :
    (({ MeritStats.new 5 with
        today := { DailyStats.new 5 with total := 3 } } : MeritStats).addMerit
          ⟨6, 2, 99⟩ InputSource.Keyboard 2).today =
      ((DailyStats.new 6).addMerit InputSource.Keyboard 2 99).addHourlyMerit 2
        InputSource.Keyboard 2 ∧
    ({ MeritStats.new 5 with
        today := { DailyStats.new 5 with total := 3 } } : MeritStats).today ∈
      (({ MeritStats.new 5 with
          today := { DailyStats.new 5 with total := 3 } } : MeritStats).addMerit
            ⟨6, 2, 99⟩ InputSource.Keyboard 2).history := by
  have h := c3_day_rollover
    ({ MeritStats.new 5 with today := { DailyStats.new 5 with total := 3 } } : MeritStats)
    ⟨6, 2, 99⟩ InputSource.Keyboard 2 rfl (by norm_num)
  exact ⟨h.2.1, h.2.2.2 (by simp [MeritStats.new, MAX_HISTORY_DAYS])⟩

/-! ## C6: sparse heatmap round-trip -/

theorem enumFrom_concat {α : Type} (n : Nat) (l : List α) (v : α) :
    List.enumFrom n (l ++ [v]) = List.enumFrom n l ++ [(n + l.length, v)] := by
  induction l generalizing n with
  | nil => simp
  | cons a l ih =>
    simp only [List.cons_append, List.enumFrom, List.length_cons]
    rw [show l.append [v] = l ++ [v] from rfl, ih]
    have h : n + 1 + l.length = n + (l.length + 1) := by omega
    rw [h]

theorem sparseGridSerialize_concat (g : List Nat) (v : Nat) :
    sparseGridSerialize (g ++ [v]) =
      sparseGridSerialize g ++ (if v = 0 then [] else [⟨g.length, v⟩]) := by
  unfold sparseGridSerialize
  rw [List.enum_eq_enumFrom, List.enum_eq_enumFrom, enumFrom_concat, List.filterMap_append]
  simp only [Nat.zero_add]
  congr 1
  split <;> simp_all [List.filterMap]

theorem sparseGridSerialize_idx_lt (g : List Nat) :
    ∀ c ∈ sparseGridSerialize g, c.idx < g.length := by
  intro c hc
  unfold sparseGridSerialize at hc
  rcases List.mem_filterMap.mp hc with ⟨p, hp, he⟩
  have h1 : p.1 < g.length := by
    have := List.mem_enum_iff_getElem?.mp hp
    exact (List.getElem?_eq_some.mp this).1
  split at he
  · cases he
  · cases he
    exact h1

theorem sparseGridWrite_ok (cells : List SparseCell) (grid : List Nat)
    (h : ∀ c ∈ cells, c.idx < grid.length) :
    sparseGridWrite cells grid =
      .ok (cells.foldl (fun g c => g.set c.idx c.count) grid) := by
  induction cells generalizing grid with
  | nil => rfl
  | cons c rest ih =>
    have hc : c.idx < grid.length := h c (by simp)
    unfold sparseGridWrite
    rw [if_neg (by omega)]
    simp only [List.foldl_cons]
    exact ih (grid.set c.idx c.count) (by
      intro c' hc'
      rw [List.length_set]
      exact h c' (by simp [hc']))

theorem foldl_set_concat (cells : List SparseCell) (b : List Nat) (x : Nat)
    (h : ∀ c ∈ cells, c.idx < b.length) :
    cells.foldl (fun g c => g.set c.idx c.count) (b ++ [x]) =
      (cells.foldl (fun g c => g.set c.idx c.count) b) ++ [x] := by
  induction cells generalizing b with
  | nil => rfl
  | cons c rest ih =>
    have hc : c.idx < b.length := h c (by simp)
    simp only [List.foldl_cons]
    rw [List.set_append_left _ _ hc]
    exact ih (b.set c.idx c.count) (by
      intro c' hc'
      rw [List.length_set]
      exact h c' (by simp [hc']))

theorem foldl_set_serialize (g : List Nat) :
    (sparseGridSerialize g).foldl (fun acc c => acc.set c.idx c.count)
      (List.replicate g.length 0) = g := by
  induction g using List.reverseRecOn with
  | nil => rfl
  | append_singleton g v ih =>
    rw [sparseGridSerialize_concat]
    have hlen : (g ++ [v]).length = g.length + 1 := by simp
    rw [hlen, List.replicate_succ']
    rw [List.foldl_append]
    rw [foldl_set_concat _ _ _ (by
      intro c hc
      rw [List.length_replicate]
      exact sparseGridSerialize_idx_lt g c hc)]
    rw [ih]
    split
    · simp_all
    · simp only [List.foldl_cons, List.foldl_nil]
      rw [List.set_append]
      rw [if_neg (by omega)]
      simp

theorem sparseGridWrite_oob (cells : List SparseCell) (grid : List Nat)
    (h : ∃ c ∈ cells, grid.length ≤ c.idx) :
    sparseGridWrite cells grid = .error "click heatmap cell index out of bounds" := by
  induction cells generalizing grid with
  | nil => simp at h
  | cons c rest ih =>
    unfold sparseGridWrite
    by_cases hc : grid.length ≤ c.idx
    · rw [if_pos hc]
    · rw [if_neg hc]
      rcases h with ⟨c', hc', hidx⟩
      rcases List.mem_cons.mp hc' with rfl | hmem
      · omega
      · exact ih _ ⟨c', hmem, by rw [List.length_set]; exact hidx⟩

/-- C6: serializing a `DisplayClickHeatmap` into the sparse cell list and
deserializing yields an identical grid and total; a sparse list containing
any out-of-range index (≥ 65536) fails deserialization with an error. -/
theorem c6_sparse_round_trip :
    (∀ e : DisplayClickHeatmap, e.grid.length = CLICK_HEATMAP_BASE_LEN →
      DisplayClickHeatmap.deserialize e.serialize = .ok e) ∧
    (∀ cells : List SparseCell, (∃ c ∈ cells, CLICK_HEATMAP_BASE_LEN ≤ c.idx) →
      sparseGridDeserialize cells = .error "click heatmap cell index out of bounds") := by
  constructor
  · intro e hlen
    unfold DisplayClickHeatmap.deserialize DisplayClickHeatmap.serialize
      sparseGridDeserialize
    rw [sparseGridWrite_ok _ _ (by
      rw [List.length_replicate]
      intro c hc
      rw [← hlen]
      exact sparseGridSerialize_idx_lt e.grid c hc)]
    rw [← hlen, foldl_set_serialize]
  · intro cells hex
    unfold sparseGridDeserialize
    exact sparseGridWrite_oob cells _ (by
      rw [List.length_replicate]
      exact hex)

/-- Witness for C6: a one-hot grid with total 42 round-trips; index 70000
is rejected. -/
theorem c6_witness :
    DisplayClickHeatmap.deserialize
        (DisplayClickHeatmap.serialize
          { grid := (List.replicate CLICK_HEATMAP_BASE_LEN 0).set 5 7, total_clicks := 42 }) =
      .ok { grid := (List.replicate CLICK_HEATMAP_BASE_LEN 0).set 5 7, total_clicks := 42 } ∧
    sparseGridDeserialize [⟨70000, 1⟩] = .error "click heatmap cell index out of bounds" := by
  constructor
  · exact c6_sparse_round_trip.1 _ (by simp)
  · exact c6_sparse_round_trip.2 _ ⟨⟨70000, 1⟩, by simp, by norm_num [CLICK_HEATMAP_BASE_LEN,
      CLICK_HEATMAP_BASE_COLS, CLICK_HEATMAP_BASE_ROWS]⟩

/-! ## C5: heatmap resampling -/

theorem getD_le_sum (out : List Nat) (t : Nat) : out.getD t 0 ≤ out.sum := by
  induction out generalizing t with
  | nil => simp [List.getD]
  | cons a l ih =>
    cases t with
    | zero => simp [List.getD]
    | succ t =>
      simp only [List.getD_cons_succ, List.sum_cons]
      have := ih t
      omega

theorem sum_set_add (out : List Nat) (t c : Nat) (ht : t < out.length) :
    (out.set t (out.getD t 0 + c)).sum = out.sum + c := by
  induction out generalizing t with
  | nil => simp at ht
  | cons a l ih =>
    cases t with
    | zero => simp [List.getD]; omega
    | succ t =>
      simp only [List.getD_cons_succ, List.set_cons_succ, List.sum_cons]
      rw [ih t (by simpa using ht)]
      omega

theorem sum_set_satAdd (out : List Nat) (t c : Nat) (ht : t < out.length)
    (h : out.sum + c ≤ U64MAX) :
    (out.set t (satAdd64 (out.getD t 0) c)).sum = out.sum + c := by
  have h1 : out.getD t 0 + c ≤ U64MAX := le_trans (by
    have := getD_le_sum out t
    omega) h
  have h2 : satAdd64 (out.getD t 0) c = out.getD t 0 + c := by
    unfold satAdd64
    omega
  rw [h2]
  exact sum_set_add out t c ht

theorem resample_dest_lt (x cols base : Nat) (hx : x < base) (hc : 0 < cols) :
    x * cols / base < cols := by
  have hb : 0 < base := by omega
  rw [Nat.div_lt_iff_lt_mul hb]
  calc x * cols < base * cols := by
        exact Nat.mul_lt_mul_of_lt_of_le hx (le_refl cols) hc
    _ = cols * base := Nat.mul_comm base cols

theorem flat_idx_lt (a b A B : Nat) (ha : a < A) (hb : b < B) :
    a * B + b < A * B := by
  calc a * B + b < a * B + B := by omega
    _ = (a + 1) * B := by rw [Nat.succ_mul]
    _ ≤ A * B := Nat.mul_le_mul_right B ha

theorem resampleCell_spec (grid : List Nat) (cols rows y x : Nat) (out : List Nat)
    (hc : 0 < cols) (hr : 0 < rows) (hy : y < CLICK_HEATMAP_BASE_ROWS)
    (hx : x < CLICK_HEATMAP_BASE_COLS) (hout : out.length = cols * rows)
    (hbound : out.sum + grid.getD (y * CLICK_HEATMAP_BASE_COLS + x) 0 ≤ U64MAX) :
    (resampleCell grid cols rows y out x).sum =
      out.sum + grid.getD (y * CLICK_HEATMAP_BASE_COLS + x) 0 ∧
    (resampleCell grid cols rows y out x).length = out.length := by
  unfold resampleCell
  by_cases h0 : grid.getD (y * CLICK_HEATMAP_BASE_COLS + x) 0 = 0
  · rw [List.getD_eq_getElem?_getD] at h0
    simp [h0]
  · rw [if_neg h0]
    have htx : x * cols / CLICK_HEATMAP_BASE_COLS < cols :=
      resample_dest_lt x cols CLICK_HEATMAP_BASE_COLS hx hc
    have hty : y * rows / CLICK_HEATMAP_BASE_ROWS < rows :=
      resample_dest_lt y rows CLICK_HEATMAP_BASE_ROWS hy hr
    have hidx : (y * rows / CLICK_HEATMAP_BASE_ROWS) * cols +
        x * cols / CLICK_HEATMAP_BASE_COLS < out.length := by
      rw [hout, Nat.mul_comm cols rows]
      exact flat_idx_lt _ _ rows cols hty htx
    exact ⟨sum_set_satAdd out _ _ hidx hbound, by simp⟩

theorem foldl_resampleCell_spec (grid : List Nat) (cols rows y : Nat)
    (hc : 0 < cols) (hr : 0 < rows) (hy : y < CLICK_HEATMAP_BASE_ROWS) :
    ∀ (xs : List Nat) (out : List Nat), (∀ x ∈ xs, x < CLICK_HEATMAP_BASE_COLS) →
    out.length = cols * rows →
    out.sum + (xs.map (fun x => grid.getD (y * CLICK_HEATMAP_BASE_COLS + x) 0)).sum ≤ U64MAX →
    (xs.foldl (resampleCell grid cols rows y) out).sum =
      out.sum + (xs.map (fun x => grid.getD (y * CLICK_HEATMAP_BASE_COLS + x) 0)).sum ∧
    (xs.foldl (resampleCell grid cols rows y) out).length = out.length := by
  intro xs
  induction xs with
  | nil => intro out _ _ _; simp
  | cons a xs ih =>
    intro out hmem hlen hbound
    simp only [List.map_cons, List.sum_cons] at hbound ⊢
    have hstep := resampleCell_spec grid cols rows y a out hc hr hy (hmem a (by simp)) hlen
      (by omega)
    simp only [List.foldl_cons]
    have ihres := ih (resampleCell grid cols rows y out a)
      (fun x hx => hmem x (by simp [hx]))
      (hstep.2.trans hlen)
      (by rw [hstep.1]; omega)
    rw [ihres.1, hstep.1, ihres.2, hstep.2]
    omega

theorem resampleRow_spec (grid : List Nat) (cols rows y : Nat) (out : List Nat)
    (hc : 0 < cols) (hr : 0 < rows) (hy : y < CLICK_HEATMAP_BASE_ROWS)
    (hlen : out.length = cols * rows)
    (hbound : out.sum + ((List.range CLICK_HEATMAP_BASE_COLS).map
      (fun x => grid.getD (y * CLICK_HEATMAP_BASE_COLS + x) 0)).sum ≤ U64MAX) :
    (resampleRow grid cols rows out y).sum =
      out.sum + ((List.range CLICK_HEATMAP_BASE_COLS).map
        (fun x => grid.getD (y * CLICK_HEATMAP_BASE_COLS + x) 0)).sum ∧
    (resampleRow grid cols rows out y).length = out.length := by
  unfold resampleRow
  exact foldl_resampleCell_spec grid cols rows y hc hr hy _ out
    (fun x hx => List.mem_range.mp hx) hlen hbound

theorem foldl_resampleRow_spec (grid : List Nat) (cols rows : Nat)
    (hc : 0 < cols) (hr : 0 < rows) :
    ∀ (ys : List Nat) (out : List Nat), (∀ y ∈ ys, y < CLICK_HEATMAP_BASE_ROWS) →
    out.length = cols * rows →
    out.sum + (ys.map (fun y => ((List.range CLICK_HEATMAP_BASE_COLS).map
      (fun x => grid.getD (y * CLICK_HEATMAP_BASE_COLS + x) 0)).sum)).sum ≤ U64MAX →
    (ys.foldl (resampleRow grid cols rows) out).sum =
      out.sum + (ys.map (fun y => ((List.range CLICK_HEATMAP_BASE_COLS).map
        (fun x => grid.getD (y * CLICK_HEATMAP_BASE_COLS + x) 0)).sum)).sum ∧
    (ys.foldl (resampleRow grid cols rows) out).length = out.length := by
  intro ys
  induction ys with
  | nil => intro out _ _ _; simp
  | cons a ys ih =>
    intro out hmem hlen hbound
    simp only [List.map_cons, List.sum_cons] at hbound ⊢
    have hstep := resampleRow_spec grid cols rows a out hc hr (hmem a (by simp)) hlen
      (by omega)
    simp only [List.foldl_cons]
    have ihres := ih (resampleRow grid cols rows out a)
      (fun y hy => hmem y (by simp [hy]))
      (hstep.2.trans hlen)
      (by rw [hstep.1]; omega)
    rw [ihres.1, hstep.1, ihres.2, hstep.2]
    omega

theorem sum_grid_rows (g : Nat → Nat) (R C : Nat) :
    ((List.range R).map (fun y => ((List.range C).map (fun x => g (y * C + x))).sum)).sum =
      ((List.range (R * C)).map g).sum := by
  induction R with
  | zero => simp
  | succ R ih =>
    rw [List.range_succ, List.map_append, List.sum_append, ih]
    have : (R + 1) * C = R * C + C := by ring
    rw [this, List.range_add, List.map_append, List.sum_append, List.map_map]
    simp only [List.map_cons, List.map_nil, List.sum_cons, List.sum_nil, Nat.add_zero]
    congr 1

theorem sum_range_getD (l : List Nat) :
    ((List.range l.length).map (fun i => l.getD i 0)).sum = l.sum := by
  induction l using List.reverseRecOn with
  | nil => simp
  | append_singleton g v ih =>
    have hlen : (g ++ [v]).length = g.length + 1 := by simp
    rw [hlen, List.range_succ, List.map_append, List.sum_append]
    have h1 : (List.range g.length).map (fun i => (g ++ [v]).getD i 0) =
        (List.range g.length).map (fun i => g.getD i 0) := by
      apply List.map_congr_left
      intro i hi
      exact List.getD_append g [v] 0 i (List.mem_range.mp hi)
    rw [h1, ih]
    have h2 : (g ++ [v]).getD g.length 0 = v := by
      rw [List.getD_append_right g [v] 0 g.length (le_refl g.length)]
      simp [List.getD]
    simp [h2]

/-- C5: `clamp_grid_dim` lands in the valid ranges; each non-zero source
cell (x, y) maps to the single destination cell
(x*cols/256, y*rows/256), which is in bounds; and resampling preserves the
total count exactly. -/
theorem c5_resample_grid (colsReq rowsReq : Nat) (grid : List Nat)
    (hlen : grid.length = CLICK_HEATMAP_BASE_LEN)
    (hcells : ∀ v ∈ grid, v ≤ U32MAX) :
    (8 ≤ clampGridDim colsReq 8 240 64 ∧ clampGridDim colsReq 8 240 64 ≤ 240 ∧
     6 ≤ clampGridDim rowsReq 6 180 36 ∧ clampGridDim rowsReq 6 180 36 ≤ 180) ∧
    (∀ cols rows x y, 0 < cols → 0 < rows →
      x < CLICK_HEATMAP_BASE_COLS → y < CLICK_HEATMAP_BASE_ROWS →
      x * cols / CLICK_HEATMAP_BASE_COLS < cols ∧
      y * rows / CLICK_HEATMAP_BASE_ROWS < rows ∧
      (y * rows / CLICK_HEATMAP_BASE_ROWS) * cols + x * cols / CLICK_HEATMAP_BASE_COLS <
        cols * rows) ∧
    (∀ cols rows, 0 < cols → 0 < rows →
      (resampleHeatmapGrid grid cols rows).sum = grid.sum) := by
  refine ⟨?_, ?_, ?_⟩
  · unfold clampGridDim
    constructor
    · split <;> omega
    constructor
    · split <;> omega
    constructor
    · split <;> omega
    · split <;> omega
  · intro cols rows x y hc hr hx hy
    have htx := resample_dest_lt x cols CLICK_HEATMAP_BASE_COLS hx hc
    have hty := resample_dest_lt y rows CLICK_HEATMAP_BASE_ROWS hy hr
    refine ⟨htx, hty, ?_⟩
    rw [Nat.mul_comm cols rows]
    exact flat_idx_lt _ _ rows cols hty htx
  · intro cols rows hc hr
    have hsum : grid.sum ≤ U64MAX := by
      have h1 : grid.sum ≤ grid.length • U32MAX := List.sum_le_card_nsmul grid U32MAX hcells
      rw [hlen] at h1
      have : CLICK_HEATMAP_BASE_LEN • U32MAX ≤ U64MAX := by
        norm_num [CLICK_HEATMAP_BASE_LEN, CLICK_HEATMAP_BASE_COLS, CLICK_HEATMAP_BASE_ROWS,
          U32MAX, U64MAX]
      omega
    have htot : ((List.range CLICK_HEATMAP_BASE_ROWS).map
        (fun y => ((List.range CLICK_HEATMAP_BASE_COLS).map
          (fun x => grid.getD (y * CLICK_HEATMAP_BASE_COLS + x) 0)).sum)).sum = grid.sum := by
      rw [sum_grid_rows (fun i => grid.getD i 0) CLICK_HEATMAP_BASE_ROWS
        CLICK_HEATMAP_BASE_COLS]
      have : CLICK_HEATMAP_BASE_ROWS * CLICK_HEATMAP_BASE_COLS = grid.length := by
        rw [hlen]
        norm_num [CLICK_HEATMAP_BASE_LEN, CLICK_HEATMAP_BASE_COLS, CLICK_HEATMAP_BASE_ROWS]
      rw [this, sum_range_getD]
    unfold resampleHeatmapGrid
    have hres := foldl_resampleRow_spec grid cols rows hc hr
      (List.range CLICK_HEATMAP_BASE_ROWS) (List.replicate (cols * rows) 0)
      (fun y hy => List.mem_range.mp hy)
      (by simp)
      (by rw [htot]; simpa using hsum)
    rw [hres.1, htot]
    simp

/-- Witness for C5 on the zero grid with requested dimensions (0, 300). -/
theorem c5_witness :
    (8 ≤ clampGridDim 0 8 240 64 ∧ clampGridDim 0 8 240 64 ≤ 240 ∧
     6 ≤ clampGridDim 300 6 180 36 ∧ clampGridDim 300 6 180 36 ≤ 180) ∧
    (resampleHeatmapGrid (List.replicate CLICK_HEATMAP_BASE_LEN 0) 64 36).sum =
      (List.replicate CLICK_HEATMAP_BASE_LEN 0).sum := by
  have h := c5_resample_grid 0 300 (List.replicate CLICK_HEATMAP_BASE_LEN 0)
    (by simp)
    (by intro v hv; rw [List.eq_of_mem_replicate hv]; exact Nat.zero_le _)
  exact ⟨h.1, h.2.2 64 36 (by norm_num) (by norm_num)⟩

/-! ## C4: `record_click_heatmap_cell` -/

theorem getD_set_self (l : List Nat) (i a : Nat) (h : i < l.length) :
    (l.set i a).getD i 0 = a := by
  simp [List.getD_eq_getElem?_getD, List.getElem?_set_self h]

theorem sum_set_getD (l : List Nat) (i b : Nat) (h : i < l.length) :
    (l.set i b).sum + l.getD i 0 = l.sum + b := by
  induction l generalizing i with
  | nil => simp at h
  | cons a t ih =>
    cases i with
    | zero => simp [List.getD]; omega
    | succ i =>
      simp only [List.set_cons_succ, List.sum_cons, List.getD_cons_succ]
      have := ih i (by simpa using h)
      omega

theorem btreeRemoveMin_subset {β : Type} (l : List (Nat × β)) :
    ∀ q ∈ btreeRemoveMin l, q ∈ l := by
  unfold btreeRemoveMin
  split
  · exact fun q hq => hq
  · exact fun q hq => (List.eraseP_sublist l).subset hq

theorem evictOldestDailyFuel_subset (fuel : Nat) :
    ∀ (l : List (Nat × DailyClickHeatmapState)), ∀ q ∈ evictOldestDailyFuel fuel l, q ∈ l := by
  induction fuel with
  | zero => exact fun l q hq => hq
  | succ fuel ih =>
    intro l q hq
    unfold evictOldestDailyFuel at hq
    split at hq
    · exact btreeRemoveMin_subset l q (ih (btreeRemoveMin l) q hq)
    · exact hq

theorem evictOldestDaily_subset (l : List (Nat × DailyClickHeatmapState)) :
    ∀ q ∈ evictOldestDaily l, q ∈ l :=
  evictOldestDailyFuel_subset l.length l

theorem evictOldestDaily_short (l : List (Nat × DailyClickHeatmapState))
    (h : l.length ≤ MAX_DAILY_DAYS) : evictOldestDaily l = l := by
  unfold evictOldestDaily
  cases hl : l.length with
  | zero => rfl
  | succ n =>
    unfold evictOldestDailyFuel
    rw [if_neg (by omega)]

theorem updateAssoc_forall {κ β : Type} [DecidableEq κ] [Inhabited β] (P : β → Prop)
    (l : List (κ × β)) (k : κ) (f : β → β)
    (hl : ∀ p ∈ l, P p.2) (hf : ∀ v, P v → P (f v)) (hd : P (f default)) :
    ∀ p ∈ updateAssoc l k f, P p.2 := by
  induction l with
  | nil =>
    intro p hp
    simp only [updateAssoc, List.mem_singleton] at hp
    subst hp
    exact hd
  | cons a l ih =>
    intro p hp
    rcases a with ⟨k', v⟩
    unfold updateAssoc at hp
    by_cases hk : k' = k
    · rw [if_pos hk] at hp
      rcases List.mem_cons.mp hp with rfl | hmem
      · exact hf v (hl (k', v) (by simp))
      · exact hl p (List.mem_cons_of_mem _ hmem)
    · rw [if_neg hk] at hp
      rcases List.mem_cons.mp hp with rfl | hmem
      · exact hl (k', v) (by simp)
      · exact ih (fun q hq => hl q (List.mem_cons_of_mem _ hq)) p hmem

theorem bumpHeatmapCell_wf (idx : Nat) (e : DisplayClickHeatmap)
    (he : HeatmapWF e) : HeatmapWF (bumpHeatmapCell idx e) := by
  obtain ⟨hsum, hlen, hcells, htot⟩ := he
  unfold bumpHeatmapCell
  by_cases hidx : idx < e.grid.length
  · rw [if_pos hidx]
    have hv := getD_le_sum e.grid idx
    have heq := sum_set_getD e.grid idx (satAdd32 (e.grid.getD idx 0) 1) hidx
    have hv1 : satAdd32 (e.grid.getD idx 0) 1 ≤ e.grid.getD idx 0 + 1 := by
      unfold satAdd32; omega
    have hgmax : e.grid.sum ≤ CLICK_HEATMAP_BASE_LEN * U32MAX := by
      have h := List.sum_le_card_nsmul e.grid U32MAX hcells
      rw [smul_eq_mul] at h
      rw [← hlen]
      exact h
    have hnum : CLICK_HEATMAP_BASE_LEN * U32MAX + 1 ≤ U64MAX := by
      norm_num [CLICK_HEATMAP_BASE_LEN, CLICK_HEATMAP_BASE_COLS, CLICK_HEATMAP_BASE_ROWS,
        U32MAX, U64MAX]
    have hroom : e.grid.sum + 1 ≤ U64MAX :=
      (Nat.add_le_add_right hgmax 1).trans hnum
    clear hgmax hnum
    refine ⟨?_, by simpa using hlen, ?_, satAdd64_le _ _⟩
    · simp only
      unfold satAdd64
      omega
    · intro v hv'
      rcases List.mem_or_eq_of_mem_set hv' with hmem | rfl
      · exact hcells v hmem
      · unfold satAdd32; omega
  · rw [if_neg hidx]
    refine ⟨?_, hlen, hcells, satAdd64_le _ _⟩
    simp only
    unfold satAdd64
    omega

theorem heatmapWF_default : HeatmapWF (default : DisplayClickHeatmap) := by
  have h : (default : DisplayClickHeatmap) =
      { grid := List.replicate CLICK_HEATMAP_BASE_LEN 0, total_clicks := 0 } := rfl
  rw [HeatmapWF, h]
  refine ⟨by simp, by simp, ?_, by simp⟩
  intro v hv
  rw [List.eq_of_mem_replicate hv]
  exact Nat.zero_le _

theorem recordClickHeatmapCell_wf (st : MeritStorage) (c : Clock) (D : String) (idx : Nat)
    (hwf : ClickHeatmapStateWF st.click_heatmap) :
    ClickHeatmapStateWF (st.recordClickHeatmapCell c D idx).click_heatmap := by
  unfold MeritStorage.recordClickHeatmapCell
  split
  · exact hwf
  · obtain ⟨hdisp, hdaily⟩ := hwf
    constructor
    · simp only
      exact updateAssoc_forall HeatmapWF _ D _ hdisp
        (fun v hv => bumpHeatmapCell_wf idx v hv)
        (bumpHeatmapCell_wf idx default heatmapWF_default)
    · simp only
      intro q hq
      have hq' := evictOldestDaily_subset _ q hq
      have hbumpDefault : HeatmapWF (bumpHeatmapCell idx default) :=
        bumpHeatmapCell_wf idx default heatmapWF_default
      refine updateAssoc_forall (fun day => ∀ p ∈ day.displays, HeatmapWF p.2) _ c.date _
        (fun day hday => hdaily day hday) ?_ ?_ q hq'
      · intro day hday
        exact updateAssoc_forall HeatmapWF _ D _ hday
          (fun v hv => bumpHeatmapCell_wf idx v hv) hbumpDefault
      · intro p hp
        have : p = (D, bumpHeatmapCell idx default) := by
          simpa [updateAssoc] using hp
        rw [this]
        exact hbumpDefault

/-- The storage state after `K` identical in-range clicks on display `D`,
cell `i`, day `c.date`, starting from a fresh store. -/
theorem recordClick_step (d0 : Nat) (c : Clock) (D : String) (i K : Nat)
    (hi : i < CLICK_HEATMAP_BASE_LEN) (hK : K + 1 ≤ U32MAX) :
    MeritStorage.recordClickHeatmapCell
      { MeritStorage.new d0 with click_heatmap :=
        { version := 2,
          displays := [(D, { grid := (List.replicate CLICK_HEATMAP_BASE_LEN 0).set i K,
                             total_clicks := K })],
          daily := [(c.date, ⟨[(D, { grid := (List.replicate CLICK_HEATMAP_BASE_LEN 0).set i K,
                                     total_clicks := K })]⟩)] } } c D i =
      { MeritStorage.new d0 with click_heatmap :=
        { version := 2,
          displays := [(D, { grid := (List.replicate CLICK_HEATMAP_BASE_LEN 0).set i (K + 1),
                             total_clicks := K + 1 })],
          daily := [(c.date, ⟨[(D, { grid := (List.replicate CLICK_HEATMAP_BASE_LEN 0).set i
                                       (K + 1),
                                     total_clicks := K + 1 })]⟩)] } } := by
  have h32_64 : U32MAX ≤ U64MAX := by norm_num [U32MAX, U64MAX]
  have hlen : ((List.replicate CLICK_HEATMAP_BASE_LEN 0).set i K).length =
      CLICK_HEATMAP_BASE_LEN := by simp
  have hbump : bumpHeatmapCell i
      { grid := (List.replicate CLICK_HEATMAP_BASE_LEN 0).set i K, total_clicks := K } =
      { grid := (List.replicate CLICK_HEATMAP_BASE_LEN 0).set i (K + 1),
        total_clicks := K + 1 } := by
    unfold bumpHeatmapCell
    rw [if_pos (by rw [hlen]; exact hi)]
    have hgetD : ((List.replicate CLICK_HEATMAP_BASE_LEN 0).set i K).getD i 0 = K :=
      getD_set_self _ i K (by rw [List.length_replicate]; exact hi)
    have hsat32 : satAdd32 K 1 = K + 1 := by unfold satAdd32; omega
    have hsat64 : satAdd64 K 1 = K + 1 := by unfold satAdd64; omega
    simp only [hgetD, hsat32, hsat64, List.set_set]
  unfold MeritStorage.recordClickHeatmapCell
  rw [if_neg (by omega)]
  simp only [updateAssoc, if_pos rfl, hbump, if_true]
  rw [evictOldestDaily_short _ (by simp [MAX_DAILY_DAYS])]

theorem recordClick_base (d0 : Nat) (c : Clock) (D : String) (i : Nat)
    (hi : i < CLICK_HEATMAP_BASE_LEN) :
    MeritStorage.recordClickHeatmapCell (MeritStorage.new d0) c D i =
      { MeritStorage.new d0 with click_heatmap :=
        { version := 2,
          displays := [(D, { grid := (List.replicate CLICK_HEATMAP_BASE_LEN 0).set i 1,
                             total_clicks := 1 })],
          daily := [(c.date, ⟨[(D, { grid := (List.replicate CLICK_HEATMAP_BASE_LEN 0).set i 1,
                                     total_clicks := 1 })]⟩)] } } := by
  have hbump : bumpHeatmapCell i (default : DisplayClickHeatmap) =
      { grid := (List.replicate CLICK_HEATMAP_BASE_LEN 0).set i 1, total_clicks := 1 } := by
    have hd : (default : DisplayClickHeatmap) =
        { grid := List.replicate CLICK_HEATMAP_BASE_LEN 0, total_clicks := 0 } := rfl
    unfold bumpHeatmapCell
    rw [hd]
    rw [if_pos (by rw [List.length_replicate]; exact hi)]
    have hgetD : (List.replicate CLICK_HEATMAP_BASE_LEN (0 : Nat)).getD i 0 = 0 := by
      rw [List.getD_eq_getElem?_getD]
      rw [List.getElem?_replicate]
      simp [hi]
    have hsat32 : satAdd32 0 1 = 1 := by norm_num [satAdd32, U32MAX]
    have hsat64 : satAdd64 0 1 = 1 := by norm_num [satAdd64, U64MAX]
    simp only [hgetD, hsat32, hsat64]
  unfold MeritStorage.recordClickHeatmapCell
  rw [if_neg (by omega)]
  have hnew : (MeritStorage.new d0).click_heatmap = ClickHeatmapState.default' := rfl
  have hday : (default : DailyClickHeatmapState) = ⟨[]⟩ := rfl
  simp only [hnew, ClickHeatmapState.default', hday, updateAssoc, hbump]
  rw [evictOldestDaily_short _ (by simp [MAX_DAILY_DAYS])]

theorem applyClicks_closed (d0 : Nat) (c : Clock) (D : String) (i : Nat)
    (hi : i < CLICK_HEATMAP_BASE_LEN) :
    ∀ (N K : Nat), 1 ≤ K → K + N ≤ U32MAX →
    applyHeatmapClicks (List.replicate N (c, D, i))
      { MeritStorage.new d0 with click_heatmap :=
        { version := 2,
          displays := [(D, { grid := (List.replicate CLICK_HEATMAP_BASE_LEN 0).set i K,
                             total_clicks := K })],
          daily := [(c.date, ⟨[(D, { grid := (List.replicate CLICK_HEATMAP_BASE_LEN 0).set i K,
                                     total_clicks := K })]⟩)] } } =
      { MeritStorage.new d0 with click_heatmap :=
        { version := 2,
          displays := [(D, { grid := (List.replicate CLICK_HEATMAP_BASE_LEN 0).set i (K + N),
                             total_clicks := K + N })],
          daily := [(c.date, ⟨[(D, { grid := (List.replicate CLICK_HEATMAP_BASE_LEN 0).set i
                                       (K + N),
                                     total_clicks := K + N })]⟩)] } } := by
  intro N
  induction N with
  | zero => intro K _ _; simp [applyHeatmapClicks]
  | succ N ih =>
    intro K hK hcap
    rw [List.replicate_succ]
    unfold applyHeatmapClicks
    simp only [List.foldl_cons]
    rw [show ∀ st : MeritStorage, st.recordClickHeatmapCell (c, D, i).1 (c, D, i).2.1
      (c, D, i).2.2 = st.recordClickHeatmapCell c D i from fun _ => rfl]
    rw [recordClick_step d0 c D i K hi (by omega)]
    have := ih (K + 1) (by omega) (by omega)
    unfold applyHeatmapClicks at this
    rw [this]
    have harith : K + 1 + N = K + (N + 1) := by omega
    rw [harith]

theorem applyClicks_wf (calls : List (Clock × String × Nat)) :
    ∀ (st : MeritStorage), ClickHeatmapStateWF st.click_heatmap →
    ClickHeatmapStateWF (applyHeatmapClicks calls st).click_heatmap := by
  induction calls with
  | nil => exact fun st h => h
  | cons call rest ih =>
    intro st h
    unfold applyHeatmapClicks
    simp only [List.foldl_cons]
    exact ih _ (recordClickHeatmapCell_wf st call.1 call.2.1 call.2.2 h)

/-- C4: an out-of-range cell index (≥ 65536) leaves the storage unchanged;
N in-range clicks on one cell starting from the default state are
observable as count N in both the all-time and the day's grid (cell and
total, up to u32 saturation); and after any call sequence every display —
all-time or daily — satisfies `sum(grid) ≤ total_clicks`. -/
theorem c4_record_click_heatmap_cell :
    (∀ (st : MeritStorage) (c : Clock) (D : String) (idx : Nat),
      CLICK_HEATMAP_BASE_LEN ≤ idx → st.recordClickHeatmapCell c D idx = st) ∧
    (∀ (d0 : Nat) (c : Clock) (D : String) (i N : Nat),
      i < CLICK_HEATMAP_BASE_LEN → N ≤ U32MAX →
      heatCount (applyHeatmapClicks (List.replicate N (c, D, i)) (MeritStorage.new d0)) D i
          = N ∧
      heatTotal (applyHeatmapClicks (List.replicate N (c, D, i)) (MeritStorage.new d0)) D = N ∧
      dailyHeatCount (applyHeatmapClicks (List.replicate N (c, D, i)) (MeritStorage.new d0))
          c.date D i = N ∧
      dailyHeatTotal (applyHeatmapClicks (List.replicate N (c, D, i)) (MeritStorage.new d0))
          c.date D = N) ∧
    (∀ (calls : List (Clock × String × Nat)) (d0 : Nat),
      (∀ p ∈ (applyHeatmapClicks calls (MeritStorage.new d0)).click_heatmap.displays,
        p.2.grid.sum ≤ p.2.total_clicks) ∧
      (∀ q ∈ (applyHeatmapClicks calls (MeritStorage.new d0)).click_heatmap.daily,
        ∀ p ∈ q.2.displays, p.2.grid.sum ≤ p.2.total_clicks)) := by
  refine ⟨?_, ?_, ?_⟩
  · intro st c D idx h
    unfold MeritStorage.recordClickHeatmapCell
    rw [if_pos h]
  · intro d0 c D i N hi hN
    cases N with
    | zero =>
      have hd : (default : DisplayClickHeatmap) =
          { grid := List.replicate CLICK_HEATMAP_BASE_LEN 0, total_clicks := 0 } := rfl
      refine ⟨?_, ?_, ?_, ?_⟩ <;>
        simp [applyHeatmapClicks, heatCount, heatTotal, dailyHeatCount, dailyHeatTotal,
          MeritStorage.new, ClickHeatmapState.default', assocGet, List.getD, hd,
          List.getElem?_replicate, hi]
    | succ M =>
      have hstate : applyHeatmapClicks (List.replicate (M + 1) (c, D, i))
          (MeritStorage.new d0) =
          { MeritStorage.new d0 with click_heatmap :=
            { version := 2,
              displays := [(D, { grid := (List.replicate CLICK_HEATMAP_BASE_LEN 0).set i
                                   (M + 1),
                                 total_clicks := M + 1 })],
              daily := [(c.date,
                ⟨[(D, { grid := (List.replicate CLICK_HEATMAP_BASE_LEN 0).set i (M + 1),
                        total_clicks := M + 1 })]⟩)] } } := by
        rw [List.replicate_succ]
        unfold applyHeatmapClicks
        simp only [List.foldl_cons]
        rw [show (MeritStorage.new d0).recordClickHeatmapCell (c, D, i).1 (c, D, i).2.1
          (c, D, i).2.2 = (MeritStorage.new d0).recordClickHeatmapCell c D i from rfl]
        rw [recordClick_base d0 c D i hi]
        have := applyClicks_closed d0 c D i hi M 1 (by omega) (by omega)
        unfold applyHeatmapClicks at this
        rw [this]
        have harith : 1 + M = M + 1 := by omega
        rw [harith]
      rw [hstate]
      have hget : ((List.replicate CLICK_HEATMAP_BASE_LEN 0).set i (M + 1)).getD i 0 = M + 1 :=
        getD_set_self _ i (M + 1) (by rw [List.length_replicate]; exact hi)
      rw [List.getD_eq_getElem?_getD] at hget
      refine ⟨?_, ?_, ?_, ?_⟩ <;>
        simp [heatCount, heatTotal, dailyHeatCount, dailyHeatTotal, assocGet, hget]
  · intro calls d0
    have hwf : ClickHeatmapStateWF (MeritStorage.new d0).click_heatmap := by
      constructor
      · intro p hp
        simp [MeritStorage.new, ClickHeatmapState.default'] at hp
      · intro q hq
        simp [MeritStorage.new, ClickHeatmapState.default'] at hq
    have h := applyClicks_wf calls (MeritStorage.new d0) hwf
    exact ⟨fun p hp => (h.1 p hp).1, fun q hq p hp => (h.2 q hq p hp).1⟩

/-- Witness for C4: three clicks on cell 5 of display "d"; an index 70000
call is a no-op. -/
theorem c4_witness :
    (MeritStorage.new 0).recordClickHeatmapCell ⟨0, 0, 0⟩ "d" 70000 = MeritStorage.new 0 ∧
    heatCount (applyHeatmapClicks (List.replicate 3 (⟨0, 0, 0⟩, "d", 5)) (MeritStorage.new 0))
      "d" 5 = 3 ∧
    dailyHeatTotal (applyHeatmapClicks (List.replicate 3 (⟨0, 0, 0⟩, "d", 5))
      (MeritStorage.new 0)) 0 "d" = 3 := by
  have h1 := c4_record_click_heatmap_cell.1 (MeritStorage.new 0) ⟨0, 0, 0⟩ "d" 70000
    (by norm_num [CLICK_HEATMAP_BASE_LEN, CLICK_HEATMAP_BASE_COLS, CLICK_HEATMAP_BASE_ROWS])
  have h2 := c4_record_click_heatmap_cell.2.1 0 ⟨0, 0, 0⟩ "d" 5 3
    (by norm_num [CLICK_HEATMAP_BASE_LEN, CLICK_HEATMAP_BASE_COLS, CLICK_HEATMAP_BASE_ROWS])
    (by norm_num [U32MAX])
  exact ⟨h1, h2.1, h2.2.2.2⟩

/-! ## C1: batching invariance

The proof reduces both sides to a closed form: every counter the claim
names ends up as `satAdd64` of its start value and the plain sum of the
matching triggers' counts. -/

theorem assocGet_mem {κ β : Type} [DecidableEq κ] (l : List (κ × β)) (k : κ) (v : β)
    (h : assocGet l k = some v) : (k, v) ∈ l := by
  induction l with
  | nil => cases h
  | cons a l ih =>
    rcases a with ⟨k0, v0⟩
    unfold assocGet at h
    by_cases hk : k0 = k
    · rw [if_pos hk] at h
      cases h
      subst hk
      exact List.mem_cons_self _ _
    · rw [if_neg hk] at h
      exact List.mem_cons_of_mem _ (ih h)

theorem getCount_le {κ : Type} [DecidableEq κ] (l : List (κ × Nat)) (k : κ)
    (h : ∀ p ∈ l, p.2 ≤ U64MAX) : getCount l k ≤ U64MAX := by
  unfold getCount
  cases hg : assocGet l k with
  | none => simp [U64MAX]
  | some v => simpa using h (k, v) (assocGet_mem l k v hg)

theorem getCount_cons {κ : Type} [DecidableEq κ] (k0 : κ) (v0 : Nat)
    (rest : List (κ × Nat)) (k : κ) :
    getCount ((k0, v0) :: rest) k = if k0 = k then v0 else getCount rest k := by
  show (assocGet ((k0, v0) :: rest) k).getD 0 = _
  rw [show assocGet ((k0, v0) :: rest) k = if k0 = k then some v0 else assocGet rest k from
    rfl]
  split <;> rfl

theorem getCount_nil {κ : Type} [DecidableEq κ] (k : κ) : getCount ([] : List (κ × Nat)) k = 0 :=
  rfl

theorem getCount_bumpSat {κ : Type} [DecidableEq κ] (l : List (κ × Nat)) (k k' : κ)
    (c : Nat) (hc : c ≤ U64MAX) :
    getCount (bumpSat l k c) k' =
      if k' = k then satAdd64 (getCount l k) c else getCount l k' := by
  induction l with
  | nil =>
    show getCount [(k, c)] k' = _
    rw [getCount_cons, getCount_nil]
    by_cases hk : k' = k
    · subst hk
      rw [if_pos rfl, if_pos rfl, getCount_nil]
      unfold satAdd64
      omega
    · rw [if_neg (fun h => hk h.symm), if_neg hk]
  | cons a rest ih =>
    rcases a with ⟨k0, v0⟩
    by_cases hk0 : k0 = k
    · subst hk0
      by_cases hk : k' = k0
      · subst hk
        simp [bumpSat, getCount_cons]
      · simp [bumpSat, getCount_cons, hk, Ne.symm hk]
    · by_cases hk : k' = k0
      · subst hk
        have hne : k' ≠ k := fun h => hk0 (h ▸ rfl)
        simp [bumpSat, getCount_cons, hk0, hne]
      · simp [bumpSat, getCount_cons, hk0, hk, Ne.symm hk, ih]

theorem mem_keys_bumpSat {κ : Type} [DecidableEq κ] (l : List (κ × Nat)) (k k' : κ)
    (c : Nat) :
    k' ∈ (bumpSat l k c).map Prod.fst ↔ k' ∈ l.map Prod.fst ∨ k' = k := by
  induction l with
  | nil => simp [bumpSat]
  | cons a l ih =>
    rcases a with ⟨k0, v0⟩
    unfold bumpSat
    by_cases hk0 : k0 = k
    · rw [if_pos hk0]
      subst hk0
      simp only [List.map_cons, List.mem_cons]
      tauto
    · rw [if_neg hk0]
      simp only [List.map_cons, List.mem_cons, ih]
      tauto

theorem nodup_keys_bumpSat {κ : Type} [DecidableEq κ] (l : List (κ × Nat)) (k : κ)
    (c : Nat) (h : (l.map Prod.fst).Nodup) : ((bumpSat l k c).map Prod.fst).Nodup := by
  induction l with
  | nil => simp [bumpSat]
  | cons a l ih =>
    rcases a with ⟨k0, v0⟩
    simp only [List.map_cons, List.nodup_cons] at h
    unfold bumpSat
    by_cases hk0 : k0 = k
    · rw [if_pos hk0]
      simp only [List.map_cons, List.nodup_cons]
      exact h
    · rw [if_neg hk0]
      simp only [List.map_cons, List.nodup_cons]
      refine ⟨?_, ih h.2⟩
      rw [mem_keys_bumpSat]
      rintro (hmem | rfl)
      · exact h.1 hmem
      · exact hk0 rfl

theorem valsLe_bumpSat {κ : Type} [DecidableEq κ] (l : List (κ × Nat)) (k : κ) (c : Nat)
    (hl : ∀ p ∈ l, p.2 ≤ U64MAX) (hc : c ≤ U64MAX) :
    ∀ p ∈ bumpSat l k c, p.2 ≤ U64MAX := by
  induction l with
  | nil =>
    intro p hp
    simp only [bumpSat, List.mem_singleton] at hp
    subst hp
    exact hc
  | cons a l ih =>
    rcases a with ⟨k0, v0⟩
    intro p hp
    unfold bumpSat at hp
    by_cases hk0 : k0 = k
    · rw [if_pos hk0] at hp
      rcases List.mem_cons.mp hp with rfl | hmem
      · exact satAdd64_le _ _
      · exact hl p (List.mem_cons_of_mem _ hmem)
    · rw [if_neg hk0] at hp
      rcases List.mem_cons.mp hp with rfl | hmem
      · exact hl _ (List.mem_cons_self _ _)
      · exact ih (fun q hq => hl q (List.mem_cons_of_mem _ hq)) p hmem

theorem aggFlat_cons {κ : Type} [DecidableEq κ] (ex : Trigger → Option (κ × Nat))
    (t : Trigger) (ts : List Trigger) (acc : List (κ × Nat)) :
    aggFlat ex (t :: ts) acc =
      aggFlat ex ts (match ex t with
        | none => acc
        | some (k, c) => bumpSat acc k c) := by
  simp [aggFlat]

theorem contribEx_cons {κ : Type} [DecidableEq κ] (ex : Trigger → Option (κ × Nat))
    (t : Trigger) (ts : List Trigger) (k : κ) :
    contribEx ex (t :: ts) k =
      (match ex t with
        | none => 0
        | some (k', c) => if k' = k then c else 0) + contribEx ex ts k := by
  simp [contribEx]

theorem contribEx_cons_none {κ : Type} [DecidableEq κ] (ex : Trigger → Option (κ × Nat))
    (t : Trigger) (ts : List Trigger) (k : κ) (h : ex t = none) :
    contribEx ex (t :: ts) k = contribEx ex ts k := by
  simp [contribEx, h]

theorem contribEx_cons_some {κ : Type} [DecidableEq κ] (ex : Trigger → Option (κ × Nat))
    (t : Trigger) (ts : List Trigger) (k k0 : κ) (c : Nat) (h : ex t = some (k0, c)) :
    contribEx ex (t :: ts) k = (if k0 = k then c else 0) + contribEx ex ts k := by
  simp [contribEx, h]

theorem getCount_aggFlat {κ : Type} [DecidableEq κ] (ex : Trigger → Option (κ × Nat))
    (ts : List Trigger) (k : κ)
    (hle : ∀ t ∈ ts, ∀ p, ex t = some p → p.2 ≤ U64MAX) :
    ∀ acc, (∀ p ∈ acc, p.2 ≤ U64MAX) →
    getCount (aggFlat ex ts acc) k = min (getCount acc k + contribEx ex ts k) U64MAX := by
  induction ts with
  | nil =>
    intro acc hacc
    have := getCount_le acc k hacc
    simp only [aggFlat, List.foldl_nil, contribEx, List.map_nil, List.sum_nil]
    omega
  | cons t ts ih =>
    intro acc hacc
    rw [aggFlat_cons]
    cases hext : ex t with
    | none =>
      rw [contribEx_cons_none ex t ts k hext,
        ih (fun t' ht' => hle t' (List.mem_cons_of_mem _ ht')) acc hacc]
    | some p =>
      rcases p with ⟨k0, c⟩
      have hc : c ≤ U64MAX := hle t (List.mem_cons_self _ _) (k0, c) hext
      rw [contribEx_cons_some ex t ts k k0 c hext,
        ih (fun t' ht' => hle t' (List.mem_cons_of_mem _ ht'))
          (bumpSat acc k0 c) (valsLe_bumpSat acc k0 c hacc hc),
        getCount_bumpSat acc k0 k c hc]
      by_cases hk : k = k0
      · subst hk
        rw [if_pos rfl, if_pos rfl]
        unfold satAdd64
        omega
      · rw [if_neg hk, if_neg (fun h => hk h.symm)]
        simp

theorem mem_keys_aggFlat {κ : Type} [DecidableEq κ] (ex : Trigger → Option (κ × Nat))
    (ts : List Trigger) (k : κ)
    (hpos : ∀ t ∈ ts, ∀ p, ex t = some p → 0 < p.2) :
    ∀ acc, (k ∈ (aggFlat ex ts acc).map Prod.fst ↔
      k ∈ acc.map Prod.fst ∨ 0 < contribEx ex ts k) := by
  induction ts with
  | nil =>
    intro acc
    simp [aggFlat, contribEx]
  | cons t ts ih =>
    intro acc
    rw [aggFlat_cons]
    cases hext : ex t with
    | none =>
      rw [contribEx_cons_none ex t ts k hext,
        ih (fun t' ht' => hpos t' (List.mem_cons_of_mem _ ht'))]
    | some p =>
      rcases p with ⟨k0, c⟩
      have hc : 0 < c := hpos t (List.mem_cons_self _ _) (k0, c) hext
      rw [contribEx_cons_some ex t ts k k0 c hext,
        ih (fun t' ht' => hpos t' (List.mem_cons_of_mem _ ht')),
        mem_keys_bumpSat]
      by_cases hk : k0 = k
      · subst hk
        rw [if_pos rfl]
        constructor
        · intro h
          omega
        · intro h
          tauto
      · rw [if_neg hk]
        constructor
        · rintro ((h | h) | h)
          · exact Or.inl h
          · exact absurd h.symm hk
          · simp only [Nat.zero_add] at h ⊢
            exact Or.inr (by omega)
        · rintro (h | h)
          · exact Or.inl (Or.inl h)
          · exact Or.inr (by omega)

theorem nodup_keys_aggFlat {κ : Type} [DecidableEq κ] (ex : Trigger → Option (κ × Nat))
    (ts : List Trigger) :
    ∀ acc, (acc.map Prod.fst).Nodup → ((aggFlat ex ts acc).map Prod.fst).Nodup := by
  induction ts with
  | nil => exact fun acc h => h
  | cons t ts ih =>
    intro acc hacc
    rw [aggFlat_cons]
    cases hext : ex t with
    | none => exact ih acc hacc
    | some p =>
      rcases p with ⟨k0, c⟩
      exact ih _ (nodup_keys_bumpSat acc k0 c hacc)

theorem valsLe_aggFlat {κ : Type} [DecidableEq κ] (ex : Trigger → Option (κ × Nat))
    (ts : List Trigger)
    (hle : ∀ t ∈ ts, ∀ p, ex t = some p → p.2 ≤ U64MAX) :
    ∀ acc, (∀ p ∈ acc, p.2 ≤ U64MAX) →
    ∀ p ∈ aggFlat ex ts acc, p.2 ≤ U64MAX := by
  induction ts with
  | nil => exact fun acc h => h
  | cons t ts ih =>
    intro acc hacc
    rw [aggFlat_cons]
    cases hext : ex t with
    | none => exact ih (fun t' ht' => hle t' (List.mem_cons_of_mem _ ht')) acc hacc
    | some p =>
      rcases p with ⟨k0, c⟩
      exact ih (fun t' ht' => hle t' (List.mem_cons_of_mem _ ht')) _
        (valsLe_bumpSat acc k0 c hacc (hle t (List.mem_cons_self _ _) (k0, c) hext))

theorem assocGet_of_mem_nodup {κ β : Type} [DecidableEq κ] (l : List (κ × β))
    (hnd : (l.map Prod.fst).Nodup) : ∀ p ∈ l, assocGet l p.1 = some p.2 := by
  induction l with
  | nil => intro p hp; cases hp
  | cons a l ih =>
    rcases a with ⟨k0, v0⟩
    simp only [List.map_cons, List.nodup_cons] at hnd
    intro p hp
    rcases List.mem_cons.mp hp with rfl | hmem
    · show (if k0 = k0 then some v0 else assocGet l k0) = some v0
      rw [if_pos rfl]
    · show (if k0 = p.1 then some v0 else assocGet l p.1) = some p.2
      have : k0 ≠ p.1 := by
        intro h
        exact hnd.1 (h ▸ List.mem_map_of_mem Prod.fst hmem)
      rw [if_neg this]
      exact ih hnd.2 p hmem

theorem aggByKey_eq_aggFlat (ts : List Trigger) :
    ∀ acc, ts.foldl (fun acc t =>
      if t.count = 0 then acc else bumpSat acc (t.origin, t.source) t.count) acc =
      aggFlat exByKey ts acc := by
  induction ts with
  | nil => intro acc; rfl
  | cons t ts ih =>
    intro acc
    rw [List.foldl_cons, aggFlat_cons, ih]
    by_cases h0 : t.count = 0
    · rw [if_pos h0, show exByKey t = none by simp [exByKey, h0]]
    · rw [if_neg h0, show exByKey t = some ((t.origin, t.source), t.count) by
        simp [exByKey, h0]]

theorem aggByKey_eq (ts : List Trigger) : aggByKey ts = aggFlat exByKey ts [] :=
  aggByKey_eq_aggFlat ts []

theorem aggPerOrigin_eq_aggFlat (ex : Trigger → Option (String × Nat)) (ts : List Trigger)
    (o : InputOrigin) :
    ∀ (m : InputOrigin → List (String × Nat)),
    (ts.foldl (fun m t =>
      match ex t with
      | none => m
      | some (code, c) => fun o' => if o' = t.origin then bumpSat (m t.origin) code c
          else m o') m) o =
      aggFlat (exAtOrigin ex o) ts (m o) := by
  induction ts with
  | nil => intro m; rfl
  | cons t ts ih =>
    intro m
    rw [List.foldl_cons, aggFlat_cons, ih]
    cases hext : ex t with
    | none =>
      rw [show exAtOrigin ex o t = none by simp [exAtOrigin, hext]]
    | some kc =>
      by_cases ho : t.origin = o
      · rw [show exAtOrigin ex o t = some kc by simp [exAtOrigin, hext, ho]]
        congr 1
        rcases kc with ⟨code, c⟩
        simp only
        rw [if_pos ho.symm, ho]
      · rw [show exAtOrigin ex o t = none by simp [exAtOrigin, hext, ho]]
        congr 1
        rcases kc with ⟨code, c⟩
        simp only
        rw [if_neg (fun h => ho h.symm)]

theorem aggPerOrigin_eq (ex : Trigger → Option (String × Nat)) (ts : List Trigger)
    (o : InputOrigin) :
    aggPerOrigin ex ts o = aggFlat (exAtOrigin ex o) ts [] :=
  aggPerOrigin_eq_aggFlat ex ts o (fun _ => [])

theorem contribEx_pos_exists {κ : Type} [DecidableEq κ] (ex : Trigger → Option (κ × Nat))
    (ts : List Trigger) (k : κ) (h : 0 < contribEx ex ts k) :
    ∃ t ∈ ts, ∃ c, ex t = some (k, c) ∧ 0 < c := by
  induction ts with
  | nil => simp [contribEx] at h
  | cons t ts ih =>
    cases hext : ex t with
    | none =>
      rw [contribEx_cons_none ex t ts k hext] at h
      rcases ih h with ⟨t', ht', c, hc, hp⟩
      exact ⟨t', List.mem_cons_of_mem _ ht', c, hc, hp⟩
    | some p =>
      rcases p with ⟨k0, c⟩
      rw [contribEx_cons_some ex t ts k k0 c hext] at h
      by_cases hk : k0 = k
      · subst hk
        rw [if_pos rfl] at h
        by_cases hc : 0 < c
        · exact ⟨t, List.mem_cons_self _ _, c, hext, hc⟩
        · rcases ih (by omega) with ⟨t', ht', c', hc', hp⟩
          exact ⟨t', List.mem_cons_of_mem _ ht', c', hc', hp⟩
      · rw [if_neg hk] at h
        rcases ih (by omega) with ⟨t', ht', c', hc', hp⟩
        exact ⟨t', List.mem_cons_of_mem _ ht', c', hc', hp⟩

/-! The `by_app` aggregation: the same characterizations for `bumpApp`,
whose values carry the summed count next to the first reported name. -/

theorem appAggCount_cons (k0 : InputOrigin × InputSource × String) (v0 : Nat × Option String)
    (rest : List ((InputOrigin × InputSource × String) × (Nat × Option String)))
    (k : InputOrigin × InputSource × String) :
    appAggCount ((k0, v0) :: rest) k = if k0 = k then v0.1 else appAggCount rest k := by
  show ((if k0 = k then some v0 else assocGet rest k).map (fun v => v.1)).getD 0 = _
  split <;> rfl

theorem appAggCount_nil (k : InputOrigin × InputSource × String) :
    appAggCount ([] : List ((InputOrigin × InputSource × String) × (Nat × Option String))) k
      = 0 := rfl

theorem appAggCount_bumpApp (l : List ((InputOrigin × InputSource × String) ×
      (Nat × Option String)))
    (k k' : InputOrigin × InputSource × String) (c : Nat) (n : Option String)
    (hc : c ≤ U64MAX) :
    appAggCount (bumpApp l k c n) k' =
      if k' = k then satAdd64 (appAggCount l k) c else appAggCount l k' := by
  induction l with
  | nil =>
    show appAggCount [(k, (c, n))] k' = _
    rw [appAggCount_cons, appAggCount_nil]
    by_cases hk : k' = k
    · subst hk
      rw [if_pos rfl, if_pos rfl, appAggCount_nil]
      unfold satAdd64
      omega
    · rw [if_neg (fun h => hk h.symm), if_neg hk]
  | cons a rest ih =>
    rcases a with ⟨k0, v0⟩
    rcases v0 with ⟨c0, n0⟩
    by_cases hk0 : k0 = k
    · subst hk0
      by_cases hk : k' = k0
      · subst hk
        simp [bumpApp, appAggCount_cons]
      · simp [bumpApp, appAggCount_cons, hk, Ne.symm hk]
    · by_cases hk : k' = k0
      · subst hk
        have hne : k' ≠ k := fun h => hk0 (h ▸ rfl)
        simp [bumpApp, appAggCount_cons, hk0, hne]
      · simp [bumpApp, appAggCount_cons, hk0, hk, Ne.symm hk, ih]

theorem mem_keys_bumpApp (l : List ((InputOrigin × InputSource × String) ×
      (Nat × Option String)))
    (k k' : InputOrigin × InputSource × String) (c : Nat) (n : Option String) :
    k' ∈ (bumpApp l k c n).map Prod.fst ↔ k' ∈ l.map Prod.fst ∨ k' = k := by
  induction l with
  | nil => simp [bumpApp]
  | cons a l ih =>
    rcases a with ⟨k0, v0⟩
    rcases v0 with ⟨c0, n0⟩
    unfold bumpApp
    by_cases hk0 : k0 = k
    · rw [if_pos hk0]
      subst hk0
      simp only [List.map_cons, List.mem_cons]
      tauto
    · rw [if_neg hk0]
      simp only [List.map_cons, List.mem_cons, ih]
      tauto

theorem nodup_keys_bumpApp (l : List ((InputOrigin × InputSource × String) ×
      (Nat × Option String)))
    (k : InputOrigin × InputSource × String) (c : Nat) (n : Option String)
    (h : (l.map Prod.fst).Nodup) : ((bumpApp l k c n).map Prod.fst).Nodup := by
  induction l with
  | nil => simp [bumpApp]
  | cons a l ih =>
    rcases a with ⟨k0, v0⟩
    rcases v0 with ⟨c0, n0⟩
    simp only [List.map_cons, List.nodup_cons] at h
    unfold bumpApp
    by_cases hk0 : k0 = k
    · rw [if_pos hk0]
      simp only [List.map_cons, List.nodup_cons]
      exact h
    · rw [if_neg hk0]
      simp only [List.map_cons, List.nodup_cons]
      refine ⟨?_, ih h.2⟩
      rw [mem_keys_bumpApp]
      rintro (hmem | rfl)
      · exact h.1 hmem
      · exact hk0 rfl

theorem valsLe_bumpApp (l : List ((InputOrigin × InputSource × String) ×
      (Nat × Option String)))
    (k : InputOrigin × InputSource × String) (c : Nat) (n : Option String)
    (hl : ∀ p ∈ l, p.2.1 ≤ U64MAX) (hc : c ≤ U64MAX) :
    ∀ p ∈ bumpApp l k c n, p.2.1 ≤ U64MAX := by
  induction l with
  | nil =>
    intro p hp
    simp only [bumpApp, List.mem_singleton] at hp
    subst hp
    exact hc
  | cons a l ih =>
    rcases a with ⟨k0, v0⟩
    rcases v0 with ⟨c0, n0⟩
    intro p hp
    unfold bumpApp at hp
    by_cases hk0 : k0 = k
    · rw [if_pos hk0] at hp
      rcases List.mem_cons.mp hp with rfl | hmem
      · exact satAdd64_le _ _
      · exact hl p (List.mem_cons_of_mem _ hmem)
    · rw [if_neg hk0] at hp
      rcases List.mem_cons.mp hp with rfl | hmem
      · exact hl _ (List.mem_cons_self _ _)
      · exact ih (fun q hq => hl q (List.mem_cons_of_mem _ hq)) p hmem

theorem appAggCount_le (l : List ((InputOrigin × InputSource × String) ×
      (Nat × Option String))) (k : InputOrigin × InputSource × String)
    (h : ∀ p ∈ l, p.2.1 ≤ U64MAX) : appAggCount l k ≤ U64MAX := by
  unfold appAggCount
  cases hg : assocGet l k with
  | none => simp [U64MAX]
  | some v => simpa using h (k, v) (assocGet_mem l k v hg)

theorem contribApp_cons (t : Trigger) (ts : List Trigger)
    (k : InputOrigin × InputSource × String) :
    contribApp (t :: ts) k =
      (match t.app with
        | none => 0
        | some a => if (t.origin, t.source, a.id) = k then t.count else 0) +
      contribApp ts k := by
  simp [contribApp]

theorem aggByApp_step (t : Trigger) (ts : List Trigger)
    (acc : List ((InputOrigin × InputSource × String) × (Nat × Option String))) :
    (t :: ts).foldl (fun acc t =>
      if t.count = 0 then acc
      else
        match t.app with
        | some app => bumpApp acc (t.origin, t.source, app.id) t.count app.name
        | none => acc) acc =
    ts.foldl (fun acc t =>
      if t.count = 0 then acc
      else
        match t.app with
        | some app => bumpApp acc (t.origin, t.source, app.id) t.count app.name
        | none => acc)
      (if t.count = 0 then acc
       else
         match t.app with
         | some app => bumpApp acc (t.origin, t.source, app.id) t.count app.name
         | none => acc) := by
  rfl

theorem appAggCount_aggByApp_aux (ts : List Trigger)
    (k : InputOrigin × InputSource × String)
    (hle : ∀ t ∈ ts, t.count ≤ U64MAX) :
    ∀ acc, (∀ p ∈ acc, p.2.1 ≤ U64MAX) →
    appAggCount (ts.foldl (fun acc t =>
      if t.count = 0 then acc
      else
        match t.app with
        | some app => bumpApp acc (t.origin, t.source, app.id) t.count app.name
        | none => acc) acc) k =
      min (appAggCount acc k + contribApp ts k) U64MAX := by
  induction ts with
  | nil =>
    intro acc hacc
    have := appAggCount_le acc k hacc
    simp only [List.foldl_nil, contribApp, List.map_nil, List.sum_nil]
    omega
  | cons t ts ih =>
    intro acc hacc
    rw [aggByApp_step, contribApp_cons]
    by_cases h0 : t.count = 0
    · rw [if_pos h0]
      rw [ih (fun t' ht' => hle t' (List.mem_cons_of_mem _ ht')) acc hacc]
      cases happ : t.app with
      | none => simp
      | some a => simp [h0]
    · rw [if_neg h0]
      cases happ : t.app with
      | none =>
        rw [ih (fun t' ht' => hle t' (List.mem_cons_of_mem _ ht')) acc hacc]
        simp
      | some a =>
        have hc : t.count ≤ U64MAX := hle t (List.mem_cons_self _ _)
        have hmatch : (match some a with
          | none => 0
          | some a => if (t.origin, t.source, a.id) = k then t.count else 0) =
            (if (t.origin, t.source, a.id) = k then t.count else 0) := rfl
        rw [hmatch]
        rw [ih (fun t' ht' => hle t' (List.mem_cons_of_mem _ ht')) _
          (valsLe_bumpApp acc _ t.count a.name hacc hc)]
        rw [appAggCount_bumpApp acc _ k t.count a.name hc]
        by_cases hk : k = (t.origin, t.source, a.id)
        · rw [if_pos hk, if_pos (hk.symm), hk]
          unfold satAdd64
          omega
        · rw [if_neg hk, if_neg (fun h => hk h.symm)]
          simp

theorem mem_keys_aggByApp_aux (ts : List Trigger)
    (k : InputOrigin × InputSource × String) :
    ∀ acc : List ((InputOrigin × InputSource × String) × (Nat × Option String)),
      (k ∈ ((ts.foldl (fun acc t =>
      if t.count = 0 then acc
      else
        match t.app with
        | some app => bumpApp acc (t.origin, t.source, app.id) t.count app.name
        | none => acc) acc)).map Prod.fst ↔
      k ∈ acc.map Prod.fst ∨ 0 < contribApp ts k) := by
  induction ts with
  | nil =>
    intro acc
    simp [contribApp]
  | cons t ts ih =>
    intro acc
    rw [aggByApp_step, contribApp_cons, ih]
    by_cases h0 : t.count = 0
    · rw [if_pos h0]
      cases happ : t.app with
      | none => simp
      | some a => simp [h0]
    · rw [if_neg h0]
      cases happ : t.app with
      | none => simp
      | some a =>
        rw [mem_keys_bumpApp]
        have hmatch : (match some a with
          | none => 0
          | some a => if (t.origin, t.source, a.id) = k then t.count else 0) =
            (if (t.origin, t.source, a.id) = k then t.count else 0) := rfl
        rw [hmatch]
        by_cases hk : (t.origin, t.source, a.id) = k
        · rw [if_pos hk]
          constructor
          · intro h
            right
            omega
          · intro h
            exact Or.inl (Or.inr hk.symm)
        · rw [if_neg hk]
          constructor
          · rintro ((h | h) | h)
            · exact Or.inl h
            · exact absurd h.symm hk
            · exact Or.inr (by omega)
          · rintro (h | h)
            · exact Or.inl (Or.inl h)
            · exact Or.inr (by omega)

theorem nodup_keys_aggByApp_aux (ts : List Trigger) :
    ∀ acc : List ((InputOrigin × InputSource × String) × (Nat × Option String)),
      (acc.map Prod.fst).Nodup →
    (((ts.foldl (fun acc t =>
      if t.count = 0 then acc
      else
        match t.app with
        | some app => bumpApp acc (t.origin, t.source, app.id) t.count app.name
        | none => acc) acc)).map Prod.fst).Nodup := by
  induction ts with
  | nil => exact fun acc h => h
  | cons t ts ih =>
    intro acc hacc
    rw [aggByApp_step]
    by_cases h0 : t.count = 0
    · rw [if_pos h0]
      exact ih acc hacc
    · rw [if_neg h0]
      cases happ : t.app with
      | none => exact ih acc hacc
      | some a => exact ih _ (nodup_keys_bumpApp acc _ t.count a.name hacc)

theorem contribApp_pos_exists (ts : List Trigger) (k : InputOrigin × InputSource × String)
    (h : 0 < contribApp ts k) :
    ∃ t ∈ ts, ∃ a, t.app = some a ∧ (t.origin, t.source, a.id) = k ∧ 0 < t.count := by
  induction ts with
  | nil => simp [contribApp] at h
  | cons t ts ih =>
    rw [contribApp_cons] at h
    cases happ : t.app with
    | none =>
      rw [happ] at h
      simp only [Nat.zero_add] at h
      rcases ih h with ⟨t', ht', a, ha, hk, hc⟩
      exact ⟨t', List.mem_cons_of_mem _ ht', a, ha, hk, hc⟩
    | some a =>
      rw [happ] at h
      have hmatch : (match some a with
        | none => 0
        | some a => if (t.origin, t.source, a.id) = k then t.count else 0) =
          (if (t.origin, t.source, a.id) = k then t.count else 0) := rfl
      rw [hmatch] at h
      by_cases hk : (t.origin, t.source, a.id) = k
      · rw [if_pos hk] at h
        by_cases hc : 0 < t.count
        · exact ⟨t, List.mem_cons_self _ _, a, happ, hk, hc⟩
        · rcases ih (by omega) with ⟨t', ht', a', ha', hk', hc'⟩
          exact ⟨t', List.mem_cons_of_mem _ ht', a', ha', hk', hc'⟩
      · rw [if_neg hk] at h
        rcases ih (by omega) with ⟨t', ht', a', ha', hk', hc'⟩
        exact ⟨t', List.mem_cons_of_mem _ ht', a', ha', hk', hc'⟩

/-! ## C1 stage 2: bridging entry sums, key sums and trigger sums -/

theorem satAdd64_min2 (x a b : Nat) :
    satAdd64 x (min a U64MAX + min b U64MAX) = satAdd64 x (a + b) := by
  unfold satAdd64; omega

theorem getCount_eq_zero_of_not_mem {κ : Type} [DecidableEq κ] (l : List (κ × Nat)) (k : κ)
    (h : k ∉ l.map Prod.fst) : getCount l k = 0 := by
  induction l with
  | nil => rfl
  | cons p rest ih =>
    rcases p with ⟨k0, v0⟩
    rw [List.map_cons, List.mem_cons] at h
    push_neg at h
    rw [getCount_cons, if_neg (fun hh => h.1 hh.symm)]
    exact ih h.2

theorem sumValsAt_cons {κ : Type} [DecidableEq κ] (k0 : κ) (v0 : Nat) (rest : List (κ × Nat))
    (k : κ) :
    sumValsAt ((k0, v0) :: rest) k = (if k0 = k then v0 else 0) + sumValsAt rest k := rfl

theorem sumValsAt_eq_zero_of_not_mem {κ : Type} [DecidableEq κ] (l : List (κ × Nat)) (k : κ)
    (h : k ∉ l.map Prod.fst) : sumValsAt l k = 0 := by
  induction l with
  | nil => rfl
  | cons p rest ih =>
    rcases p with ⟨k0, v0⟩
    rw [List.map_cons, List.mem_cons] at h
    push_neg at h
    rw [sumValsAt_cons, if_neg (fun hh => h.1 hh.symm), Nat.zero_add]
    exact ih h.2

theorem sumValsAt_eq_getCount {κ : Type} [DecidableEq κ] (l : List (κ × Nat)) (k : κ)
    (h : (l.map Prod.fst).Nodup) : sumValsAt l k = getCount l k := by
  induction l with
  | nil => rfl
  | cons p rest ih =>
    rcases p with ⟨k0, v0⟩
    rw [List.map_cons, List.nodup_cons] at h
    rw [sumValsAt_cons, getCount_cons]
    by_cases hk : k0 = k
    · subst hk
      rw [if_pos rfl, if_pos rfl, sumValsAt_eq_zero_of_not_mem rest k0 h.1]
      omega
    · rw [if_neg hk, if_neg hk, Nat.zero_add]
      exact ih h.2

theorem sum_map_filter {α : Type} (p : α → Bool) (f : α → Nat) (l : List α) :
    ((l.filter p).map f).sum = (l.map (fun x => if p x then f x else 0)).sum := by
  induction l with
  | nil => rfl
  | cons x xs ih =>
    by_cases hp : p x
    · rw [List.filter_cons_of_pos hp, List.map_cons, List.sum_cons, List.map_cons,
        List.sum_cons, if_pos hp, ih]
    · rw [List.filter_cons_of_neg (by simpa using hp), List.map_cons, List.sum_cons,
        if_neg hp, Nat.zero_add, ih]

theorem nodup_subset_dedup_length {α : Type} [DecidableEq α] (l A : List α)
    (hn : l.Nodup) (hs : ∀ x ∈ l, x ∈ A) : l.length ≤ A.dedup.length := by
  calc l.length = l.toFinset.card := (List.toFinset_card_of_nodup hn).symm
    _ ≤ A.toFinset.card := Finset.card_le_card (by
        intro x hx
        rw [List.mem_toFinset] at hx ⊢
        exact hs x hx)
    _ = A.dedup.length := List.card_toFinset A

theorem sum_keys_extend {κ : Type} [DecidableEq κ] (Ka Kb : List κ) (w : κ → Nat)
    (hKa : Ka.Nodup) (hKb : Kb.Nodup) (hsub : ∀ k ∈ Ka, k ∈ Kb)
    (hz : ∀ k ∈ Kb, k ∉ Ka → w k = 0) :
    (Ka.map w).sum = (Kb.map w).sum := by
  rw [← List.sum_toFinset w hKa, ← List.sum_toFinset w hKb]
  refine Finset.sum_subset ?_ ?_
  · intro x hx
    rw [List.mem_toFinset] at hx ⊢
    exact hsub x hx
  · intro x hx hnx
    rw [List.mem_toFinset] at hx
    exact hz x hx (by simpa using hnx)

theorem sum_entries_keys {κ β : Type} (l : List (κ × β)) (W : κ × β → Nat) (w : κ → Nat)
    (hW : ∀ e ∈ l, W e = w e.1) :
    (l.map W).sum = ((l.map Prod.fst).map w).sum := by
  have h : l.map W = l.map (fun e => w e.1) := List.map_congr_left hW
  rw [h, List.map_map]
  rfl

theorem mem_allGroupKeys (k : InputOrigin × InputSource) : k ∈ allGroupKeys := by
  rcases k with ⟨o, s⟩
  cases o <;> cases s <;> simp [allGroupKeys]

theorem allGroupKeys_nodup : allGroupKeys.Nodup := by decide

theorem shouldCount_congr (st st' : MeritStorage) (h : st'.settings = st.settings)
    (o : InputOrigin) (s : InputSource) : st'.shouldCount o s = st.shouldCount o s := by
  unfold MeritStorage.shouldCount
  rw [h]

theorem singletonBatches_flatten (ts : List Trigger) : (singletonBatches ts).flatten = ts := by
  induction ts with
  | nil => rfl
  | cons t ts ih => simpa [singletonBatches] using ih

theorem CountsView.ext' (a b : CountsView)
    (h1 : a.total_merit = b.total_merit) (h2 : a.today_total = b.today_total)
    (h3 : a.today_keyboard = b.today_keyboard)
    (h4 : a.today_mouse_single = b.today_mouse_single)
    (h5 : a.key_counts = b.key_counts)
    (h6 : a.key_counts_unshifted = b.key_counts_unshifted)
    (h7 : a.key_counts_shifted = b.key_counts_shifted)
    (h8 : a.shortcut_counts = b.shortcut_counts)
    (h9 : a.mouse_button_counts = b.mouse_button_counts)
    (h10 : a.app_total = b.app_total)
    (h11 : a.app_keyboard = b.app_keyboard)
    (h12 : a.app_mouse_single = b.app_mouse_single) : a = b := by
  cases a
  cases b
  simp_all

theorem exByKey_some_inv (t : Trigger) (k : InputOrigin × InputSource) (c : Nat)
    (h : exByKey t = some (k, c)) :
    k = (t.origin, t.source) ∧ c = t.count ∧ t.count ≠ 0 := by
  unfold exByKey at h
  by_cases h0 : t.count = 0
  · rw [if_pos h0] at h
    exact absurd h (by simp)
  · rw [if_neg h0] at h
    simp only [Option.some.injEq, Prod.mk.injEq] at h
    exact ⟨h.1.symm, h.2.symm, h0⟩

theorem exKeyboardKey_inv (t : Trigger) (p : String × Nat)
    (h : exKeyboardKey t = some p) :
    t.count ≠ 0 ∧ t.source = InputSource.Keyboard ∧ p.2 = t.count := by
  unfold exKeyboardKey at h
  by_cases h0 : t.count = 0
  · rw [if_pos h0] at h
    simp at h
  · rw [if_neg h0] at h
    cases hk : t.key_code <;> rw [hk] at h
    · cases hs : t.source <;> rw [hs] at h <;> simp at h
    · cases hs : t.source <;> rw [hs] at h
      · simp only [Option.some.injEq] at h
        exact ⟨h0, rfl, by rw [← h]⟩
      · simp at h

theorem exKeyboardUnshifted_inv (t : Trigger) (p : String × Nat)
    (h : exKeyboardUnshifted t = some p) :
    t.count ≠ 0 ∧ t.source = InputSource.Keyboard ∧ p.2 = t.count := by
  unfold exKeyboardUnshifted at h
  by_cases h0 : t.count = 0
  · rw [if_pos h0] at h
    simp at h
  · rw [if_neg h0] at h
    cases hk : t.key_code <;> rw [hk] at h
    · cases hs : t.source <;> rw [hs] at h <;> simp at h
    · cases hs : t.source <;> rw [hs] at h
      · cases hb : t.is_shifted <;> rw [hb] at h
        · simp at h
        · rename_i bb
          cases bb
          · simp only [Option.some.injEq] at h
            exact ⟨h0, rfl, by rw [← h]⟩
          · simp at h
      · simp at h

theorem exKeyboardShifted_inv (t : Trigger) (p : String × Nat)
    (h : exKeyboardShifted t = some p) :
    t.count ≠ 0 ∧ t.source = InputSource.Keyboard ∧ p.2 = t.count := by
  unfold exKeyboardShifted at h
  by_cases h0 : t.count = 0
  · rw [if_pos h0] at h
    simp at h
  · rw [if_neg h0] at h
    cases hk : t.key_code <;> rw [hk] at h
    · cases hs : t.source <;> rw [hs] at h <;> simp at h
    · cases hs : t.source <;> rw [hs] at h
      · cases hb : t.is_shifted <;> rw [hb] at h
        · simp at h
        · rename_i bb
          cases bb
          · simp at h
          · simp only [Option.some.injEq] at h
            exact ⟨h0, rfl, by rw [← h]⟩
      · simp at h

theorem exShortcut_inv (t : Trigger) (p : String × Nat)
    (h : exShortcut t = some p) :
    t.count ≠ 0 ∧ t.shortcut.isSome = true ∧ p.2 = t.count := by
  unfold exShortcut at h
  by_cases h0 : t.count = 0
  · rw [if_pos h0] at h
    simp at h
  · rw [if_neg h0] at h
    cases hk : t.shortcut <;> rw [hk] at h
    · simp at h
    · simp only [Option.some.injEq] at h
      exact ⟨h0, rfl, by rw [← h]⟩

theorem exMouseButton_inv (t : Trigger) (p : String × Nat)
    (h : exMouseButton t = some p) :
    t.count ≠ 0 ∧ t.source = InputSource.MouseSingle ∧ p.2 = t.count := by
  unfold exMouseButton at h
  by_cases h0 : t.count = 0
  · rw [if_pos h0] at h
    simp at h
  · rw [if_neg h0] at h
    cases hk : t.key_code <;> rw [hk] at h
    · cases hs : t.source <;> rw [hs] at h <;> simp at h
    · cases hs : t.source <;> rw [hs] at h
      · simp at h
      · simp only [Option.some.injEq] at h
        exact ⟨h0, rfl, by rw [← h]⟩

theorem exAtOrigin_inv (ex : Trigger → Option (String × Nat)) (o : InputOrigin) (t : Trigger)
    (p : String × Nat) (h : exAtOrigin ex o t = some p) :
    ex t = some p ∧ t.origin = o := by
  unfold exAtOrigin at h
  cases hx : ex t with
  | none =>
    rw [hx] at h
    simp at h
  | some kc =>
    rw [hx] at h
    have hm : (match some kc with
      | none => (none : Option (String × Nat))
      | some kc => if t.origin = o then some kc else none) =
        (if t.origin = o then some kc else none) := rfl
    rw [hm] at h
    by_cases ho : t.origin = o
    · rw [if_pos ho] at h
      injection h with h
      exact ⟨by rw [h], ho⟩
    · rw [if_neg ho] at h
      simp at h

theorem contribEx_pos_of_mem {κ : Type} [DecidableEq κ] (ex : Trigger → Option (κ × Nat))
    (ts : List Trigger) (t : Trigger) (k : κ) (c : Nat)
    (ht : t ∈ ts) (hx : ex t = some (k, c)) (hc : 0 < c) : 0 < contribEx ex ts k := by
  induction ts with
  | nil => cases ht
  | cons u us ih =>
    rcases List.mem_cons.mp ht with rfl | hmem
    · rw [contribEx_cons_some ex t us k k c hx, if_pos rfl]
      omega
    · have h1 := ih hmem
      cases hu : ex u with
      | none =>
        rw [contribEx_cons_none ex u us k hu]
        exact h1
      | some q =>
        rcases q with ⟨k0, c0⟩
        rw [contribEx_cons_some ex u us k k0 c0 hu]
        omega

theorem contribEx_origin_split (ex : Trigger → Option (String × Nat)) (ts : List Trigger)
    (s : String) :
    contribEx (exAtOrigin ex InputOrigin.Global) ts s
      + contribEx (exAtOrigin ex InputOrigin.App) ts s = contribEx ex ts s := by
  induction ts with
  | nil => rfl
  | cons t us ih =>
    cases hx : ex t with
    | none =>
      rw [contribEx_cons_none ex t us s hx,
        contribEx_cons_none _ t us s (by simp [exAtOrigin, hx]),
        contribEx_cons_none _ t us s (by simp [exAtOrigin, hx]), ih]
    | some q =>
      rcases q with ⟨k0, c0⟩
      cases ho : t.origin with
      | Global =>
        rw [contribEx_cons_some ex t us s k0 c0 hx,
          contribEx_cons_some _ t us s k0 c0 (by simp [exAtOrigin, hx, ho]),
          contribEx_cons_none _ t us s (by simp [exAtOrigin, hx, ho])]
        omega
      | App =>
        rw [contribEx_cons_some ex t us s k0 c0 hx,
          contribEx_cons_none _ t us s (by simp [exAtOrigin, hx, ho]),
          contribEx_cons_some _ t us s k0 c0 (by simp [exAtOrigin, hx, ho])]
        omega

theorem sumCounts_cons (t : Trigger) (ts : List Trigger) :
    sumCounts (t :: ts) = t.count + sumCounts ts := rfl

theorem byKey_all_sum (ts : List Trigger) :
    contribEx exByKey ts (InputOrigin.Global, InputSource.Keyboard)
      + contribEx exByKey ts (InputOrigin.Global, InputSource.MouseSingle)
      + contribEx exByKey ts (InputOrigin.App, InputSource.Keyboard)
      + contribEx exByKey ts (InputOrigin.App, InputSource.MouseSingle) = sumCounts ts := by
  induction ts with
  | nil => rfl
  | cons t us ih =>
    rw [sumCounts_cons]
    by_cases h0 : t.count = 0
    · have hx : exByKey t = none := by simp [exByKey, h0]
      rw [contribEx_cons_none _ t us _ hx, contribEx_cons_none _ t us _ hx,
        contribEx_cons_none _ t us _ hx, contribEx_cons_none _ t us _ hx, h0]
      omega
    · have hx : exByKey t = some ((t.origin, t.source), t.count) := by simp [exByKey, h0]
      rw [contribEx_cons_some _ t us _ _ _ hx, contribEx_cons_some _ t us _ _ _ hx,
        contribEx_cons_some _ t us _ _ _ hx, contribEx_cons_some _ t us _ _ _ hx]
      cases ho : t.origin <;> cases hs : t.source <;> simp <;> omega

theorem sumCountsKeyboard_cons (t : Trigger) (ts : List Trigger) :
    sumCountsKeyboard (t :: ts) = (match t.source with
      | InputSource.Keyboard => t.count
      | InputSource.MouseSingle => 0) + sumCountsKeyboard ts := rfl

theorem sumCountsMouse_cons (t : Trigger) (ts : List Trigger) :
    sumCountsMouse (t :: ts) = (match t.source with
      | InputSource.Keyboard => 0
      | InputSource.MouseSingle => t.count) + sumCountsMouse ts := rfl

theorem byKey_kb_sum (ts : List Trigger) :
    contribEx exByKey ts (InputOrigin.Global, InputSource.Keyboard)
      + contribEx exByKey ts (InputOrigin.App, InputSource.Keyboard)
      = sumCountsKeyboard ts := by
  induction ts with
  | nil => rfl
  | cons t us ih =>
    rw [sumCountsKeyboard_cons]
    by_cases h0 : t.count = 0
    · have hx : exByKey t = none := by simp [exByKey, h0]
      rw [contribEx_cons_none _ t us _ hx, contribEx_cons_none _ t us _ hx]
      cases hs : t.source <;> simp [h0] <;> omega
    · have hx : exByKey t = some ((t.origin, t.source), t.count) := by simp [exByKey, h0]
      rw [contribEx_cons_some _ t us _ _ _ hx, contribEx_cons_some _ t us _ _ _ hx]
      cases ho : t.origin <;> cases hs : t.source <;> simp <;> omega

theorem byKey_ms_sum (ts : List Trigger) :
    contribEx exByKey ts (InputOrigin.Global, InputSource.MouseSingle)
      + contribEx exByKey ts (InputOrigin.App, InputSource.MouseSingle)
      = sumCountsMouse ts := by
  induction ts with
  | nil => rfl
  | cons t us ih =>
    rw [sumCountsMouse_cons]
    by_cases h0 : t.count = 0
    · have hx : exByKey t = none := by simp [exByKey, h0]
      rw [contribEx_cons_none _ t us _ hx, contribEx_cons_none _ t us _ hx]
      cases hs : t.source <;> simp [h0] <;> omega
    · have hx : exByKey t = some ((t.origin, t.source), t.count) := by simp [exByKey, h0]
      rw [contribEx_cons_some _ t us _ _ _ hx, contribEx_cons_some _ t us _ _ _ hx]
      cases ho : t.origin <;> cases hs : t.source <;> simp <;> omega

theorem appContribTotal_cons (t : Trigger) (ts : List Trigger) (a : String) :
    appContribTotal (t :: ts) a = (match t.app with
      | none => 0
      | some ap => if ap.id = a then t.count else 0) + appContribTotal ts a := rfl

theorem appContribKeyboard_cons (t : Trigger) (ts : List Trigger) (a : String) :
    appContribKeyboard (t :: ts) a = (match t.app, t.source with
      | some ap, InputSource.Keyboard => if ap.id = a then t.count else 0
      | _, _ => 0) + appContribKeyboard ts a := rfl

theorem appContribMouse_cons (t : Trigger) (ts : List Trigger) (a : String) :
    appContribMouse (t :: ts) a = (match t.app, t.source with
      | some ap, InputSource.MouseSingle => if ap.id = a then t.count else 0
      | _, _ => 0) + appContribMouse ts a := rfl

theorem contribApp_all_sum (ts : List Trigger) (a : String) :
    contribApp ts (InputOrigin.Global, InputSource.Keyboard, a)
      + contribApp ts (InputOrigin.Global, InputSource.MouseSingle, a)
      + contribApp ts (InputOrigin.App, InputSource.Keyboard, a)
      + contribApp ts (InputOrigin.App, InputSource.MouseSingle, a)
      = appContribTotal ts a := by
  induction ts with
  | nil => rfl
  | cons t us ih =>
    rw [appContribTotal_cons, contribApp_cons, contribApp_cons, contribApp_cons,
      contribApp_cons]
    cases hap : t.app with
    | none => simp; omega
    | some ap =>
      cases ho : t.origin <;> cases hs : t.source <;> by_cases hid : ap.id = a <;>
        simp [hid] <;> omega

theorem contribApp_kb_sum (ts : List Trigger) (a : String) :
    contribApp ts (InputOrigin.Global, InputSource.Keyboard, a)
      + contribApp ts (InputOrigin.App, InputSource.Keyboard, a)
      = appContribKeyboard ts a := by
  induction ts with
  | nil => rfl
  | cons t us ih =>
    rw [appContribKeyboard_cons, contribApp_cons, contribApp_cons]
    cases hap : t.app with
    | none => simp; omega
    | some ap =>
      cases ho : t.origin <;> cases hs : t.source <;> by_cases hid : ap.id = a <;>
        simp [hid] <;> omega

theorem contribApp_ms_sum (ts : List Trigger) (a : String) :
    contribApp ts (InputOrigin.Global, InputSource.MouseSingle, a)
      + contribApp ts (InputOrigin.App, InputSource.MouseSingle, a)
      = appContribMouse ts a := by
  induction ts with
  | nil => rfl
  | cons t us ih =>
    rw [appContribMouse_cons, contribApp_cons, contribApp_cons]
    cases hap : t.app with
    | none => simp; omega
    | some ap =>
      cases ho : t.origin <;> cases hs : t.source <;> by_cases hid : ap.id = a <;>
        simp [hid] <;> omega

/-! ## C1 stage 3: the effect of one `add_merit_silent` call -/

theorem applyCounts_pointwise (counts : List (String × Nat)) :
    ∀ (m : String → Nat) (s : String), m s ≤ U64MAX →
    applyCounts counts m s = satAdd64 (m s) (sumValsAt counts s) := by
  induction counts with
  | nil =>
    intro m s hm
    exact (satAdd64_zero _ hm).symm
  | cons p rest ih =>
    intro m s hm
    rcases p with ⟨k, c⟩
    have hstep : applyCounts ((k, c) :: rest) m =
        applyCounts rest (if c = 0 then m else bumpCount m k c) := rfl
    rw [hstep, sumValsAt_cons]
    by_cases hc : c = 0
    · rw [if_pos hc, ih m s hm, hc]
      simp
    · rw [if_neg hc]
      by_cases hk : k = s
      · subst hk
        have hb : bumpCount m k c k = satAdd64 (m k) c := by
          show (if k = k then satAdd64 (m k) c else m k) = satAdd64 (m k) c
          rw [if_pos rfl]
        rw [ih (bumpCount m k c) k (by rw [hb]; exact satAdd64_le _ _), hb,
          satAdd64_satAdd64, if_pos rfl]
      · have hb : bumpCount m k c s = m s := by
          show (if s = k then satAdd64 (m k) c else m s) = m s
          rw [if_neg (fun h => hk h.symm)]
        rw [ih (bumpCount m k c) s (by rw [hb]; exact hm), hb, if_neg hk]
        simp

theorem match_listToOpt_key (stats : MeritStats) (c : Clock) (l : List (String × Nat)) :
    (match listToOpt l with
      | some counts => stats.addKeyboardKeyCounts c counts
      | none => stats) = stats.addKeyboardKeyCounts c l := by
  cases l with
  | nil => rfl
  | cons x xs => rfl

theorem match_listToOpt_unshifted (stats : MeritStats) (c : Clock) (l : List (String × Nat)) :
    (match listToOpt l with
      | some counts => stats.addKeyboardKeyUnshiftedCounts c counts
      | none => stats) = stats.addKeyboardKeyUnshiftedCounts c l := by
  cases l with
  | nil => rfl
  | cons x xs => rfl

theorem match_listToOpt_shifted (stats : MeritStats) (c : Clock) (l : List (String × Nat)) :
    (match listToOpt l with
      | some counts => stats.addKeyboardKeyShiftedCounts c counts
      | none => stats) = stats.addKeyboardKeyShiftedCounts c l := by
  cases l with
  | nil => rfl
  | cons x xs => rfl

theorem match_listToOpt_shortcut (stats : MeritStats) (c : Clock) (l : List (String × Nat)) :
    (match listToOpt l with
      | some counts => stats.addShortcutCounts c counts
      | none => stats) = stats.addShortcutCounts c l := by
  cases l with
  | nil => rfl
  | cons x xs => rfl

theorem match_listToOpt_mouse (stats : MeritStats) (c : Clock) (l : List (String × Nat)) :
    (match listToOpt l with
      | some counts => stats.addMouseButtonCounts c counts
      | none => stats) = stats.addMouseButtonCounts c l := by
  cases l with
  | nil => rfl
  | cons x xs => rfl

theorem addKeyboardKeyCounts_effect (stats : MeritStats) (c : Clock) (l : List (String × Nat))
    (hd : stats.today.date = c.date) :
    stats.addKeyboardKeyCounts c l =
      { stats with today :=
        { stats.today with key_counts := applyCounts l stats.today.key_counts } } := by
  unfold MeritStats.addKeyboardKeyCounts
  by_cases he : l.isEmpty
  · rw [if_pos he]
    have hnil : l = [] := List.isEmpty_iff.mp he
    subst hnil
    rfl
  · rw [if_neg he]
    unfold MeritStats.normalizeToday
    rw [if_neg (fun h => h hd)]
    unfold DailyStats.addKeyCounts
    simp only [if_neg he]

theorem addKeyboardKeyUnshiftedCounts_effect (stats : MeritStats) (c : Clock)
    (l : List (String × Nat)) (hd : stats.today.date = c.date) :
    stats.addKeyboardKeyUnshiftedCounts c l =
      { stats with today :=
        { stats.today with
          key_counts_unshifted := applyCounts l stats.today.key_counts_unshifted } } := by
  unfold MeritStats.addKeyboardKeyUnshiftedCounts
  by_cases he : l.isEmpty
  · rw [if_pos he]
    have hnil : l = [] := List.isEmpty_iff.mp he
    subst hnil
    rfl
  · rw [if_neg he]
    unfold MeritStats.normalizeToday
    rw [if_neg (fun h => h hd)]
    unfold DailyStats.addKeyUnshiftedCounts
    simp only [if_neg he]

theorem addKeyboardKeyShiftedCounts_effect (stats : MeritStats) (c : Clock)
    (l : List (String × Nat)) (hd : stats.today.date = c.date) :
    stats.addKeyboardKeyShiftedCounts c l =
      { stats with today :=
        { stats.today with
          key_counts_shifted := applyCounts l stats.today.key_counts_shifted } } := by
  unfold MeritStats.addKeyboardKeyShiftedCounts
  by_cases he : l.isEmpty
  · rw [if_pos he]
    have hnil : l = [] := List.isEmpty_iff.mp he
    subst hnil
    rfl
  · rw [if_neg he]
    unfold MeritStats.normalizeToday
    rw [if_neg (fun h => h hd)]
    unfold DailyStats.addKeyShiftedCounts
    simp only [if_neg he]

theorem addShortcutCounts_effect (stats : MeritStats) (c : Clock) (l : List (String × Nat))
    (hd : stats.today.date = c.date) :
    stats.addShortcutCounts c l =
      { stats with today :=
        { stats.today with
          shortcut_counts := applyCounts l stats.today.shortcut_counts } } := by
  unfold MeritStats.addShortcutCounts
  by_cases he : l.isEmpty
  · rw [if_pos he]
    have hnil : l = [] := List.isEmpty_iff.mp he
    subst hnil
    rfl
  · rw [if_neg he]
    unfold MeritStats.normalizeToday
    rw [if_neg (fun h => h hd)]
    unfold DailyStats.addShortcutCounts
    simp only [if_neg he]

theorem addMouseButtonCounts_effect (stats : MeritStats) (c : Clock) (l : List (String × Nat))
    (hd : stats.today.date = c.date) :
    stats.addMouseButtonCounts c l =
      { stats with today :=
        { stats.today with
          mouse_button_counts := applyCounts l stats.today.mouse_button_counts } } := by
  unfold MeritStats.addMouseButtonCounts
  by_cases he : l.isEmpty
  · rw [if_pos he]
    have hnil : l = [] := List.isEmpty_iff.mp he
    subst hnil
    rfl
  · rw [if_neg he]
    unfold MeritStats.normalizeToday
    rw [if_neg (fun h => h hd)]
    unfold DailyStats.addMouseButtonCounts
    simp only [if_neg he]

theorem addMerit_effect (stats : MeritStats) (c : Clock) (src : InputSource) (cnt : Nat)
    (hd : stats.today.date = c.date) :
    stats.addMerit c src cnt =
      { stats with
        total_merit := satAdd64 stats.total_merit cnt,
        today := (stats.today.addMerit src cnt c.nowMs).addHourlyMerit c.hour src cnt } := by
  unfold MeritStats.addMerit
  rw [if_neg (fun h => h hd)]

theorem recordEventAtMs_fields (d : DailyStats) (ms : Nat) :
    (d.recordEventAtMs ms).date = d.date ∧ (d.recordEventAtMs ms).total = d.total ∧
    (d.recordEventAtMs ms).keyboard = d.keyboard ∧
    (d.recordEventAtMs ms).mouse_single = d.mouse_single ∧
    (d.recordEventAtMs ms).key_counts = d.key_counts ∧
    (d.recordEventAtMs ms).key_counts_unshifted = d.key_counts_unshifted ∧
    (d.recordEventAtMs ms).key_counts_shifted = d.key_counts_shifted ∧
    (d.recordEventAtMs ms).shortcut_counts = d.shortcut_counts ∧
    (d.recordEventAtMs ms).mouse_button_counts = d.mouse_button_counts ∧
    (d.recordEventAtMs ms).app_input_counts = d.app_input_counts := by
  unfold DailyStats.recordEventAtMs
  split <;> simp

theorem addHourlyMerit_fields (d : DailyStats) (h : Nat) (src : InputSource) (cnt : Nat) :
    (d.addHourlyMerit h src cnt).date = d.date ∧ (d.addHourlyMerit h src cnt).total = d.total ∧
    (d.addHourlyMerit h src cnt).keyboard = d.keyboard ∧
    (d.addHourlyMerit h src cnt).mouse_single = d.mouse_single ∧
    (d.addHourlyMerit h src cnt).key_counts = d.key_counts ∧
    (d.addHourlyMerit h src cnt).key_counts_unshifted = d.key_counts_unshifted ∧
    (d.addHourlyMerit h src cnt).key_counts_shifted = d.key_counts_shifted ∧
    (d.addHourlyMerit h src cnt).shortcut_counts = d.shortcut_counts ∧
    (d.addHourlyMerit h src cnt).mouse_button_counts = d.mouse_button_counts ∧
    (d.addHourlyMerit h src cnt).app_input_counts = d.app_input_counts := by
  unfold DailyStats.addHourlyMerit DailyStats.normalizeHourly
  split_ifs <;> simp

theorem dailyAddMerit_fields (d : DailyStats) (src : InputSource) (cnt ms : Nat)
    (h0 : cnt ≠ 0) :
    (d.addMerit src cnt ms).date = d.date ∧
    (d.addMerit src cnt ms).total = satAdd64 d.total cnt ∧
    (d.addMerit src cnt ms).keyboard = (match src with
      | InputSource.Keyboard => satAdd64 d.keyboard cnt
      | InputSource.MouseSingle => d.keyboard) ∧
    (d.addMerit src cnt ms).mouse_single = (match src with
      | InputSource.Keyboard => d.mouse_single
      | InputSource.MouseSingle => satAdd64 d.mouse_single cnt) ∧
    (d.addMerit src cnt ms).key_counts = d.key_counts ∧
    (d.addMerit src cnt ms).key_counts_unshifted = d.key_counts_unshifted ∧
    (d.addMerit src cnt ms).key_counts_shifted = d.key_counts_shifted ∧
    (d.addMerit src cnt ms).shortcut_counts = d.shortcut_counts ∧
    (d.addMerit src cnt ms).mouse_button_counts = d.mouse_button_counts ∧
    (d.addMerit src cnt ms).app_input_counts = d.app_input_counts := by
  obtain ⟨f1, f2, f3, f4, f5, f6, f7, f8, f9, f10⟩ := recordEventAtMs_fields d ms
  unfold DailyStats.addMerit
  rw [if_neg h0]
  cases src <;> simp [f1, f2, f3, f4, f5, f6, f7, f8, f9, f10]

theorem addMeritSilent_keyboard_eq (st : MeritStorage) (c : Clock) (o : InputOrigin)
    (cnt : Nat) (l1 l2 l3 l4 : List (String × Nat))
    (hsc : st.shouldCount o InputSource.Keyboard = true) (hc : cnt ≠ 0) :
    (st.addMeritSilent c o InputSource.Keyboard cnt
      (some { key_counts := listToOpt l1, key_counts_unshifted := listToOpt l2,
              key_counts_shifted := listToOpt l3, shortcut_counts := listToOpt l4 })
      none).2 =
    { st with stats :=
      ((((st.stats.addMerit c InputSource.Keyboard cnt).addKeyboardKeyCounts c
        l1).addKeyboardKeyUnshiftedCounts c l2).addKeyboardKeyShiftedCounts c
        l3).addShortcutCounts c l4 } := by
  unfold MeritStorage.addMeritSilent
  have hcond : (!st.shouldCount o InputSource.Keyboard || cnt == 0) = false := by
    rw [hsc]
    simp [hc]
  rw [hcond]
  simp only [Bool.false_eq_true, if_false]
  rw [match_listToOpt_shortcut, match_listToOpt_shifted, match_listToOpt_unshifted,
    match_listToOpt_key]

theorem addMeritSilent_mouse_eq (st : MeritStorage) (c : Clock) (o : InputOrigin)
    (cnt : Nat) (lm : List (String × Nat))
    (hsc : st.shouldCount o InputSource.MouseSingle = true) (hc : cnt ≠ 0) :
    (st.addMeritSilent c o InputSource.MouseSingle cnt none
      (some { mouse_button_counts := listToOpt lm })).2 =
    { st with stats :=
      (st.stats.addMerit c InputSource.MouseSingle cnt).addMouseButtonCounts c lm } := by
  unfold MeritStorage.addMeritSilent
  have hcond : (!st.shouldCount o InputSource.MouseSingle || cnt == 0) = false := by
    rw [hsc]
    simp [hc]
  rw [hcond]
  simp only [Bool.false_eq_true, if_false]
  rw [match_listToOpt_mouse]

theorem addMeritSilent_keyboard_effect (st st' : MeritStorage) (c : Clock) (o : InputOrigin)
    (cnt : Nat) (l1 l2 l3 l4 : List (String × Nat))
    (hst : st' = (st.addMeritSilent c o InputSource.Keyboard cnt
      (some { key_counts := listToOpt l1, key_counts_unshifted := listToOpt l2,
              key_counts_shifted := listToOpt l3, shortcut_counts := listToOpt l4 })
      none).2)
    (hsc : st.shouldCount o InputSource.Keyboard = true) (hc : cnt ≠ 0)
    (hd : st.stats.today.date = c.date) :
    st'.settings = st.settings ∧
    st'.stats.today.date = c.date ∧
    st'.stats.total_merit = satAdd64 st.stats.total_merit cnt ∧
    st'.stats.today.total = satAdd64 st.stats.today.total cnt ∧
    st'.stats.today.keyboard = satAdd64 st.stats.today.keyboard cnt ∧
    st'.stats.today.mouse_single = st.stats.today.mouse_single ∧
    st'.stats.today.key_counts = applyCounts l1 st.stats.today.key_counts ∧
    st'.stats.today.key_counts_unshifted = applyCounts l2 st.stats.today.key_counts_unshifted ∧
    st'.stats.today.key_counts_shifted = applyCounts l3 st.stats.today.key_counts_shifted ∧
    st'.stats.today.shortcut_counts = applyCounts l4 st.stats.today.shortcut_counts ∧
    st'.stats.today.mouse_button_counts = st.stats.today.mouse_button_counts ∧
    st'.stats.today.app_input_counts = st.stats.today.app_input_counts := by
  obtain ⟨g1, g2, g3, g4, g5, g6, g7, g8, g9, g10⟩ :=
    dailyAddMerit_fields st.stats.today InputSource.Keyboard cnt c.nowMs hc
  obtain ⟨a1, a2, a3, a4, a5, a6, a7, a8, a9, a10⟩ :=
    addHourlyMerit_fields (st.stats.today.addMerit InputSource.Keyboard cnt c.nowMs) c.hour
      InputSource.Keyboard cnt
  have e1 := addMerit_effect st.stats c InputSource.Keyboard cnt hd
  have hd1 : (st.stats.addMerit c InputSource.Keyboard cnt).today.date = c.date := by
    rw [e1]
    show ((st.stats.today.addMerit InputSource.Keyboard cnt c.nowMs).addHourlyMerit c.hour
      InputSource.Keyboard cnt).date = c.date
    rw [a1, g1, hd]
  have e2 := addKeyboardKeyCounts_effect (st.stats.addMerit c InputSource.Keyboard cnt) c l1 hd1
  have hd2 : ((st.stats.addMerit c InputSource.Keyboard cnt).addKeyboardKeyCounts c
      l1).today.date = c.date := by
    rw [e2]
    exact hd1
  have e3 := addKeyboardKeyUnshiftedCounts_effect
    ((st.stats.addMerit c InputSource.Keyboard cnt).addKeyboardKeyCounts c l1) c l2 hd2
  have hd3 : (((st.stats.addMerit c InputSource.Keyboard cnt).addKeyboardKeyCounts c
      l1).addKeyboardKeyUnshiftedCounts c l2).today.date = c.date := by
    rw [e3]
    exact hd2
  have e4 := addKeyboardKeyShiftedCounts_effect
    (((st.stats.addMerit c InputSource.Keyboard cnt).addKeyboardKeyCounts c
      l1).addKeyboardKeyUnshiftedCounts c l2) c l3 hd3
  have hd4 : ((((st.stats.addMerit c InputSource.Keyboard cnt).addKeyboardKeyCounts c
      l1).addKeyboardKeyUnshiftedCounts c l2).addKeyboardKeyShiftedCounts c
      l3).today.date = c.date := by
    rw [e4]
    exact hd3
  have e5 := addShortcutCounts_effect
    ((((st.stats.addMerit c InputSource.Keyboard cnt).addKeyboardKeyCounts c
      l1).addKeyboardKeyUnshiftedCounts c l2).addKeyboardKeyShiftedCounts c l3) c l4 hd4
  subst hst
  rw [addMeritSilent_keyboard_eq st c o cnt l1 l2 l3 l4 hsc hc]
  rw [e5, e4, e3, e2, e1]
  simp only [a1, a2, a3, a4, a5, a6, a7, a8, a9, a10, g1, g2, g3, g4, g5, g6, g7, g8, g9,
    g10, hd]
  simp

theorem addMeritSilent_mouse_effect (st st' : MeritStorage) (c : Clock) (o : InputOrigin)
    (cnt : Nat) (lm : List (String × Nat))
    (hst : st' = (st.addMeritSilent c o InputSource.MouseSingle cnt none
      (some { mouse_button_counts := listToOpt lm })).2)
    (hsc : st.shouldCount o InputSource.MouseSingle = true) (hc : cnt ≠ 0)
    (hd : st.stats.today.date = c.date) :
    st'.settings = st.settings ∧
    st'.stats.today.date = c.date ∧
    st'.stats.total_merit = satAdd64 st.stats.total_merit cnt ∧
    st'.stats.today.total = satAdd64 st.stats.today.total cnt ∧
    st'.stats.today.keyboard = st.stats.today.keyboard ∧
    st'.stats.today.mouse_single = satAdd64 st.stats.today.mouse_single cnt ∧
    st'.stats.today.key_counts = st.stats.today.key_counts ∧
    st'.stats.today.key_counts_unshifted = st.stats.today.key_counts_unshifted ∧
    st'.stats.today.key_counts_shifted = st.stats.today.key_counts_shifted ∧
    st'.stats.today.shortcut_counts = st.stats.today.shortcut_counts ∧
    st'.stats.today.mouse_button_counts = applyCounts lm st.stats.today.mouse_button_counts ∧
    st'.stats.today.app_input_counts = st.stats.today.app_input_counts := by
  obtain ⟨g1, g2, g3, g4, g5, g6, g7, g8, g9, g10⟩ :=
    dailyAddMerit_fields st.stats.today InputSource.MouseSingle cnt c.nowMs hc
  obtain ⟨a1, a2, a3, a4, a5, a6, a7, a8, a9, a10⟩ :=
    addHourlyMerit_fields (st.stats.today.addMerit InputSource.MouseSingle cnt c.nowMs) c.hour
      InputSource.MouseSingle cnt
  have e1 := addMerit_effect st.stats c InputSource.MouseSingle cnt hd
  have hd1 : (st.stats.addMerit c InputSource.MouseSingle cnt).today.date = c.date := by
    rw [e1]
    show ((st.stats.today.addMerit InputSource.MouseSingle cnt c.nowMs).addHourlyMerit c.hour
      InputSource.MouseSingle cnt).date = c.date
    rw [a1, g1, hd]
  have e2 := addMouseButtonCounts_effect (st.stats.addMerit c InputSource.MouseSingle cnt) c
    lm hd1
  subst hst
  rw [addMeritSilent_mouse_eq st c o cnt lm hsc hc]
  rw [e2, e1]
  simp only [a1, a2, a3, a4, a5, a6, a7, a8, a9, a10, g1, g2, g3, g4, g5, g6, g7, g8, g9,
    g10, hd]
  simp

/-! ## C1 stage 4: the effect of one `add_app_merit_silent` call -/

theorem assocGet_cons {κ β : Type} [DecidableEq κ] (k0 : κ) (v0 : β) (rest : List (κ × β))
    (k : κ) :
    assocGet ((k0, v0) :: rest) k = if k0 = k then some v0 else assocGet rest k := rfl

theorem updateAssocApp_cons (k0 : String) (v0 : AppInputStats)
    (rest : List (String × AppInputStats)) (k : String) (f : AppInputStats → AppInputStats) :
    updateAssocApp ((k0, v0) :: rest) k f =
      if k0 = k then (k0, f v0) :: rest else (k0, v0) :: updateAssocApp rest k f := rfl

theorem assocGet_updateAssocApp (l : List (String × AppInputStats)) (k : String)
    (f : AppInputStats → AppInputStats) (a : String) :
    assocGet (updateAssocApp l k f) a =
      if a = k then some (f ((assocGet l k).getD default)) else assocGet l a := by
  induction l with
  | nil =>
    by_cases ha : a = k
    · subst ha
      rw [if_pos rfl]
      show (if a = a then some (f default) else none) = _
      rw [if_pos rfl]
      rfl
    · rw [if_neg ha]
      show (if k = a then some (f default) else none) = none
      rw [if_neg (fun h => ha h.symm)]
  | cons p rest ih =>
    rcases p with ⟨k0, v0⟩
    rw [updateAssocApp_cons]
    by_cases hk0 : k0 = k
    · subst hk0
      rw [if_pos rfl, assocGet_cons, assocGet_cons k0 v0 rest k0, if_pos rfl,
        assocGet_cons k0 v0 rest a]
      by_cases ha : a = k0
      · rw [if_pos (by rw [ha]), if_pos ha]
        rfl
      · rw [if_neg (fun h => ha h.symm), if_neg ha, if_neg (fun h => ha h.symm)]
    · rw [if_neg hk0, assocGet_cons, ih, assocGet_cons k0 v0 rest k, if_neg hk0,
        assocGet_cons k0 v0 rest a]
      by_cases ha : a = k
      · have hka : ¬ k0 = a := fun h => hk0 (h.trans ha)
        rw [if_neg hka, if_pos ha, if_pos ha]
      · rw [if_neg ha, if_neg ha]
  -- remaining in neg-neg branch: if k0 = a then some v0 else assocGet rest a on both sides

theorem keys_updateAssocApp (l : List (String × AppInputStats)) (k : String)
    (f : AppInputStats → AppInputStats) :
    (updateAssocApp l k f).map Prod.fst =
      if k ∈ l.map Prod.fst then l.map Prod.fst else l.map Prod.fst ++ [k] := by
  induction l with
  | nil => simp [updateAssocApp]
  | cons p rest ih =>
    rcases p with ⟨k0, v0⟩
    rw [updateAssocApp_cons]
    by_cases hk0 : k0 = k
    · subst hk0
      rw [if_pos rfl, if_pos (by simp)]
      simp
    · rw [if_neg hk0]
      simp only [List.map_cons]
      rw [ih]
      by_cases hm : k ∈ rest.map Prod.fst
      · rw [if_pos hm, if_pos (List.mem_cons_of_mem _ hm)]
      · rw [if_neg hm, if_neg (by
          intro h
          rcases List.mem_cons.mp h with h1 | h2
          · exact hk0 h1.symm
          · exact hm h2)]
        rfl

theorem nodup_keys_updateAssocApp (l : List (String × AppInputStats)) (k : String)
    (f : AppInputStats → AppInputStats) (h : (l.map Prod.fst).Nodup) :
    ((updateAssocApp l k f).map Prod.fst).Nodup := by
  rw [keys_updateAssocApp]
  by_cases hm : k ∈ l.map Prod.fst
  · rw [if_pos hm]
    exact h
  · rw [if_neg hm]
    rw [List.nodup_append]
    exact ⟨h, List.nodup_singleton k, by
      intro a ha hak
      rw [List.mem_singleton] at hak
      subst hak
      exact hm ha⟩

theorem mem_keys_updateAssocApp (l : List (String × AppInputStats)) (k : String)
    (f : AppInputStats → AppInputStats) (a : String)
    (h : a ∈ (updateAssocApp l k f).map Prod.fst) : a ∈ l.map Prod.fst ∨ a = k := by
  rw [keys_updateAssocApp] at h
  by_cases hm : k ∈ l.map Prod.fst
  · rw [if_pos hm] at h
    exact Or.inl h
  · rw [if_neg hm] at h
    rcases List.mem_append.mp h with h1 | h2
    · exact Or.inl h1
    · exact Or.inr (List.mem_singleton.mp h2)

theorem updateAssocApp_forall (P : AppInputStats → Prop) (l : List (String × AppInputStats))
    (k : String) (f : AppInputStats → AppInputStats)
    (hl : ∀ p ∈ l, P p.2) (hd : P (f default)) (hf : ∀ v, P v → P (f v)) :
    ∀ p ∈ updateAssocApp l k f, P p.2 := by
  induction l with
  | nil =>
    intro p hp
    have hps : p = (k, f default) := List.mem_singleton.mp hp
    rw [hps]
    exact hd
  | cons q rest ih =>
    rcases q with ⟨k0, v0⟩
    intro p hp
    rw [updateAssocApp_cons] at hp
    by_cases hk0 : k0 = k
    · rw [if_pos hk0] at hp
      rcases List.mem_cons.mp hp with rfl | hm
      · exact hf v0 (hl (k0, v0) (List.mem_cons_self _ _))
      · exact hl p (List.mem_cons_of_mem _ hm)
    · rw [if_neg hk0] at hp
      rcases List.mem_cons.mp hp with rfl | hm
      · exact hl (k0, v0) (List.mem_cons_self _ _)
      · exact ih (fun q hq => hl q (List.mem_cons_of_mem _ hq)) p hm

theorem appAdd_fields (s : AppInputStats) (name : Option String) (src : InputSource)
    (cnt : Nat) (hc : cnt ≠ 0) :
    (s.add name src cnt).total = satAdd64 s.total cnt ∧
    (s.add name src cnt).keyboard = (match src with
      | InputSource.Keyboard => satAdd64 s.keyboard cnt
      | InputSource.MouseSingle => s.keyboard) ∧
    (s.add name src cnt).mouse_single = (match src with
      | InputSource.Keyboard => s.mouse_single
      | InputSource.MouseSingle => satAdd64 s.mouse_single cnt) := by
  unfold AppInputStats.add
  rw [if_neg hc]
  cases src <;> split_ifs <;> simp

theorem appStatsOf_bounds (st : MeritStorage) (h : StorageWF st) (a : String) :
    (appStatsOf st a).total ≤ U64MAX ∧ (appStatsOf st a).keyboard ≤ U64MAX ∧
    (appStatsOf st a).mouse_single ≤ U64MAX := by
  obtain ⟨_, _, _, _, _, _, _, _, _, _, happ⟩ := h
  unfold appStatsOf
  cases hg : assocGet st.stats.today.app_input_counts a with
  | none => exact ⟨Nat.zero_le _, Nat.zero_le _, Nat.zero_le _⟩
  | some v =>
    have hmem := assocGet_mem _ _ _ hg
    simpa using happ (a, v) hmem

theorem addAppMeritSilent_eq (st : MeritStorage) (c : Clock) (o : InputOrigin)
    (src : InputSource) (cnt : Nat) (id : String) (name : Option String)
    (hsc : st.shouldCount o src = true) (hc : cnt ≠ 0)
    (hd : st.stats.today.date = c.date)
    (hlen : ¬ MAX_APP_ENTRIES_PER_DAY <
      (updateAssocApp st.stats.today.app_input_counts id
        (fun s => s.add name src cnt)).length) :
    (st.addAppMeritSilent c o src cnt (some { id := id, name := name })).2 =
    { st with stats := { st.stats with today := { st.stats.today with
        app_input_counts := updateAssocApp st.stats.today.app_input_counts id
          (fun s => s.add name src cnt) } } } := by
  unfold MeritStorage.addAppMeritSilent
  have hcond : (!st.shouldCount o src || cnt == 0) = false := by
    rw [hsc]
    simp [hc]
  rw [hcond]
  simp only [Bool.false_eq_true, if_false]
  unfold MeritStats.addAppMerit
  rw [if_neg hc]
  unfold MeritStats.normalizeToday
  rw [if_neg (fun h => h hd)]
  unfold DailyStats.addAppMerit
  simp only [if_neg hc, if_neg hlen]

/-! ## C1 stage 5: the two folds of `process_triggers` -/

theorem processTriggers_eq (c : Clock) (b : List Trigger) (st : MeritStorage)
    (h : (aggByKey b).isEmpty = false) :
    processTriggers c b st =
      (aggByApp b).foldl (fun st e =>
        (st.addAppMeritSilent c e.1.1 e.1.2.1 e.2.1
          (some { id := e.1.2.2, name := e.2.2 })).2)
        ((aggByKey b).foldl (fun st e =>
          (st.addMeritSilent c e.1.1 e.1.2 e.2
            (match e.1.2 with
              | InputSource.Keyboard => some
                  { key_counts := listToOpt (aggPerOrigin exKeyboardKey b e.1.1)
                    key_counts_unshifted := listToOpt (aggPerOrigin exKeyboardUnshifted b e.1.1)
                    key_counts_shifted := listToOpt (aggPerOrigin exKeyboardShifted b e.1.1)
                    shortcut_counts := listToOpt (aggPerOrigin exShortcut b e.1.1) }
              | InputSource.MouseSingle => none)
            (match e.1.2 with
              | InputSource.Keyboard => none
              | InputSource.MouseSingle => some
                  { mouse_button_counts := listToOpt (aggPerOrigin exMouseButton b e.1.1) })).2)
          st) := by
  unfold processTriggers
  simp only [if_neg (show ¬((aggByKey b).isEmpty = true) by rw [h]; exact Bool.false_ne_true)]

theorem byKeyFold_effect (c : Clock) (k1 k2 k3 k4 mb : InputOrigin → List (String × Nat)) :
    ∀ (l : List ((InputOrigin × InputSource) × Nat)) (st : MeritStorage),
    StorageWF st →
    st.stats.today.date = c.date →
    (∀ e ∈ l, e.2 ≠ 0 ∧ st.shouldCount e.1.1 e.1.2 = true) →
    ∀ st', st' = l.foldl (fun st e =>
      (st.addMeritSilent c e.1.1 e.1.2 e.2
        (match e.1.2 with
          | InputSource.Keyboard => some
              { key_counts := listToOpt (k1 e.1.1)
                key_counts_unshifted := listToOpt (k2 e.1.1)
                key_counts_shifted := listToOpt (k3 e.1.1)
                shortcut_counts := listToOpt (k4 e.1.1) }
          | InputSource.MouseSingle => none)
        (match e.1.2 with
          | InputSource.Keyboard => none
          | InputSource.MouseSingle => some
              { mouse_button_counts := listToOpt (mb e.1.1) })).2) st →
    st'.settings = st.settings ∧
    StorageWF st' ∧
    st'.stats.today.date = c.date ∧
    st'.stats.total_merit = satAdd64 st.stats.total_merit ((l.map (fun e => e.2)).sum) ∧
    st'.stats.today.total = satAdd64 st.stats.today.total ((l.map (fun e => e.2)).sum) ∧
    st'.stats.today.keyboard = satAdd64 st.stats.today.keyboard
      ((l.map (fun e => if e.1.2 = InputSource.Keyboard then e.2 else 0)).sum) ∧
    st'.stats.today.mouse_single = satAdd64 st.stats.today.mouse_single
      ((l.map (fun e => if e.1.2 = InputSource.MouseSingle then e.2 else 0)).sum) ∧
    (∀ s, st'.stats.today.key_counts s = satAdd64 (st.stats.today.key_counts s)
      ((l.map (fun e => if e.1.2 = InputSource.Keyboard then sumValsAt (k1 e.1.1) s
        else 0)).sum)) ∧
    (∀ s, st'.stats.today.key_counts_unshifted s =
      satAdd64 (st.stats.today.key_counts_unshifted s)
      ((l.map (fun e => if e.1.2 = InputSource.Keyboard then sumValsAt (k2 e.1.1) s
        else 0)).sum)) ∧
    (∀ s, st'.stats.today.key_counts_shifted s =
      satAdd64 (st.stats.today.key_counts_shifted s)
      ((l.map (fun e => if e.1.2 = InputSource.Keyboard then sumValsAt (k3 e.1.1) s
        else 0)).sum)) ∧
    (∀ s, st'.stats.today.shortcut_counts s = satAdd64 (st.stats.today.shortcut_counts s)
      ((l.map (fun e => if e.1.2 = InputSource.Keyboard then sumValsAt (k4 e.1.1) s
        else 0)).sum)) ∧
    (∀ s, st'.stats.today.mouse_button_counts s =
      satAdd64 (st.stats.today.mouse_button_counts s)
      ((l.map (fun e => if e.1.2 = InputSource.MouseSingle then sumValsAt (mb e.1.1) s
        else 0)).sum)) ∧
    st'.stats.today.app_input_counts = st.stats.today.app_input_counts := by
  intro l
  induction l with
  | nil =>
    intro st hwf hdate hok st' hst'
    obtain ⟨w1, w2, w3, w4, w5, w6, w7, w8, w9, w10, w11⟩ := hwf
    subst hst'
    exact ⟨rfl, ⟨w1, w2, w3, w4, w5, w6, w7, w8, w9, w10, w11⟩, hdate,
      (satAdd64_zero _ w1).symm, (satAdd64_zero _ w2).symm, (satAdd64_zero _ w3).symm,
      (satAdd64_zero _ w4).symm, fun s => (satAdd64_zero _ (w5 s)).symm,
      fun s => (satAdd64_zero _ (w6 s)).symm, fun s => (satAdd64_zero _ (w7 s)).symm,
      fun s => (satAdd64_zero _ (w8 s)).symm, fun s => (satAdd64_zero _ (w9 s)).symm, rfl⟩
  | cons e rest ih =>
    intro st hwf hdate hok st' hst'
    obtain ⟨w1, w2, w3, w4, w5, w6, w7, w8, w9, w10, w11⟩ := hwf
    obtain ⟨⟨o, src⟩, cnt⟩ := e
    obtain ⟨hcnt, hsc⟩ := hok _ (List.mem_cons_self _ _)
    rw [List.foldl_cons] at hst'
    cases src with
    | Keyboard =>
      obtain ⟨p1, p2, p3, p4, p5, p6, p7, p8, p9, p10, p11, p12⟩ :=
        addMeritSilent_keyboard_effect st _ c o cnt (k1 o) (k2 o) (k3 o) (k4 o) rfl hsc hcnt
          hdate
      have wf1 : StorageWF ((st.addMeritSilent c o InputSource.Keyboard cnt
          (some { key_counts := listToOpt (k1 o), key_counts_unshifted := listToOpt (k2 o),
                  key_counts_shifted := listToOpt (k3 o),
                  shortcut_counts := listToOpt (k4 o) }) none).2) := by
        refine ⟨?_, ?_, ?_, ?_, ?_, ?_, ?_, ?_, ?_, ?_, ?_⟩
        · rw [p3]; exact satAdd64_le _ _
        · rw [p4]; exact satAdd64_le _ _
        · rw [p5]; exact satAdd64_le _ _
        · rw [p6]; exact w4
        · intro s
          rw [p7, applyCounts_pointwise _ _ s (w5 s)]
          exact satAdd64_le _ _
        · intro s
          rw [p8, applyCounts_pointwise _ _ s (w6 s)]
          exact satAdd64_le _ _
        · intro s
          rw [p9, applyCounts_pointwise _ _ s (w7 s)]
          exact satAdd64_le _ _
        · intro s
          rw [p10, applyCounts_pointwise _ _ s (w8 s)]
          exact satAdd64_le _ _
        · intro s
          rw [p11]
          exact w9 s
        · show (List.map Prod.fst _).Nodup
          rw [p12]
          exact w10
        · rw [p12]
          exact w11
      have hok1 : ∀ e' ∈ rest, e'.2 ≠ 0 ∧
          ((st.addMeritSilent c o InputSource.Keyboard cnt
            (some { key_counts := listToOpt (k1 o), key_counts_unshifted := listToOpt (k2 o),
                    key_counts_shifted := listToOpt (k3 o),
                    shortcut_counts := listToOpt (k4 o) }) none).2).shouldCount e'.1.1
            e'.1.2 = true := by
        intro e' he'
        refine ⟨(hok e' (List.mem_cons_of_mem _ he')).1, ?_⟩
        rw [shouldCount_congr st _ p1]
        exact (hok e' (List.mem_cons_of_mem _ he')).2
      obtain ⟨i1, i2, i3, i4, i5, i6, i7, i8, i9, i10, i11, i12, i13⟩ :=
        ih ((st.addMeritSilent c o InputSource.Keyboard cnt
          (some { key_counts := listToOpt (k1 o), key_counts_unshifted := listToOpt (k2 o),
                  key_counts_shifted := listToOpt (k3 o),
                  shortcut_counts := listToOpt (k4 o) }) none).2) wf1 p2 hok1 st' hst'
      refine ⟨i1.trans p1, i2, i3, ?_, ?_, ?_, ?_, ?_, ?_, ?_, ?_, ?_, i13.trans p12⟩
      · rw [List.map_cons, List.sum_cons, i4, p3, satAdd64_satAdd64]
      · rw [List.map_cons, List.sum_cons, i5, p4, satAdd64_satAdd64]
      · simp only [List.map_cons, List.sum_cons, reduceIte]
        rw [i6, p5, satAdd64_satAdd64]
      · simp only [List.map_cons, List.sum_cons]
        rw [if_neg (fun h => InputSource.noConfusion h), Nat.zero_add, i7, p6]
      · intro s
        simp only [List.map_cons, List.sum_cons, reduceIte]
        rw [i8 s, p7, applyCounts_pointwise _ _ s (w5 s), satAdd64_satAdd64]
      · intro s
        simp only [List.map_cons, List.sum_cons, reduceIte]
        rw [i9 s, p8, applyCounts_pointwise _ _ s (w6 s), satAdd64_satAdd64]
      · intro s
        simp only [List.map_cons, List.sum_cons, reduceIte]
        rw [i10 s, p9, applyCounts_pointwise _ _ s (w7 s), satAdd64_satAdd64]
      · intro s
        simp only [List.map_cons, List.sum_cons, reduceIte]
        rw [i11 s, p10, applyCounts_pointwise _ _ s (w8 s), satAdd64_satAdd64]
      · intro s
        simp only [List.map_cons, List.sum_cons]
        rw [if_neg (fun h => InputSource.noConfusion h), Nat.zero_add, i12 s, p11]
    | MouseSingle =>
      obtain ⟨p1, p2, p3, p4, p5, p6, p7, p8, p9, p10, p11, p12⟩ :=
        addMeritSilent_mouse_effect st _ c o cnt (mb o) rfl hsc hcnt hdate
      have wf1 : StorageWF ((st.addMeritSilent c o InputSource.MouseSingle cnt none
          (some { mouse_button_counts := listToOpt (mb o) })).2) := by
        refine ⟨?_, ?_, ?_, ?_, ?_, ?_, ?_, ?_, ?_, ?_, ?_⟩
        · rw [p3]; exact satAdd64_le _ _
        · rw [p4]; exact satAdd64_le _ _
        · rw [p5]; exact w3
        · rw [p6]; exact satAdd64_le _ _
        · intro s
          rw [p7]
          exact w5 s
        · intro s
          rw [p8]
          exact w6 s
        · intro s
          rw [p9]
          exact w7 s
        · intro s
          rw [p10]
          exact w8 s
        · intro s
          rw [p11, applyCounts_pointwise _ _ s (w9 s)]
          exact satAdd64_le _ _
        · show (List.map Prod.fst _).Nodup
          rw [p12]
          exact w10
        · rw [p12]
          exact w11
      have hok1 : ∀ e' ∈ rest, e'.2 ≠ 0 ∧
          ((st.addMeritSilent c o InputSource.MouseSingle cnt none
            (some { mouse_button_counts := listToOpt (mb o) })).2).shouldCount e'.1.1
            e'.1.2 = true := by
        intro e' he'
        refine ⟨(hok e' (List.mem_cons_of_mem _ he')).1, ?_⟩
        rw [shouldCount_congr st _ p1]
        exact (hok e' (List.mem_cons_of_mem _ he')).2
      obtain ⟨i1, i2, i3, i4, i5, i6, i7, i8, i9, i10, i11, i12, i13⟩ :=
        ih ((st.addMeritSilent c o InputSource.MouseSingle cnt none
          (some { mouse_button_counts := listToOpt (mb o) })).2) wf1 p2 hok1 st' hst'
      refine ⟨i1.trans p1, i2, i3, ?_, ?_, ?_, ?_, ?_, ?_, ?_, ?_, ?_, i13.trans p12⟩
      · rw [List.map_cons, List.sum_cons, i4, p3, satAdd64_satAdd64]
      · rw [List.map_cons, List.sum_cons, i5, p4, satAdd64_satAdd64]
      · simp only [List.map_cons, List.sum_cons]
        rw [if_neg (fun h => InputSource.noConfusion h), Nat.zero_add, i6, p5]
      · simp only [List.map_cons, List.sum_cons, reduceIte]
        rw [i7, p6, satAdd64_satAdd64]
      · intro s
        simp only [List.map_cons, List.sum_cons]
        rw [if_neg (fun h => InputSource.noConfusion h), Nat.zero_add, i8 s, p7]
      · intro s
        simp only [List.map_cons, List.sum_cons]
        rw [if_neg (fun h => InputSource.noConfusion h), Nat.zero_add, i9 s, p8]
      · intro s
        simp only [List.map_cons, List.sum_cons]
        rw [if_neg (fun h => InputSource.noConfusion h), Nat.zero_add, i10 s, p9]
      · intro s
        simp only [List.map_cons, List.sum_cons]
        rw [if_neg (fun h => InputSource.noConfusion h), Nat.zero_add, i11 s, p10]
      · intro s
        simp only [List.map_cons, List.sum_cons, reduceIte]
        rw [i12 s, p11, applyCounts_pointwise _ _ s (w9 s), satAdd64_satAdd64]

theorem byAppFold_effect (c : Clock) (A : List String)
    (hA : A.dedup.length ≤ MAX_APP_ENTRIES_PER_DAY) :
    ∀ (l : List ((InputOrigin × InputSource × String) × (Nat × Option String)))
      (st : MeritStorage),
    StorageWF st →
    st.stats.today.date = c.date →
    (∀ e ∈ l, e.2.1 ≠ 0 ∧ st.shouldCount e.1.1 e.1.2.1 = true ∧ e.1.2.2 ∈ A) →
    (∀ a ∈ appKeys st, a ∈ A) →
    ∀ st', st' = l.foldl (fun st e =>
      (st.addAppMeritSilent c e.1.1 e.1.2.1 e.2.1
        (some { id := e.1.2.2, name := e.2.2 })).2) st →
    st'.settings = st.settings ∧
    StorageWF st' ∧
    st'.stats.today.date = c.date ∧
    st'.stats.total_merit = st.stats.total_merit ∧
    st'.stats.today.total = st.stats.today.total ∧
    st'.stats.today.keyboard = st.stats.today.keyboard ∧
    st'.stats.today.mouse_single = st.stats.today.mouse_single ∧
    st'.stats.today.key_counts = st.stats.today.key_counts ∧
    st'.stats.today.key_counts_unshifted = st.stats.today.key_counts_unshifted ∧
    st'.stats.today.key_counts_shifted = st.stats.today.key_counts_shifted ∧
    st'.stats.today.shortcut_counts = st.stats.today.shortcut_counts ∧
    st'.stats.today.mouse_button_counts = st.stats.today.mouse_button_counts ∧
    (∀ a ∈ appKeys st', a ∈ A) ∧
    (∀ a, (appStatsOf st' a).total = satAdd64 ((appStatsOf st a).total)
      ((l.map (fun e => if e.1.2.2 = a then e.2.1 else 0)).sum)) ∧
    (∀ a, (appStatsOf st' a).keyboard = satAdd64 ((appStatsOf st a).keyboard)
      ((l.map (fun e => if e.1.2.1 = InputSource.Keyboard then
        (if e.1.2.2 = a then e.2.1 else 0) else 0)).sum)) ∧
    (∀ a, (appStatsOf st' a).mouse_single = satAdd64 ((appStatsOf st a).mouse_single)
      ((l.map (fun e => if e.1.2.1 = InputSource.MouseSingle then
        (if e.1.2.2 = a then e.2.1 else 0) else 0)).sum)) := by
  intro l
  induction l with
  | nil =>
    intro st hwf hdate hok hkeys st' hst'
    subst hst'
    exact ⟨rfl, hwf, hdate, rfl, rfl, rfl, rfl, rfl, rfl, rfl, rfl, rfl, hkeys,
      fun a => (satAdd64_zero _ (appStatsOf_bounds _ hwf a).1).symm,
      fun a => (satAdd64_zero _ (appStatsOf_bounds _ hwf a).2.1).symm,
      fun a => (satAdd64_zero _ (appStatsOf_bounds _ hwf a).2.2).symm⟩
  | cons e rest ih =>
    intro st hwf hdate hok hkeys st' hst'
    obtain ⟨⟨o, src, aid⟩, cnt, nm⟩ := e
    obtain ⟨hcnt, hsc, hidA⟩ := hok _ (List.mem_cons_self _ _)
    obtain ⟨w1, w2, w3, w4, w5, w6, w7, w8, w9, w10, w11⟩ := hwf
    rw [List.foldl_cons] at hst'
    have hnd : ((updateAssocApp st.stats.today.app_input_counts aid
        (fun s => s.add nm src cnt)).map Prod.fst).Nodup :=
      nodup_keys_updateAssocApp _ _ _ w10
    have hsubk : ∀ a ∈ (updateAssocApp st.stats.today.app_input_counts aid
        (fun s => s.add nm src cnt)).map Prod.fst, a ∈ A := by
      intro a ha
      rcases mem_keys_updateAssocApp _ _ _ a ha with h1 | h2
      · exact hkeys a h1
      · rw [h2]
        exact hidA
    have hlen : ¬ MAX_APP_ENTRIES_PER_DAY <
        (updateAssocApp st.stats.today.app_input_counts aid
          (fun s => s.add nm src cnt)).length := by
      have hle := nodup_subset_dedup_length _ A hnd hsubk
      rw [List.length_map] at hle
      omega
    have eeq := addAppMeritSilent_eq st c o src cnt aid nm hsc hcnt hdate hlen
    have hPf : ∀ v : AppInputStats,
        v.total ≤ U64MAX ∧ v.keyboard ≤ U64MAX ∧ v.mouse_single ≤ U64MAX →
        (v.add nm src cnt).total ≤ U64MAX ∧ (v.add nm src cnt).keyboard ≤ U64MAX ∧
        (v.add nm src cnt).mouse_single ≤ U64MAX := by
      intro v hv
      obtain ⟨t1, t2, t3⟩ := appAdd_fields v nm src cnt hcnt
      refine ⟨by rw [t1]; exact satAdd64_le _ _, ?_, ?_⟩
      · rw [t2]
        cases src
        · exact satAdd64_le _ _
        · exact hv.2.1
      · rw [t3]
        cases src
        · exact hv.2.2
        · exact satAdd64_le _ _
    have hPall : ∀ p ∈ updateAssocApp st.stats.today.app_input_counts aid
        (fun s => s.add nm src cnt),
        p.2.total ≤ U64MAX ∧ p.2.keyboard ≤ U64MAX ∧ p.2.mouse_single ≤ U64MAX := by
      refine updateAssocApp_forall _ _ _ _ w11 ?_ hPf
      exact hPf default ⟨Nat.zero_le _, Nat.zero_le _, Nat.zero_le _⟩
    have wf1 : StorageWF ((st.addAppMeritSilent c o src cnt
        (some { id := aid, name := nm })).2) := by
      refine ⟨?_, ?_, ?_, ?_, ?_, ?_, ?_, ?_, ?_, ?_, ?_⟩
      · rw [eeq]; exact w1
      · rw [eeq]; exact w2
      · rw [eeq]; exact w3
      · rw [eeq]; exact w4
      · rw [eeq]; exact w5
      · rw [eeq]; exact w6
      · rw [eeq]; exact w7
      · rw [eeq]; exact w8
      · rw [eeq]; exact w9
      · show (List.map Prod.fst _).Nodup
        rw [eeq]
        exact hnd
      · rw [eeq]
        exact hPall
    have q1 : ((st.addAppMeritSilent c o src cnt
        (some { id := aid, name := nm })).2).settings = st.settings := by rw [eeq]
    have qd : ((st.addAppMeritSilent c o src cnt
        (some { id := aid, name := nm })).2).stats.today.date = c.date := by
      rw [eeq]
      exact hdate
    have hok1 : ∀ e' ∈ rest, e'.2.1 ≠ 0 ∧
        ((st.addAppMeritSilent c o src cnt
          (some { id := aid, name := nm })).2).shouldCount e'.1.1 e'.1.2.1 = true ∧
        e'.1.2.2 ∈ A := by
      intro e' he'
      obtain ⟨x1, x2, x3⟩ := hok e' (List.mem_cons_of_mem _ he')
      refine ⟨x1, ?_, x3⟩
      rw [shouldCount_congr st _ q1]
      exact x2
    have hkeys1 : ∀ a ∈ appKeys ((st.addAppMeritSilent c o src cnt
        (some { id := aid, name := nm })).2), a ∈ A := by
      intro a ha
      apply hsubk
      unfold appKeys at ha
      rw [eeq] at ha
      exact ha
    have hup : ∀ a, appStatsOf ((st.addAppMeritSilent c o src cnt
        (some { id := aid, name := nm })).2) a =
        if a = aid then (appStatsOf st aid).add nm src cnt else appStatsOf st a := by
      intro a
      unfold appStatsOf
      rw [eeq]
      show (assocGet (updateAssocApp st.stats.today.app_input_counts aid
        (fun s => s.add nm src cnt)) a).getD default = _
      rw [assocGet_updateAssocApp]
      by_cases ha : a = aid
      · rw [if_pos ha, if_pos ha]
        rfl
      · rw [if_neg ha, if_neg ha]
    obtain ⟨i1, i2, i3, i4, i5, i6, i7, i8, i9, i10, i11, i12, i13, i14, i15, i16⟩ :=
      ih ((st.addAppMeritSilent c o src cnt (some { id := aid, name := nm })).2) wf1 qd
        hok1 hkeys1 st' hst'
    have q3 : ((st.addAppMeritSilent c o src cnt
        (some { id := aid, name := nm })).2).stats.total_merit = st.stats.total_merit := by
      rw [eeq]
    have q4 : ((st.addAppMeritSilent c o src cnt
        (some { id := aid, name := nm })).2).stats.today.total = st.stats.today.total := by
      rw [eeq]
    have q5 : ((st.addAppMeritSilent c o src cnt
        (some { id := aid, name := nm })).2).stats.today.keyboard =
        st.stats.today.keyboard := by
      rw [eeq]
    have q6 : ((st.addAppMeritSilent c o src cnt
        (some { id := aid, name := nm })).2).stats.today.mouse_single =
        st.stats.today.mouse_single := by
      rw [eeq]
    have q7 : ((st.addAppMeritSilent c o src cnt
        (some { id := aid, name := nm })).2).stats.today.key_counts =
        st.stats.today.key_counts := by
      rw [eeq]
    have q8 : ((st.addAppMeritSilent c o src cnt
        (some { id := aid, name := nm })).2).stats.today.key_counts_unshifted =
        st.stats.today.key_counts_unshifted := by
      rw [eeq]
    have q9 : ((st.addAppMeritSilent c o src cnt
        (some { id := aid, name := nm })).2).stats.today.key_counts_shifted =
        st.stats.today.key_counts_shifted := by
      rw [eeq]
    have q10 : ((st.addAppMeritSilent c o src cnt
        (some { id := aid, name := nm })).2).stats.today.shortcut_counts =
        st.stats.today.shortcut_counts := by
      rw [eeq]
    have q11 : ((st.addAppMeritSilent c o src cnt
        (some { id := aid, name := nm })).2).stats.today.mouse_button_counts =
        st.stats.today.mouse_button_counts := by
      rw [eeq]
    refine ⟨i1.trans q1, i2, i3, i4.trans q3, i5.trans q4, i6.trans q5, i7.trans q6,
      i8.trans q7, i9.trans q8, i10.trans q9, i11.trans q10, i12.trans q11, i13,
      ?_, ?_, ?_⟩
    · intro a
      simp only [List.map_cons, List.sum_cons]
      rw [i14 a, hup a]
      by_cases hia : a = aid
      · rw [hia, if_pos rfl, if_pos rfl]
        obtain ⟨t1, t2, t3⟩ := appAdd_fields (appStatsOf st aid) nm src cnt hcnt
        rw [t1, satAdd64_satAdd64]
      · rw [if_neg hia, if_neg (fun h => hia h.symm)]
        simp
    · intro a
      simp only [List.map_cons, List.sum_cons]
      rw [i15 a, hup a]
      by_cases hia : a = aid
      · rw [hia, if_pos rfl]
        obtain ⟨t1, t2, t3⟩ := appAdd_fields (appStatsOf st aid) nm src cnt hcnt
        rw [t2]
        cases src
        · rw [satAdd64_satAdd64]
          simp
        · simp
      · rw [if_neg hia]
        cases src <;> simp [Ne.symm hia]
    · intro a
      simp only [List.map_cons, List.sum_cons]
      rw [i16 a, hup a]
      by_cases hia : a = aid
      · rw [hia, if_pos rfl]
        obtain ⟨t1, t2, t3⟩ := appAdd_fields (appStatsOf st aid) nm src cnt hcnt
        rw [t3]
        cases src
        · simp
        · rw [satAdd64_satAdd64]
          simp
      · rw [if_neg hia]
        cases src <;> simp [Ne.symm hia]

/-! ## C1 stage 6: characterizing the aggregation maps of one batch -/

theorem exByKey_pos (t : Trigger) (p : (InputOrigin × InputSource) × Nat)
    (h : exByKey t = some p) : 0 < p.2 := by
  obtain ⟨hk, hc, h0⟩ := exByKey_some_inv t p.1 p.2 h
  omega

theorem sum_keys_extend2 {κ : Type} [DecidableEq κ] (Ka Kb : List κ) (w : κ → Nat)
    (hKa : Ka.Nodup) (hKb : Kb.Nodup)
    (hza : ∀ k ∈ Ka, k ∉ Kb → w k = 0) (hzb : ∀ k ∈ Kb, k ∉ Ka → w k = 0) :
    (Ka.map w).sum = (Kb.map w).sum := by
  rw [← List.sum_toFinset w hKa, ← List.sum_toFinset w hKb]
  have h1 : ∑ x ∈ Ka.toFinset, w x = ∑ x ∈ Ka.toFinset ∩ Kb.toFinset, w x := by
    refine (Finset.sum_subset Finset.inter_subset_left ?_).symm
    intro x hx hnx
    rw [List.mem_toFinset] at hx
    refine hza x hx ?_
    intro hxb
    exact hnx (Finset.mem_inter.mpr ⟨List.mem_toFinset.mpr hx, List.mem_toFinset.mpr hxb⟩)
  have h2 : ∑ x ∈ Kb.toFinset, w x = ∑ x ∈ Ka.toFinset ∩ Kb.toFinset, w x := by
    refine (Finset.sum_subset Finset.inter_subset_right ?_).symm
    intro x hx hnx
    rw [List.mem_toFinset] at hx
    refine hzb x hx ?_
    intro hxa
    exact hnx (Finset.mem_inter.mpr ⟨List.mem_toFinset.mpr hxa, List.mem_toFinset.mpr hx⟩)
  rw [h1, h2]

theorem sumValsAt_aggPerOrigin (ex : Trigger → Option (String × Nat)) (b : List Trigger)
    (o : InputOrigin) (s : String)
    (hle : ∀ t ∈ b, ∀ p, ex t = some p → p.2 ≤ U64MAX) :
    sumValsAt (aggPerOrigin ex b o) s = min (contribEx (exAtOrigin ex o) b s) U64MAX := by
  rw [aggPerOrigin_eq]
  rw [sumValsAt_eq_getCount _ _ (nodup_keys_aggFlat _ b [] (by simp))]
  have hle2 : ∀ t ∈ b, ∀ p, exAtOrigin ex o t = some p → p.2 ≤ U64MAX :=
    fun t ht p hp => hle t ht p (exAtOrigin_inv ex o t p hp).1
  rw [getCount_aggFlat (exAtOrigin ex o) b s hle2 [] (by simp), getCount_nil, Nat.zero_add]

theorem perOrigin_zero_of_no_group (ex : Trigger → Option (String × Nat)) (b : List Trigger)
    (o : InputOrigin) (s : String) (src : InputSource)
    (hsrc : ∀ t ∈ b, ∀ p, ex t = some p → t.count ≠ 0 ∧ t.source = src)
    (hng : (o, src) ∉ (aggByKey b).map Prod.fst) :
    contribEx (exAtOrigin ex o) b s = 0 := by
  by_contra h
  obtain ⟨t, ht, c0, hxt, hc0⟩ := contribEx_pos_exists _ b s (Nat.pos_of_ne_zero h)
  obtain ⟨hx, ho⟩ := exAtOrigin_inv ex o t (s, c0) hxt
  obtain ⟨h0, hsEq⟩ := hsrc t ht (s, c0) hx
  apply hng
  rw [aggByKey_eq]
  refine (mem_keys_aggFlat exByKey b _ (fun t' ht' p hp => exByKey_pos t' p hp) []).mpr
    (Or.inr ?_)
  refine contribEx_pos_of_mem exByKey b t _ t.count ht ?_ (Nat.pos_of_ne_zero h0)
  rw [show exByKey t = some ((t.origin, t.source), t.count) by simp [exByKey, h0], ho, hsEq]

theorem nodup_keys_aggByKey (b : List Trigger) : ((aggByKey b).map Prod.fst).Nodup := by
  rw [aggByKey_eq]
  exact nodup_keys_aggFlat exByKey b [] (by simp)

theorem mem_keys_aggByKey (b : List Trigger) (k : InputOrigin × InputSource) :
    k ∈ (aggByKey b).map Prod.fst ↔ 0 < contribEx exByKey b k := by
  rw [aggByKey_eq]
  rw [mem_keys_aggFlat exByKey b k (fun t ht p hp => exByKey_pos t p hp) []]
  simp

theorem getCount_aggByKey (b : List Trigger) (hle : ∀ t ∈ b, t.count ≤ U64MAX)
    (k : InputOrigin × InputSource) :
    getCount (aggByKey b) k = min (contribEx exByKey b k) U64MAX := by
  rw [aggByKey_eq]
  have hle2 : ∀ t ∈ b, ∀ p, exByKey t = some p → p.2 ≤ U64MAX := by
    intro t ht p hp
    obtain ⟨hk, hc, h0⟩ := exByKey_some_inv t p.1 p.2 hp
    rw [hc]
    exact hle t ht
  rw [getCount_aggFlat exByKey b k hle2 [] (by simp), getCount_nil, Nat.zero_add]

theorem nodup_keys_aggByApp (b : List Trigger) : ((aggByApp b).map Prod.fst).Nodup :=
  nodup_keys_aggByApp_aux b [] (by simp)

theorem mem_keys_aggByApp (b : List Trigger) (k : InputOrigin × InputSource × String) :
    k ∈ (aggByApp b).map Prod.fst ↔ 0 < contribApp b k := by
  have h := mem_keys_aggByApp_aux b k []
  simpa using h

theorem appAggCount_aggByApp (b : List Trigger) (hle : ∀ t ∈ b, t.count ≤ U64MAX)
    (k : InputOrigin × InputSource × String) :
    appAggCount (aggByApp b) k = min (contribApp b k) U64MAX := by
  have h := appAggCount_aggByApp_aux b k hle [] (by simp)
  have h0 : appAggCount
      ([] : List ((InputOrigin × InputSource × String) × (Nat × Option String))) k = 0 := rfl
  rw [h0, Nat.zero_add] at h
  exact h

theorem mem_appKeys4 (a : String) (k : InputOrigin × InputSource × String) (h : k.2.2 = a) :
    k ∈ [(InputOrigin.Global, InputSource.Keyboard, a),
      (InputOrigin.Global, InputSource.MouseSingle, a),
      (InputOrigin.App, InputSource.Keyboard, a),
      (InputOrigin.App, InputSource.MouseSingle, a)] := by
  rcases k with ⟨o, s, i⟩
  have hi : i = a := h
  subst hi
  cases o <;> cases s <;> simp

theorem nodup_appKeys4 (a : String) :
    ([(InputOrigin.Global, InputSource.Keyboard, a),
      (InputOrigin.Global, InputSource.MouseSingle, a),
      (InputOrigin.App, InputSource.Keyboard, a),
      (InputOrigin.App, InputSource.MouseSingle, a)]).Nodup := by
  simp

/-! ## C1 stage 7: the full effect of one micro-batch -/

theorem processTriggers_view (c : Clock) (A : List String)
    (hA : A.dedup.length ≤ MAX_APP_ENTRIES_PER_DAY)
    (b : List Trigger) (st : MeritStorage)
    (hwf : StorageWF st)
    (hdate : st.stats.today.date = c.date)
    (hok : ∀ t ∈ b, TriggerOK st t)
    (hids : ∀ a ∈ appIdsOf b, a ∈ A)
    (hkeys : ∀ a ∈ appKeys st, a ∈ A) :
    (processTriggers c b st).settings = st.settings ∧
    StorageWF (processTriggers c b st) ∧
    (processTriggers c b st).stats.today.date = c.date ∧
    (∀ a ∈ appKeys (processTriggers c b st), a ∈ A) ∧
    (processTriggers c b st).stats.total_merit =
      satAdd64 st.stats.total_merit (sumCounts b) ∧
    (processTriggers c b st).stats.today.total =
      satAdd64 st.stats.today.total (sumCounts b) ∧
    (processTriggers c b st).stats.today.keyboard =
      satAdd64 st.stats.today.keyboard (sumCountsKeyboard b) ∧
    (processTriggers c b st).stats.today.mouse_single =
      satAdd64 st.stats.today.mouse_single (sumCountsMouse b) ∧
    (∀ s, (processTriggers c b st).stats.today.key_counts s =
      satAdd64 (st.stats.today.key_counts s) (contribEx exKeyboardKey b s)) ∧
    (∀ s, (processTriggers c b st).stats.today.key_counts_unshifted s =
      satAdd64 (st.stats.today.key_counts_unshifted s) (contribEx exKeyboardUnshifted b s)) ∧
    (∀ s, (processTriggers c b st).stats.today.key_counts_shifted s =
      satAdd64 (st.stats.today.key_counts_shifted s) (contribEx exKeyboardShifted b s)) ∧
    (∀ s, (processTriggers c b st).stats.today.shortcut_counts s =
      satAdd64 (st.stats.today.shortcut_counts s) (contribEx exShortcut b s)) ∧
    (∀ s, (processTriggers c b st).stats.today.mouse_button_counts s =
      satAdd64 (st.stats.today.mouse_button_counts s) (contribEx exMouseButton b s)) ∧
    (∀ a, (appStatsOf (processTriggers c b st) a).total =
      satAdd64 ((appStatsOf st a).total) (appContribTotal b a)) ∧
    (∀ a, (appStatsOf (processTriggers c b st) a).keyboard =
      satAdd64 ((appStatsOf st a).keyboard) (appContribKeyboard b a)) ∧
    (∀ a, (appStatsOf (processTriggers c b st) a).mouse_single =
      satAdd64 ((appStatsOf st a).mouse_single) (appContribMouse b a)) := by
  have hwf' := hwf
  obtain ⟨w1, w2, w3, w4, w5, w6, w7, w8, w9, w10, w11⟩ := hwf'
  by_cases hemp : (aggByKey b).isEmpty = true
  · have hb : b = [] := by
      cases hb2 : b with
      | nil => rfl
      | cons t ts =>
        exfalso
        have h1 : 0 < t.count := (hok t (by rw [hb2]; exact List.mem_cons_self _ _)).1
        have hne : t.count ≠ 0 := Nat.pos_iff_ne_zero.mp h1
        have h2 : 0 < contribEx exByKey (t :: ts) (t.origin, t.source) := by
          refine contribEx_pos_of_mem exByKey (t :: ts) t _ t.count
            (List.mem_cons_self _ _) ?_ h1
          simp [exByKey, hne]
        have h3 := (mem_keys_aggByKey (t :: ts) (t.origin, t.source)).mpr h2
        rw [← hb2] at h3
        have h4 : aggByKey b = [] := List.isEmpty_iff.mp hemp
        rw [h4] at h3
        simp at h3
    subst hb
    have hPT : processTriggers c [] st = st := rfl
    rw [hPT]
    exact ⟨rfl, hwf, hdate, hkeys, (satAdd64_zero _ w1).symm, (satAdd64_zero _ w2).symm,
      (satAdd64_zero _ w3).symm, (satAdd64_zero _ w4).symm,
      fun s => (satAdd64_zero _ (w5 s)).symm, fun s => (satAdd64_zero _ (w6 s)).symm,
      fun s => (satAdd64_zero _ (w7 s)).symm, fun s => (satAdd64_zero _ (w8 s)).symm,
      fun s => (satAdd64_zero _ (w9 s)).symm,
      fun a => (satAdd64_zero _ (appStatsOf_bounds st hwf a).1).symm,
      fun a => (satAdd64_zero _ (appStatsOf_bounds st hwf a).2.1).symm,
      fun a => (satAdd64_zero _ (appStatsOf_bounds st hwf a).2.2).symm⟩
  · rw [Bool.not_eq_true] at hemp
    have hcount_le : ∀ t ∈ b, t.count ≤ U64MAX := fun t ht => (hok t ht).2.1
    have hnodup := nodup_keys_aggByKey b
    have hgc := getCount_aggByKey b hcount_le
    have hM : 0 < U64MAX := by norm_num [U64MAX]
    have hentry : ∀ e ∈ aggByKey b, e.2 ≠ 0 ∧ st.shouldCount e.1.1 e.1.2 = true := by
      intro e he
      have hget : assocGet (aggByKey b) e.1 = some e.2 := assocGet_of_mem_nodup _ hnodup e he
      have hmem : e.1 ∈ (aggByKey b).map Prod.fst := List.mem_map_of_mem _ he
      have hcontrib : 0 < contribEx exByKey b e.1 := (mem_keys_aggByKey b e.1).mp hmem
      obtain ⟨t, ht, c0, hxt, hc0⟩ := contribEx_pos_exists exByKey b e.1 hcontrib
      obtain ⟨hk, hc, h0t⟩ := exByKey_some_inv t e.1 c0 hxt
      constructor
      · have hval : getCount (aggByKey b) e.1 = e.2 := by
          unfold getCount
          rw [hget]
          rfl
        rw [← hval, hgc e.1]
        omega
      · rw [hk]
        exact (hok t ht).2.2.1
    obtain ⟨f1, f2, f3, f4, f5, f6, f7, f8, f9, f10, f11, f12, f13⟩ :=
      byKeyFold_effect c (aggPerOrigin exKeyboardKey b) (aggPerOrigin exKeyboardUnshifted b)
        (aggPerOrigin exKeyboardShifted b) (aggPerOrigin exShortcut b)
        (aggPerOrigin exMouseButton b) (aggByKey b) st hwf hdate hentry _ rfl
    have hndA := nodup_keys_aggByApp b
    obtain ⟨g1, g2, g3, g4, g5, g6, g7, g8, g9, g10, g11, g12, g13, g14, g15, g16⟩ :=
      byAppFold_effect c A hA (aggByApp b) _ f2 f3
        (by
          intro e he
          have hget : assocGet (aggByApp b) e.1 = some e.2 :=
            assocGet_of_mem_nodup _ hndA e he
          have hmem : e.1 ∈ (aggByApp b).map Prod.fst := List.mem_map_of_mem _ he
          have hcontrib : 0 < contribApp b e.1 := (mem_keys_aggByApp b e.1).mp hmem
          obtain ⟨t, ht, ap, hap, hkEq, hcpos⟩ := contribApp_pos_exists b e.1 hcontrib
          refine ⟨?_, ?_, ?_⟩
          · have hval : appAggCount (aggByApp b) e.1 = e.2.1 := by
              unfold appAggCount
              rw [hget]
              rfl
            rw [← hval, appAggCount_aggByApp b hcount_le e.1]
            omega
          · rw [shouldCount_congr st _ f1, ← hkEq]
            exact (hok t ht).2.2.1
          · refine hids e.1.2.2 ?_
            rw [← hkEq]
            show ap.id ∈ appIdsOf b
            unfold appIdsOf
            rw [List.mem_filterMap]
            exact ⟨t, ht, by rw [hap]; rfl⟩)
        (by
          intro a ha
          refine hkeys a ?_
          unfold appKeys at ha ⊢
          rw [f13] at ha
          exact ha)
        _ rfl
    rw [processTriggers_eq c b st hemp]
    refine ⟨g1.trans f1, g2, g3, g13, ?_, ?_, ?_, ?_, ?_, ?_, ?_, ?_, ?_, ?_, ?_, ?_⟩
    · rw [g4, f4]
      have hW : ∀ e ∈ aggByKey b, (fun e => e.2) e =
          (fun k => getCount (aggByKey b) k) e.1 := by
        intro e he
        show e.2 = getCount (aggByKey b) e.1
        unfold getCount
        rw [assocGet_of_mem_nodup _ hnodup e he]
        rfl
      rw [sum_entries_keys _ _ _ hW,
        sum_keys_extend ((aggByKey b).map Prod.fst) allGroupKeys _ hnodup allGroupKeys_nodup
          (fun k _ => mem_allGroupKeys k)
          (fun k _ hk => getCount_eq_zero_of_not_mem _ k hk)]
      simp only [allGroupKeys, List.map_cons, List.map_nil, List.sum_cons, List.sum_nil]
      rw [hgc, hgc, hgc, hgc]
      have h4 := byKey_all_sum b
      unfold satAdd64 U64MAX
      omega
    · rw [g5, f5]
      have hW : ∀ e ∈ aggByKey b, (fun e => e.2) e =
          (fun k => getCount (aggByKey b) k) e.1 := by
        intro e he
        show e.2 = getCount (aggByKey b) e.1
        unfold getCount
        rw [assocGet_of_mem_nodup _ hnodup e he]
        rfl
      rw [sum_entries_keys _ _ _ hW,
        sum_keys_extend ((aggByKey b).map Prod.fst) allGroupKeys _ hnodup allGroupKeys_nodup
          (fun k _ => mem_allGroupKeys k)
          (fun k _ hk => getCount_eq_zero_of_not_mem _ k hk)]
      simp only [allGroupKeys, List.map_cons, List.map_nil, List.sum_cons, List.sum_nil]
      rw [hgc, hgc, hgc, hgc]
      have h4 := byKey_all_sum b
      unfold satAdd64 U64MAX
      omega
    · rw [g6, f6]
      have hW : ∀ e ∈ aggByKey b,
          (fun e => if e.1.2 = InputSource.Keyboard then e.2 else 0) e =
          (fun k => if k.2 = InputSource.Keyboard then getCount (aggByKey b) k else 0)
            e.1 := by
        intro e he
        show (if e.1.2 = InputSource.Keyboard then e.2 else 0) =
          (if e.1.2 = InputSource.Keyboard then getCount (aggByKey b) e.1 else 0)
        by_cases hsrc : e.1.2 = InputSource.Keyboard
        · rw [if_pos hsrc, if_pos hsrc]
          unfold getCount
          rw [assocGet_of_mem_nodup _ hnodup e he]
          rfl
        · rw [if_neg hsrc, if_neg hsrc]
      rw [sum_entries_keys _ _
          (fun k => if k.2 = InputSource.Keyboard then getCount (aggByKey b) k else 0) hW,
        sum_keys_extend ((aggByKey b).map Prod.fst) allGroupKeys _ hnodup allGroupKeys_nodup
          (fun k _ => mem_allGroupKeys k)
          (by
            intro k hmem hk
            by_cases hsrc : k.2 = InputSource.Keyboard
            · rw [if_pos hsrc]
              exact getCount_eq_zero_of_not_mem _ _ hk
            · rw [if_neg hsrc])]
      simp only [allGroupKeys, List.map_cons, List.map_nil, List.sum_cons, List.sum_nil]
      simp
      rw [hgc, hgc]
      have h2 := byKey_kb_sum b
      unfold satAdd64 U64MAX
      omega
    · rw [g7, f7]
      have hW : ∀ e ∈ aggByKey b,
          (fun e => if e.1.2 = InputSource.MouseSingle then e.2 else 0) e =
          (fun k => if k.2 = InputSource.MouseSingle then getCount (aggByKey b) k else 0)
            e.1 := by
        intro e he
        show (if e.1.2 = InputSource.MouseSingle then e.2 else 0) =
          (if e.1.2 = InputSource.MouseSingle then getCount (aggByKey b) e.1 else 0)
        by_cases hsrc : e.1.2 = InputSource.MouseSingle
        · rw [if_pos hsrc, if_pos hsrc]
          unfold getCount
          rw [assocGet_of_mem_nodup _ hnodup e he]
          rfl
        · rw [if_neg hsrc, if_neg hsrc]
      rw [sum_entries_keys _ _
          (fun k => if k.2 = InputSource.MouseSingle then getCount (aggByKey b) k else 0) hW,
        sum_keys_extend ((aggByKey b).map Prod.fst) allGroupKeys _ hnodup allGroupKeys_nodup
          (fun k _ => mem_allGroupKeys k)
          (by
            intro k hmem hk
            by_cases hsrc : k.2 = InputSource.MouseSingle
            · rw [if_pos hsrc]
              exact getCount_eq_zero_of_not_mem _ _ hk
            · rw [if_neg hsrc])]
      simp only [allGroupKeys, List.map_cons, List.map_nil, List.sum_cons, List.sum_nil]
      simp
      rw [hgc, hgc]
      have h2 := byKey_ms_sum b
      unfold satAdd64 U64MAX
      omega
    · intro s
      rw [g8, f8 s]
      have hleX : ∀ t ∈ b, ∀ p, exKeyboardKey t = some p → p.2 ≤ U64MAX := by
        intro t ht p hp
        obtain ⟨h0, hsr, hpc⟩ := exKeyboardKey_inv t p hp
        rw [hpc]
        exact hcount_le t ht
      have hsrcX : ∀ t ∈ b, ∀ p, exKeyboardKey t = some p →
          t.count ≠ 0 ∧ t.source = InputSource.Keyboard := by
        intro t ht p hp
        obtain ⟨h0, hsr, hpc⟩ := exKeyboardKey_inv t p hp
        exact ⟨h0, hsr⟩
      have hW : ∀ e ∈ aggByKey b,
          (fun e => if e.1.2 = InputSource.Keyboard then
            sumValsAt (aggPerOrigin exKeyboardKey b e.1.1) s else 0) e =
          (fun k => if k.2 = InputSource.Keyboard then
            sumValsAt (aggPerOrigin exKeyboardKey b k.1) s else 0) e.1 := fun e he => rfl
      rw [sum_entries_keys _ _
          (fun k => if k.2 = InputSource.Keyboard then
            sumValsAt (aggPerOrigin exKeyboardKey b k.1) s else 0) hW,
        sum_keys_extend ((aggByKey b).map Prod.fst) allGroupKeys _ hnodup allGroupKeys_nodup
          (fun k _ => mem_allGroupKeys k)
          (by
            intro k hmem hk
            by_cases hsrc : k.2 = InputSource.Keyboard
            · rw [if_pos hsrc]
              have hkk : (k.1, InputSource.Keyboard) = k := by
                rw [← hsrc]
              rw [sumValsAt_aggPerOrigin exKeyboardKey b k.1 s hleX,
                perOrigin_zero_of_no_group exKeyboardKey b k.1 s InputSource.Keyboard
                  hsrcX (by rw [hkk]; exact hk)]
              simp
            · rw [if_neg hsrc])]
      simp only [allGroupKeys, List.map_cons, List.map_nil, List.sum_cons, List.sum_nil]
      simp
      rw [sumValsAt_aggPerOrigin exKeyboardKey b InputOrigin.Global s hleX,
        sumValsAt_aggPerOrigin exKeyboardKey b InputOrigin.App s hleX]
      have h2 := contribEx_origin_split exKeyboardKey b s
      unfold satAdd64 U64MAX
      omega
    · intro s
      rw [g9, f9 s]
      have hleX : ∀ t ∈ b, ∀ p, exKeyboardUnshifted t = some p → p.2 ≤ U64MAX := by
        intro t ht p hp
        obtain ⟨h0, hsr, hpc⟩ := exKeyboardUnshifted_inv t p hp
        rw [hpc]
        exact hcount_le t ht
      have hsrcX : ∀ t ∈ b, ∀ p, exKeyboardUnshifted t = some p →
          t.count ≠ 0 ∧ t.source = InputSource.Keyboard := by
        intro t ht p hp
        obtain ⟨h0, hsr, hpc⟩ := exKeyboardUnshifted_inv t p hp
        exact ⟨h0, hsr⟩
      have hW : ∀ e ∈ aggByKey b,
          (fun e => if e.1.2 = InputSource.Keyboard then
            sumValsAt (aggPerOrigin exKeyboardUnshifted b e.1.1) s else 0) e =
          (fun k => if k.2 = InputSource.Keyboard then
            sumValsAt (aggPerOrigin exKeyboardUnshifted b k.1) s else 0) e.1 :=
        fun e he => rfl
      rw [sum_entries_keys _ _
          (fun k => if k.2 = InputSource.Keyboard then
            sumValsAt (aggPerOrigin exKeyboardUnshifted b k.1) s else 0) hW,
        sum_keys_extend ((aggByKey b).map Prod.fst) allGroupKeys _ hnodup allGroupKeys_nodup
          (fun k _ => mem_allGroupKeys k)
          (by
            intro k hmem hk
            by_cases hsrc : k.2 = InputSource.Keyboard
            · rw [if_pos hsrc]
              have hkk : (k.1, InputSource.Keyboard) = k := by
                rw [← hsrc]
              rw [sumValsAt_aggPerOrigin exKeyboardUnshifted b k.1 s hleX,
                perOrigin_zero_of_no_group exKeyboardUnshifted b k.1 s InputSource.Keyboard
                  hsrcX (by rw [hkk]; exact hk)]
              simp
            · rw [if_neg hsrc])]
      simp only [allGroupKeys, List.map_cons, List.map_nil, List.sum_cons, List.sum_nil]
      simp
      rw [sumValsAt_aggPerOrigin exKeyboardUnshifted b InputOrigin.Global s hleX,
        sumValsAt_aggPerOrigin exKeyboardUnshifted b InputOrigin.App s hleX]
      have h2 := contribEx_origin_split exKeyboardUnshifted b s
      unfold satAdd64 U64MAX
      omega
    · intro s
      rw [g10, f10 s]
      have hleX : ∀ t ∈ b, ∀ p, exKeyboardShifted t = some p → p.2 ≤ U64MAX := by
        intro t ht p hp
        obtain ⟨h0, hsr, hpc⟩ := exKeyboardShifted_inv t p hp
        rw [hpc]
        exact hcount_le t ht
      have hsrcX : ∀ t ∈ b, ∀ p, exKeyboardShifted t = some p →
          t.count ≠ 0 ∧ t.source = InputSource.Keyboard := by
        intro t ht p hp
        obtain ⟨h0, hsr, hpc⟩ := exKeyboardShifted_inv t p hp
        exact ⟨h0, hsr⟩
      have hW : ∀ e ∈ aggByKey b,
          (fun e => if e.1.2 = InputSource.Keyboard then
            sumValsAt (aggPerOrigin exKeyboardShifted b e.1.1) s else 0) e =
          (fun k => if k.2 = InputSource.Keyboard then
            sumValsAt (aggPerOrigin exKeyboardShifted b k.1) s else 0) e.1 :=
        fun e he => rfl
      rw [sum_entries_keys _ _
          (fun k => if k.2 = InputSource.Keyboard then
            sumValsAt (aggPerOrigin exKeyboardShifted b k.1) s else 0) hW,
        sum_keys_extend ((aggByKey b).map Prod.fst) allGroupKeys _ hnodup allGroupKeys_nodup
          (fun k _ => mem_allGroupKeys k)
          (by
            intro k hmem hk
            by_cases hsrc : k.2 = InputSource.Keyboard
            · rw [if_pos hsrc]
              have hkk : (k.1, InputSource.Keyboard) = k := by
                rw [← hsrc]
              rw [sumValsAt_aggPerOrigin exKeyboardShifted b k.1 s hleX,
                perOrigin_zero_of_no_group exKeyboardShifted b k.1 s InputSource.Keyboard
                  hsrcX (by rw [hkk]; exact hk)]
              simp
            · rw [if_neg hsrc])]
      simp only [allGroupKeys, List.map_cons, List.map_nil, List.sum_cons, List.sum_nil]
      simp
      rw [sumValsAt_aggPerOrigin exKeyboardShifted b InputOrigin.Global s hleX,
        sumValsAt_aggPerOrigin exKeyboardShifted b InputOrigin.App s hleX]
      have h2 := contribEx_origin_split exKeyboardShifted b s
      unfold satAdd64 U64MAX
      omega
    · intro s
      rw [g11, f11 s]
      have hleX : ∀ t ∈ b, ∀ p, exShortcut t = some p → p.2 ≤ U64MAX := by
        intro t ht p hp
        obtain ⟨h0, hss, hpc⟩ := exShortcut_inv t p hp
        rw [hpc]
        exact hcount_le t ht
      have hsrcX : ∀ t ∈ b, ∀ p, exShortcut t = some p →
          t.count ≠ 0 ∧ t.source = InputSource.Keyboard := by
        intro t ht p hp
        obtain ⟨h0, hss, hpc⟩ := exShortcut_inv t p hp
        exact ⟨h0, (hok t ht).2.2.2 hss⟩
      have hW : ∀ e ∈ aggByKey b,
          (fun e => if e.1.2 = InputSource.Keyboard then
            sumValsAt (aggPerOrigin exShortcut b e.1.1) s else 0) e =
          (fun k => if k.2 = InputSource.Keyboard then
            sumValsAt (aggPerOrigin exShortcut b k.1) s else 0) e.1 := fun e he => rfl
      rw [sum_entries_keys _ _
          (fun k => if k.2 = InputSource.Keyboard then
            sumValsAt (aggPerOrigin exShortcut b k.1) s else 0) hW,
        sum_keys_extend ((aggByKey b).map Prod.fst) allGroupKeys _ hnodup allGroupKeys_nodup
          (fun k _ => mem_allGroupKeys k)
          (by
            intro k hmem hk
            by_cases hsrc : k.2 = InputSource.Keyboard
            · rw [if_pos hsrc]
              have hkk : (k.1, InputSource.Keyboard) = k := by
                rw [← hsrc]
              rw [sumValsAt_aggPerOrigin exShortcut b k.1 s hleX,
                perOrigin_zero_of_no_group exShortcut b k.1 s InputSource.Keyboard
                  hsrcX (by rw [hkk]; exact hk)]
              simp
            · rw [if_neg hsrc])]
      simp only [allGroupKeys, List.map_cons, List.map_nil, List.sum_cons, List.sum_nil]
      simp
      rw [sumValsAt_aggPerOrigin exShortcut b InputOrigin.Global s hleX,
        sumValsAt_aggPerOrigin exShortcut b InputOrigin.App s hleX]
      have h2 := contribEx_origin_split exShortcut b s
      unfold satAdd64 U64MAX
      omega
    · intro s
      rw [g12, f12 s]
      have hleX : ∀ t ∈ b, ∀ p, exMouseButton t = some p → p.2 ≤ U64MAX := by
        intro t ht p hp
        obtain ⟨h0, hsr, hpc⟩ := exMouseButton_inv t p hp
        rw [hpc]
        exact hcount_le t ht
      have hsrcX : ∀ t ∈ b, ∀ p, exMouseButton t = some p →
          t.count ≠ 0 ∧ t.source = InputSource.MouseSingle := by
        intro t ht p hp
        obtain ⟨h0, hsr, hpc⟩ := exMouseButton_inv t p hp
        exact ⟨h0, hsr⟩
      have hW : ∀ e ∈ aggByKey b,
          (fun e => if e.1.2 = InputSource.MouseSingle then
            sumValsAt (aggPerOrigin exMouseButton b e.1.1) s else 0) e =
          (fun k => if k.2 = InputSource.MouseSingle then
            sumValsAt (aggPerOrigin exMouseButton b k.1) s else 0) e.1 := fun e he => rfl
      rw [sum_entries_keys _ _
          (fun k => if k.2 = InputSource.MouseSingle then
            sumValsAt (aggPerOrigin exMouseButton b k.1) s else 0) hW,
        sum_keys_extend ((aggByKey b).map Prod.fst) allGroupKeys _ hnodup allGroupKeys_nodup
          (fun k _ => mem_allGroupKeys k)
          (by
            intro k hmem hk
            by_cases hsrc : k.2 = InputSource.MouseSingle
            · rw [if_pos hsrc]
              have hkk : (k.1, InputSource.MouseSingle) = k := by
                rw [← hsrc]
              rw [sumValsAt_aggPerOrigin exMouseButton b k.1 s hleX,
                perOrigin_zero_of_no_group exMouseButton b k.1 s InputSource.MouseSingle
                  hsrcX (by rw [hkk]; exact hk)]
              simp
            · rw [if_neg hsrc])]
      simp only [allGroupKeys, List.map_cons, List.map_nil, List.sum_cons, List.sum_nil]
      simp
      rw [sumValsAt_aggPerOrigin exMouseButton b InputOrigin.Global s hleX,
        sumValsAt_aggPerOrigin exMouseButton b InputOrigin.App s hleX]
      have h2 := contribEx_origin_split exMouseButton b s
      unfold satAdd64 U64MAX
      omega
    · intro a
      rw [g14 a]
      unfold appStatsOf
      rw [f13]
      have hW : ∀ e ∈ aggByApp b, (fun e => if e.1.2.2 = a then e.2.1 else 0) e =
          (fun k => if k.2.2 = a then appAggCount (aggByApp b) k else 0) e.1 := by
        intro e he
        have hval : appAggCount (aggByApp b) e.1 = e.2.1 := by
          unfold appAggCount
          rw [assocGet_of_mem_nodup _ hndA e he]
          rfl
        show (if e.1.2.2 = a then e.2.1 else 0) =
          (if e.1.2.2 = a then appAggCount (aggByApp b) e.1 else 0)
        rw [hval]
      rw [sum_entries_keys _ _
          (fun k => if k.2.2 = a then appAggCount (aggByApp b) k else 0) hW,
        sum_keys_extend2 ((aggByApp b).map Prod.fst)
          [(InputOrigin.Global, InputSource.Keyboard, a),
           (InputOrigin.Global, InputSource.MouseSingle, a),
           (InputOrigin.App, InputSource.Keyboard, a),
           (InputOrigin.App, InputSource.MouseSingle, a)] _ hndA (nodup_appKeys4 a)
          (by
            intro k hmem hk
            have hka : ¬ k.2.2 = a := fun h => hk (mem_appKeys4 a k h)
            show (if k.2.2 = a then appAggCount (aggByApp b) k else 0) = 0
            rw [if_neg hka])
          (by
            intro k hmem hk
            show (if k.2.2 = a then appAggCount (aggByApp b) k else 0) = 0
            have hc0 : contribApp b k = 0 := by
              by_contra hcc
              exact hk ((mem_keys_aggByApp b k).mpr (Nat.pos_of_ne_zero hcc))
            rw [appAggCount_aggByApp b hcount_le k, hc0]
            simp)]
      simp only [List.map_cons, List.map_nil, List.sum_cons, List.sum_nil]
      simp
      rw [appAggCount_aggByApp b hcount_le, appAggCount_aggByApp b hcount_le,
        appAggCount_aggByApp b hcount_le, appAggCount_aggByApp b hcount_le]
      have h2 := contribApp_all_sum b a
      unfold satAdd64 U64MAX
      omega
    · intro a
      rw [g15 a]
      unfold appStatsOf
      rw [f13]
      have hW : ∀ e ∈ aggByApp b,
          (fun e => if e.1.2.1 = InputSource.Keyboard then
            (if e.1.2.2 = a then e.2.1 else 0) else 0) e =
          (fun k => if k.2.1 = InputSource.Keyboard then
            (if k.2.2 = a then appAggCount (aggByApp b) k else 0) else 0) e.1 := by
        intro e he
        have hval : appAggCount (aggByApp b) e.1 = e.2.1 := by
          unfold appAggCount
          rw [assocGet_of_mem_nodup _ hndA e he]
          rfl
        show (if e.1.2.1 = InputSource.Keyboard then (if e.1.2.2 = a then e.2.1 else 0)
            else 0) =
          (if e.1.2.1 = InputSource.Keyboard then
            (if e.1.2.2 = a then appAggCount (aggByApp b) e.1 else 0) else 0)
        rw [hval]
      rw [sum_entries_keys _ _
          (fun k => if k.2.1 = InputSource.Keyboard then
            (if k.2.2 = a then appAggCount (aggByApp b) k else 0) else 0) hW,
        sum_keys_extend2 ((aggByApp b).map Prod.fst)
          [(InputOrigin.Global, InputSource.Keyboard, a),
           (InputOrigin.Global, InputSource.MouseSingle, a),
           (InputOrigin.App, InputSource.Keyboard, a),
           (InputOrigin.App, InputSource.MouseSingle, a)] _ hndA (nodup_appKeys4 a)
          (by
            intro k hmem hk
            have hka : ¬ k.2.2 = a := fun h => hk (mem_appKeys4 a k h)
            show (if k.2.1 = InputSource.Keyboard then
              (if k.2.2 = a then appAggCount (aggByApp b) k else 0) else 0) = 0
            by_cases hsrc : k.2.1 = InputSource.Keyboard
            · rw [if_pos hsrc, if_neg hka]
            · rw [if_neg hsrc])
          (by
            intro k hmem hk
            show (if k.2.1 = InputSource.Keyboard then
              (if k.2.2 = a then appAggCount (aggByApp b) k else 0) else 0) = 0
            have hc0 : contribApp b k = 0 := by
              by_contra hcc
              exact hk ((mem_keys_aggByApp b k).mpr (Nat.pos_of_ne_zero hcc))
            by_cases hsrc : k.2.1 = InputSource.Keyboard
            · rw [if_pos hsrc]
              by_cases hka : k.2.2 = a
              · rw [if_pos hka, appAggCount_aggByApp b hcount_le k, hc0]
                simp
              · rw [if_neg hka]
            · rw [if_neg hsrc])]
      simp only [List.map_cons, List.map_nil, List.sum_cons, List.sum_nil]
      simp
      rw [appAggCount_aggByApp b hcount_le, appAggCount_aggByApp b hcount_le]
      have h2 := contribApp_kb_sum b a
      unfold satAdd64 U64MAX
      omega
    · intro a
      rw [g16 a]
      unfold appStatsOf
      rw [f13]
      have hW : ∀ e ∈ aggByApp b,
          (fun e => if e.1.2.1 = InputSource.MouseSingle then
            (if e.1.2.2 = a then e.2.1 else 0) else 0) e =
          (fun k => if k.2.1 = InputSource.MouseSingle then
            (if k.2.2 = a then appAggCount (aggByApp b) k else 0) else 0) e.1 := by
        intro e he
        have hval : appAggCount (aggByApp b) e.1 = e.2.1 := by
          unfold appAggCount
          rw [assocGet_of_mem_nodup _ hndA e he]
          rfl
        show (if e.1.2.1 = InputSource.MouseSingle then (if e.1.2.2 = a then e.2.1 else 0)
            else 0) =
          (if e.1.2.1 = InputSource.MouseSingle then
            (if e.1.2.2 = a then appAggCount (aggByApp b) e.1 else 0) else 0)
        rw [hval]
      rw [sum_entries_keys _ _
          (fun k => if k.2.1 = InputSource.MouseSingle then
            (if k.2.2 = a then appAggCount (aggByApp b) k else 0) else 0) hW,
        sum_keys_extend2 ((aggByApp b).map Prod.fst)
          [(InputOrigin.Global, InputSource.Keyboard, a),
           (InputOrigin.Global, InputSource.MouseSingle, a),
           (InputOrigin.App, InputSource.Keyboard, a),
           (InputOrigin.App, InputSource.MouseSingle, a)] _ hndA (nodup_appKeys4 a)
          (by
            intro k hmem hk
            have hka : ¬ k.2.2 = a := fun h => hk (mem_appKeys4 a k h)
            show (if k.2.1 = InputSource.MouseSingle then
              (if k.2.2 = a then appAggCount (aggByApp b) k else 0) else 0) = 0
            by_cases hsrc : k.2.1 = InputSource.MouseSingle
            · rw [if_pos hsrc, if_neg hka]
            · rw [if_neg hsrc])
          (by
            intro k hmem hk
            show (if k.2.1 = InputSource.MouseSingle then
              (if k.2.2 = a then appAggCount (aggByApp b) k else 0) else 0) = 0
            have hc0 : contribApp b k = 0 := by
              by_contra hcc
              exact hk ((mem_keys_aggByApp b k).mpr (Nat.pos_of_ne_zero hcc))
            by_cases hsrc : k.2.1 = InputSource.MouseSingle
            · rw [if_pos hsrc]
              by_cases hka : k.2.2 = a
              · rw [if_pos hka, appAggCount_aggByApp b hcount_le k, hc0]
                simp
              · rw [if_neg hka]
            · rw [if_neg hsrc])]
      simp only [List.map_cons, List.map_nil, List.sum_cons, List.sum_nil]
      simp
      rw [appAggCount_aggByApp b hcount_le, appAggCount_aggByApp b hcount_le]
      have h2 := contribApp_ms_sum b a
      unfold satAdd64 U64MAX
      omega

/-! ## C1 stage 8: composing micro-batches -/

theorem sumCounts_append (x y : List Trigger) :
    sumCounts (x ++ y) = sumCounts x + sumCounts y := by
  unfold sumCounts
  rw [List.map_append, List.sum_append]

theorem sumCountsKeyboard_append (x y : List Trigger) :
    sumCountsKeyboard (x ++ y) = sumCountsKeyboard x + sumCountsKeyboard y := by
  unfold sumCountsKeyboard
  rw [List.map_append, List.sum_append]

theorem sumCountsMouse_append (x y : List Trigger) :
    sumCountsMouse (x ++ y) = sumCountsMouse x + sumCountsMouse y := by
  unfold sumCountsMouse
  rw [List.map_append, List.sum_append]

theorem contribEx_append {κ : Type} [DecidableEq κ] (ex : Trigger → Option (κ × Nat))
    (x y : List Trigger) (k : κ) :
    contribEx ex (x ++ y) k = contribEx ex x k + contribEx ex y k := by
  unfold contribEx
  rw [List.map_append, List.sum_append]

theorem appContribTotal_append (x y : List Trigger) (a : String) :
    appContribTotal (x ++ y) a = appContribTotal x a + appContribTotal y a := by
  unfold appContribTotal
  rw [List.map_append, List.sum_append]

theorem appContribKeyboard_append (x y : List Trigger) (a : String) :
    appContribKeyboard (x ++ y) a = appContribKeyboard x a + appContribKeyboard y a := by
  unfold appContribKeyboard
  rw [List.map_append, List.sum_append]

theorem appContribMouse_append (x y : List Trigger) (a : String) :
    appContribMouse (x ++ y) a = appContribMouse x a + appContribMouse y a := by
  unfold appContribMouse
  rw [List.map_append, List.sum_append]

theorem appIdsOf_append (x y : List Trigger) :
    appIdsOf (x ++ y) = appIdsOf x ++ appIdsOf y := by
  unfold appIdsOf
  rw [List.filterMap_append]

theorem processBatches_view (c : Clock) (A : List String)
    (hA : A.dedup.length ≤ MAX_APP_ENTRIES_PER_DAY) :
    ∀ (bs : List (List Trigger)) (st : MeritStorage),
    StorageWF st →
    st.stats.today.date = c.date →
    (∀ t ∈ bs.flatten, TriggerOK st t) →
    (∀ a ∈ appIdsOf bs.flatten, a ∈ A) →
    (∀ a ∈ appKeys st, a ∈ A) →
    (processBatches c bs st).settings = st.settings ∧
    StorageWF (processBatches c bs st) ∧
    (processBatches c bs st).stats.today.date = c.date ∧
    (∀ a ∈ appKeys (processBatches c bs st), a ∈ A) ∧
    (processBatches c bs st).stats.total_merit =
      satAdd64 st.stats.total_merit (sumCounts bs.flatten) ∧
    (processBatches c bs st).stats.today.total =
      satAdd64 st.stats.today.total (sumCounts bs.flatten) ∧
    (processBatches c bs st).stats.today.keyboard =
      satAdd64 st.stats.today.keyboard (sumCountsKeyboard bs.flatten) ∧
    (processBatches c bs st).stats.today.mouse_single =
      satAdd64 st.stats.today.mouse_single (sumCountsMouse bs.flatten) ∧
    (∀ s, (processBatches c bs st).stats.today.key_counts s =
      satAdd64 (st.stats.today.key_counts s) (contribEx exKeyboardKey bs.flatten s)) ∧
    (∀ s, (processBatches c bs st).stats.today.key_counts_unshifted s =
      satAdd64 (st.stats.today.key_counts_unshifted s)
        (contribEx exKeyboardUnshifted bs.flatten s)) ∧
    (∀ s, (processBatches c bs st).stats.today.key_counts_shifted s =
      satAdd64 (st.stats.today.key_counts_shifted s)
        (contribEx exKeyboardShifted bs.flatten s)) ∧
    (∀ s, (processBatches c bs st).stats.today.shortcut_counts s =
      satAdd64 (st.stats.today.shortcut_counts s) (contribEx exShortcut bs.flatten s)) ∧
    (∀ s, (processBatches c bs st).stats.today.mouse_button_counts s =
      satAdd64 (st.stats.today.mouse_button_counts s)
        (contribEx exMouseButton bs.flatten s)) ∧
    (∀ a, (appStatsOf (processBatches c bs st) a).total =
      satAdd64 ((appStatsOf st a).total) (appContribTotal bs.flatten a)) ∧
    (∀ a, (appStatsOf (processBatches c bs st) a).keyboard =
      satAdd64 ((appStatsOf st a).keyboard) (appContribKeyboard bs.flatten a)) ∧
    (∀ a, (appStatsOf (processBatches c bs st) a).mouse_single =
      satAdd64 ((appStatsOf st a).mouse_single) (appContribMouse bs.flatten a)) := by
  intro bs
  induction bs with
  | nil =>
    intro st hwf hdate hok hids hkeys
    have hwf' := hwf
    obtain ⟨w1, w2, w3, w4, w5, w6, w7, w8, w9, w10, w11⟩ := hwf'
    exact ⟨rfl, hwf, hdate, hkeys, (satAdd64_zero _ w1).symm, (satAdd64_zero _ w2).symm,
      (satAdd64_zero _ w3).symm, (satAdd64_zero _ w4).symm,
      fun s => (satAdd64_zero _ (w5 s)).symm, fun s => (satAdd64_zero _ (w6 s)).symm,
      fun s => (satAdd64_zero _ (w7 s)).symm, fun s => (satAdd64_zero _ (w8 s)).symm,
      fun s => (satAdd64_zero _ (w9 s)).symm,
      fun a => (satAdd64_zero _ (appStatsOf_bounds st hwf a).1).symm,
      fun a => (satAdd64_zero _ (appStatsOf_bounds st hwf a).2.1).symm,
      fun a => (satAdd64_zero _ (appStatsOf_bounds st hwf a).2.2).symm⟩
  | cons b bs ih =>
    intro st hwf hdate hok hids hkeys
    have hflat : (b :: bs).flatten = b ++ bs.flatten := rfl
    rw [hflat] at hok hids
    have hokb : ∀ t ∈ b, TriggerOK st t :=
      fun t ht => hok t (List.mem_append_left _ ht)
    have hidsb : ∀ a ∈ appIdsOf b, a ∈ A := by
      intro a ha
      refine hids a ?_
      rw [appIdsOf_append]
      exact List.mem_append_left _ ha
    obtain ⟨p1, p2, p3, p4, p5, p6, p7, p8, p9, p10, p11, p12, p13, p14, p15, p16⟩ :=
      processTriggers_view c A hA b st hwf hdate hokb hidsb hkeys
    have hokr : ∀ t ∈ bs.flatten, TriggerOK (processTriggers c b st) t := by
      intro t ht
      obtain ⟨x1, x2, x3, x4⟩ := hok t (List.mem_append_right _ ht)
      refine ⟨x1, x2, ?_, x4⟩
      rw [shouldCount_congr st _ p1]
      exact x3
    have hidsr : ∀ a ∈ appIdsOf bs.flatten, a ∈ A := by
      intro a ha
      refine hids a ?_
      rw [appIdsOf_append]
      exact List.mem_append_right _ ha
    obtain ⟨i1, i2, i3, i4, i5, i6, i7, i8, i9, i10, i11, i12, i13, i14, i15, i16⟩ :=
      ih (processTriggers c b st) p2 p3 hokr hidsr p4
    have hPB : processBatches c (b :: bs) st =
        processBatches c bs (processTriggers c b st) := rfl
    rw [hPB, hflat]
    refine ⟨i1.trans p1, i2, i3, i4, ?_, ?_, ?_, ?_, ?_, ?_, ?_, ?_, ?_, ?_, ?_, ?_⟩
    · rw [i5, p5, satAdd64_satAdd64, ← sumCounts_append]
    · rw [i6, p6, satAdd64_satAdd64, ← sumCounts_append]
    · rw [i7, p7, satAdd64_satAdd64, ← sumCountsKeyboard_append]
    · rw [i8, p8, satAdd64_satAdd64, ← sumCountsMouse_append]
    · intro s
      rw [i9 s, p9 s, satAdd64_satAdd64, ← contribEx_append]
    · intro s
      rw [i10 s, p10 s, satAdd64_satAdd64, ← contribEx_append]
    · intro s
      rw [i11 s, p11 s, satAdd64_satAdd64, ← contribEx_append]
    · intro s
      rw [i12 s, p12 s, satAdd64_satAdd64, ← contribEx_append]
    · intro s
      rw [i13 s, p13 s, satAdd64_satAdd64, ← contribEx_append]
    · intro a
      rw [i14 a, p14 a, satAdd64_satAdd64, ← appContribTotal_append]
    · intro a
      rw [i15 a, p15 a, satAdd64_satAdd64, ← appContribKeyboard_append]
    · intro a
      rw [i16 a, p16 a, satAdd64_satAdd64, ← appContribMouse_append]

/-- C1 (amended): for trigger sequences whose counts are positive `u64` values
with an enabled (origin, source) combination, whose shortcut payloads ride only
on keyboard triggers (the only kind the listeners produce), and whose app ids
together with the already-recorded ones stay within the 200-entry per-day cap,
processing the sequence in any partition into micro-batches leaves `MeritStorage`
with the same total_merit, today totals, per-key, per-shortcut, per-mouse-button
and per-app counts as processing the triggers one at a time; the total rises by
one saturating addition of the sum `N` of the counts, hence by exactly `N` while
the running total stays below `u64::MAX`. -/
theorem c1_batching_invariance (c : Clock) (st : MeritStorage) (ts : List Trigger)
    (bs : List (List Trigger))
    (hwf : StorageWF st)
    (hdate : st.stats.today.date = c.date)
    (hok : ∀ t ∈ ts, TriggerOK st t)
    (hcap : (appKeys st ++ appIdsOf ts).dedup.length ≤ MAX_APP_ENTRIES_PER_DAY)
    (hpart : bs.flatten = ts) :
    (processBatches c bs st).countsView =
      (processBatches c (singletonBatches ts) st).countsView ∧
    (processBatches c bs st).stats.total_merit =
      satAdd64 st.stats.total_merit (sumCounts ts) ∧
    (st.stats.total_merit + sumCounts ts ≤ U64MAX →
      (processBatches c bs st).stats.total_merit =
        st.stats.total_merit + sumCounts ts) := by
  have hkeysA : ∀ a ∈ appKeys st, a ∈ appKeys st ++ appIdsOf ts :=
    fun a ha => List.mem_append_left _ ha
  have hidsA : ∀ a ∈ appIdsOf ts, a ∈ appKeys st ++ appIdsOf ts :=
    fun a ha => List.mem_append_right _ ha
  obtain ⟨q1, q2, q3, q4, q5, q6, q7, q8, q9, q10, q11, q12, q13, q14, q15, q16⟩ :=
    processBatches_view c (appKeys st ++ appIdsOf ts) hcap bs st hwf hdate
      (by rw [hpart]; exact hok) (by rw [hpart]; exact hidsA) hkeysA
  obtain ⟨r1, r2, r3, r4, r5, r6, r7, r8, r9, r10, r11, r12, r13, r14, r15, r16⟩ :=
    processBatches_view c (appKeys st ++ appIdsOf ts) hcap (singletonBatches ts) st hwf
      hdate (by rw [singletonBatches_flatten]; exact hok)
      (by rw [singletonBatches_flatten]; exact hidsA) hkeysA
  rw [hpart] at q5 q6 q7 q8 q9 q10 q11 q12 q13 q14 q15 q16
  rw [singletonBatches_flatten] at r5 r6 r7 r8 r9 r10 r11 r12 r13 r14 r15 r16
  refine ⟨?_, q5, fun hle => ?_⟩
  · refine CountsView.ext' _ _ ?_ ?_ ?_ ?_ ?_ ?_ ?_ ?_ ?_ ?_ ?_ ?_
    · show (processBatches c bs st).stats.total_merit =
        (processBatches c (singletonBatches ts) st).stats.total_merit
      rw [q5, r5]
    · show (processBatches c bs st).stats.today.total =
        (processBatches c (singletonBatches ts) st).stats.today.total
      rw [q6, r6]
    · show (processBatches c bs st).stats.today.keyboard =
        (processBatches c (singletonBatches ts) st).stats.today.keyboard
      rw [q7, r7]
    · show (processBatches c bs st).stats.today.mouse_single =
        (processBatches c (singletonBatches ts) st).stats.today.mouse_single
      rw [q8, r8]
    · show (processBatches c bs st).stats.today.key_counts =
        (processBatches c (singletonBatches ts) st).stats.today.key_counts
      funext s
      rw [q9 s, r9 s]
    · show (processBatches c bs st).stats.today.key_counts_unshifted =
        (processBatches c (singletonBatches ts) st).stats.today.key_counts_unshifted
      funext s
      rw [q10 s, r10 s]
    · show (processBatches c bs st).stats.today.key_counts_shifted =
        (processBatches c (singletonBatches ts) st).stats.today.key_counts_shifted
      funext s
      rw [q11 s, r11 s]
    · show (processBatches c bs st).stats.today.shortcut_counts =
        (processBatches c (singletonBatches ts) st).stats.today.shortcut_counts
      funext s
      rw [q12 s, r12 s]
    · show (processBatches c bs st).stats.today.mouse_button_counts =
        (processBatches c (singletonBatches ts) st).stats.today.mouse_button_counts
      funext s
      rw [q13 s, r13 s]
    · show (fun a => (appStatsOf (processBatches c bs st) a).total) =
        (fun a => (appStatsOf (processBatches c (singletonBatches ts) st) a).total)
      funext a
      show (appStatsOf (processBatches c bs st) a).total =
        (appStatsOf (processBatches c (singletonBatches ts) st) a).total
      rw [q14 a, r14 a]
    · show (fun a => (appStatsOf (processBatches c bs st) a).keyboard) =
        (fun a => (appStatsOf (processBatches c (singletonBatches ts) st) a).keyboard)
      funext a
      show (appStatsOf (processBatches c bs st) a).keyboard =
        (appStatsOf (processBatches c (singletonBatches ts) st) a).keyboard
      rw [q15 a, r15 a]
    · show (fun a => (appStatsOf (processBatches c bs st) a).mouse_single) =
        (fun a => (appStatsOf (processBatches c (singletonBatches ts) st) a).mouse_single)
      funext a
      show (appStatsOf (processBatches c bs st) a).mouse_single =
        (appStatsOf (processBatches c (singletonBatches ts) st) a).mouse_single
      rw [q16 a, r16 a]
  · rw [q5]
    simp only [satAdd64, U64MAX] at hle ⊢
    omega

/-- C1 counterexample to the unamended claim: a mouse trigger that carries a
shortcut string. In one batch with a keyboard trigger, the `(Global, Keyboard)`
group applies the per-origin shortcut map (which `process_triggers` fills from
every trigger carrying a shortcut, regardless of source), so `shortcut_counts`
gains the entry; processed one trigger at a time, no keyboard group exists in
the mouse trigger's batch and the shortcut count is silently dropped. -/
theorem c1_counterexample :
    (processBatches ⟨0, 0, 0⟩
      [[{ origin := InputOrigin.Global, source := InputSource.MouseSingle, count := 1,
          key_code := none, is_shifted := none, shortcut := some "s", app := none },
        { origin := InputOrigin.Global, source := InputSource.Keyboard, count := 1,
          key_code := none, is_shifted := none, shortcut := none, app := none }]]
      (MeritStorage.new 0)).stats.today.shortcut_counts "s" = 1 ∧
    (processBatches ⟨0, 0, 0⟩
      (singletonBatches
        [{ origin := InputOrigin.Global, source := InputSource.MouseSingle, count := 1,
           key_code := none, is_shifted := none, shortcut := some "s", app := none },
         { origin := InputOrigin.Global, source := InputSource.Keyboard, count := 1,
           key_code := none, is_shifted := none, shortcut := none, app := none }])
      (MeritStorage.new 0)).stats.today.shortcut_counts "s" = 0 := by
  constructor <;> rfl

theorem c1_witness :
    (StorageWF (MeritStorage.new 0) ∧
     (MeritStorage.new 0).stats.today.date = (Clock.mk 0 0 0).date ∧
     (∀ t ∈ [Trigger.mk InputOrigin.Global InputSource.Keyboard 1 none none none none],
       TriggerOK (MeritStorage.new 0) t) ∧
     (appKeys (MeritStorage.new 0) ++
       appIdsOf [Trigger.mk InputOrigin.Global InputSource.Keyboard 1 none none none
         none]).dedup.length ≤ MAX_APP_ENTRIES_PER_DAY ∧
     ([[Trigger.mk InputOrigin.Global InputSource.Keyboard 1 none none none none]] :
       List (List Trigger)).flatten =
       [Trigger.mk InputOrigin.Global InputSource.Keyboard 1 none none none none]) ∧
    ((processBatches (Clock.mk 0 0 0)
        [[Trigger.mk InputOrigin.Global InputSource.Keyboard 1 none none none none]]
        (MeritStorage.new 0)).countsView =
      (processBatches (Clock.mk 0 0 0)
        (singletonBatches
          [Trigger.mk InputOrigin.Global InputSource.Keyboard 1 none none none none])
        (MeritStorage.new 0)).countsView ∧
     (processBatches (Clock.mk 0 0 0)
        [[Trigger.mk InputOrigin.Global InputSource.Keyboard 1 none none none none]]
        (MeritStorage.new 0)).stats.total_merit =
       satAdd64 (MeritStorage.new 0).stats.total_merit
         (sumCounts
           [Trigger.mk InputOrigin.Global InputSource.Keyboard 1 none none none none]) ∧
     ((MeritStorage.new 0).stats.total_merit +
        sumCounts
          [Trigger.mk InputOrigin.Global InputSource.Keyboard 1 none none none none] ≤
          U64MAX →
       (processBatches (Clock.mk 0 0 0)
          [[Trigger.mk InputOrigin.Global InputSource.Keyboard 1 none none none none]]
          (MeritStorage.new 0)).stats.total_merit =
         (MeritStorage.new 0).stats.total_merit +
           sumCounts
             [Trigger.mk InputOrigin.Global InputSource.Keyboard 1 none none none
               none])) := by
  have hwf : StorageWF (MeritStorage.new 0) :=
    ⟨Nat.zero_le _, Nat.zero_le _, Nat.zero_le _, Nat.zero_le _, fun k => Nat.zero_le _,
      fun k => Nat.zero_le _, fun k => Nat.zero_le _, fun k => Nat.zero_le _,
      fun k => Nat.zero_le _, List.nodup_nil,
      fun p hp => absurd hp (List.not_mem_nil p)⟩
  have hok : ∀ t ∈ [Trigger.mk InputOrigin.Global InputSource.Keyboard 1 none none none
      none], TriggerOK (MeritStorage.new 0) t := by
    intro t ht
    rw [List.mem_singleton] at ht
    subst ht
    exact ⟨Nat.one_pos, by norm_num [U64MAX], rfl, fun hs => absurd hs (by simp)⟩
  have hcap : (appKeys (MeritStorage.new 0) ++
      appIdsOf [Trigger.mk InputOrigin.Global InputSource.Keyboard 1 none none none
        none]).dedup.length ≤ MAX_APP_ENTRIES_PER_DAY := by
    norm_num [appKeys, appIdsOf, MeritStorage.new, MeritStats.new, DailyStats.new,
      MAX_APP_ENTRIES_PER_DAY]
  exact ⟨⟨hwf, rfl, hok, hcap, rfl⟩,
    c1_batching_invariance (Clock.mk 0 0 0) (MeritStorage.new 0)
      [Trigger.mk InputOrigin.Global InputSource.Keyboard 1 none none none none]
      [[Trigger.mk InputOrigin.Global InputSource.Keyboard 1 none none none none]]
      hwf rfl hok hcap rfl⟩
